import Mathlib

/-!
# Gomote SSH gateway: certificate issuance and authentication

A shallow embedding of `internal/coordinator/remote/ssh.go`.

Conventions of the embedding:

* a Go `string` is a Lean `String`; every delimiter the code looks for is ASCII;
* a Go `[]byte` is a `List Nat` of byte values;
* a Go `(T, error)` result is an `Except GoError T`;
* `uint64` and `int64` values are `Nat` and `Int`, with the conversions between
  them written out (`toUint64`, `toInt64`);
* calls on collaborators and log lines are recorded, in program order, in a list
  of events returned next to the result;
* the wall clock, the random source and the library parser are parameters.

The file goes on with `internal/access/access.go` (namespace `Access`) and with parts of
`internal/task` (namespace `Task`); all definitions come first, the statements follow in
the same order.
-/

namespace Remote

/-! ## Errors -/

/-- Go `error` values built with `fmt.Errorf`: the format string, the rendered
arguments, and for a `%w` verb the wrapped error. -/
inductive GoError where
  | errorf (format : String) (args : List String)
  | wrapf (format : String) (args : List String) (inner : GoError)
  deriving DecidableEq, Repr

/-- The error one `errors.Unwrap` step below `e`, when `e` wraps one. -/
def GoError.Unwrap : GoError → Option GoError
  | .errorf _ _ => none
  | .wrapf _ _ inner => some inner

/-! ## Machine integers -/

/-- The Go conversion `uint64(x)` of an `int64`. -/
def toUint64 (x : Int) : Nat := (x % 2 ^ 64).toNat

/-- The Go conversion `int64(u)` of a `uint64`. -/
def toInt64 (u : Nat) : Int :=
  if u % 2 ^ 64 < 2 ^ 63 then ((u % 2 ^ 64 : Nat) : Int) else ((u % 2 ^ 64 : Nat) : Int) - 2 ^ 64

/-! ## Time (`time.Time`, `time.Duration`) -/

/-- A `time.Duration`: a signed count of nanoseconds. -/
abbrev Duration := Int

/-- One second, `time.Second`. -/
def Second : Duration := 1000000000

/-- A `time.Time` instant, as nanoseconds since the Unix epoch. -/
structure Time where
  nanos : Int
  deriving DecidableEq, Repr

/-- The method `Time.Unix`: whole seconds since the epoch, rounded down. -/
def Time.Unix (t : Time) : Int := t.nanos / 1000000000

/-- The method `Time.Add`. -/
def Time.Add (t : Time) (d : Duration) : Time := ⟨t.nanos + d⟩

/-! ## Keys and certificates (`golang.org/x/crypto/ssh`) -/

/-- The certificate type constant `ssh.UserCert`. -/
def UserCert : Nat := 1

/-- The certificate type constant `ssh.HostCert`. -/
def HostCert : Nat := 2

/-- The constant `ssh.CertTimeInfinity`, `1<<64 - 1`. -/
def CertTimeInfinity : Nat := 2 ^ 64 - 1

/-- The critical option that `CheckCert` leaves to the server loop. -/
def sourceAddressCriticalOption : String := "source-address"

/-- The fields of a certificate covered by its signature (`bytesForSigning`):
everything but the signature itself, keys in their wire encoding. -/
structure SignedFields where
  Nonce : List Nat
  Key : List Nat
  Serial : Nat
  CertType : Nat
  KeyId : String
  ValidPrincipals : List String
  ValidAfter : Nat
  ValidBefore : Nat
  CriticalOptions : List (String × String)
  Extensions : List (String × String)
  SignatureKey : List Nat
  deriving DecidableEq, Repr

/-- A plain `ssh.PublicKey`: its wire encoding and its signature check
(`true` for a nil error). -/
structure PublicKey where
  Marshal : List Nat
  Verify : SignedFields → List Nat → Bool

/-- The struct `ssh.Permissions`; Go maps are association lists. -/
structure Permissions where
  CriticalOptions : List (String × String)
  Extensions : List (String × String)
  deriving DecidableEq, Repr

/-- The struct `ssh.Certificate`. -/
structure Certificate where
  Nonce : List Nat
  Key : PublicKey
  Serial : Nat
  CertType : Nat
  KeyId : String
  ValidPrincipals : List String
  ValidAfter : Nat
  ValidBefore : Nat
  Permissions : Permissions
  SignatureKey : PublicKey
  Signature : List Nat

/-- The method `bytesForSigning`: the certificate without its signature. -/
def Certificate.bytesForSigning (c : Certificate) : SignedFields :=
  { Nonce := c.Nonce, Key := c.Key.Marshal, Serial := c.Serial, CertType := c.CertType,
    KeyId := c.KeyId, ValidPrincipals := c.ValidPrincipals, ValidAfter := c.ValidAfter,
    ValidBefore := c.ValidBefore, CriticalOptions := c.Permissions.CriticalOptions,
    Extensions := c.Permissions.Extensions, SignatureKey := c.SignatureKey.Marshal }

/-- An `ssh.Signer`: its public key and its signing operation. -/
structure Signer where
  PublicKey : PublicKey
  Sign : SignedFields → Except GoError (List Nat)

/-- A key offered by a client (`gssh.PublicKey`): a plain key or a certificate;
the type assertion `key.(*ssh.Certificate)` succeeds on the second. -/
inductive OfferedKey where
  | plain (k : PublicKey)
  | certificate (c : Certificate)

/-- The struct `ssh.CertChecker`, with the fields `CheckCert` reads. -/
structure CertChecker where
  SupportedCriticalOptions : List String
  IsRevoked : Option (Certificate → Bool)
  Clock : Option Time

/-- The zero value `&ssh.CertChecker{}`. -/
def CertChecker.zero : CertChecker :=
  { SupportedCriticalOptions := [], IsRevoked := none, Clock := none }

/-- The library method `(*CertChecker).CheckCert`; `timeNow` is what `time.Now`
returns when the checker has no clock of its own. -/
def CertChecker.CheckCert (c : CertChecker) (timeNow : Time) (principal : String)
    (cert : Certificate) : Except GoError Unit :=
  if (match c.IsRevoked with
      | some isRevoked => isRevoked cert
      | none => false) then
    .error (.errorf "ssh: certificate serial %d revoked" [toString cert.Serial])
  else
    match cert.Permissions.CriticalOptions.find? (fun opt =>
        opt.1 != sourceAddressCriticalOption && !c.SupportedCriticalOptions.contains opt.1) with
    | some opt =>
      .error (.errorf "ssh: unsupported critical option %q in certificate" [opt.1])
    | none =>
      if cert.ValidPrincipals.length > 0 && !cert.ValidPrincipals.contains principal then
        .error (.errorf
          "ssh: principal %q not in the set of valid principals for given certificate: %q"
          (principal :: cert.ValidPrincipals))
      else
        let clock := match c.Clock with
          | some t => t
          | none => timeNow
        let unixNow := clock.Unix
        if toInt64 cert.ValidAfter < 0 || unixNow < toInt64 cert.ValidAfter then
          .error (.errorf "ssh: cert is not yet valid" [])
        else if cert.ValidBefore != CertTimeInfinity
            && (unixNow >= toInt64 cert.ValidBefore || toInt64 cert.ValidBefore < 0) then
          .error (.errorf "ssh: cert has expired" [])
        else if !cert.SignatureKey.Verify cert.bytesForSigning cert.Signature then
          .error (.errorf "ssh: certificate signature does not verify" [])
        else
          .ok ()

/-! ## Collaborators -/

/-- A session of the registry, with the fields this file reads. -/
structure Session where
  ID : String
  HostType : String
  BuilderType : String
  deriving DecidableEq, Repr

/-- The interface `buildlet.Client`, through the methods the gateway calls; a connection
is represented by the success of `ConnectSSH`. -/
structure BuildletClient where
  ConnectSSH : String → String → Except GoError Unit
  WorkDir : Except GoError String
  IPPort : String

/-- The session registry `*SessionPool`, through its methods `Session(id)`,
`KeepAlive(ctx, id)` and `BuildletClient(id)`. -/
structure SessionPool where
  Session : String → Except GoError Session
  KeepAlive : String → Except GoError Unit
  BuildletClient : String → Except GoError BuildletClient

/-- The connection context `gssh.Context`, through `User()`. -/
structure Context where
  User : String
  deriving DecidableEq, Repr

/-- What an authentication handler does besides returning: log lines and calls
on collaborators, in program order. -/
inductive Event where
  | log (format : String) (args : List String)
  | sessionLookup (id : String)
  | checkCert (principal : String)
  | identityLookup (user : String)
  deriving DecidableEq, Repr

/-- The type `gssh.PublicKeyHandler`, returning its events with its verdict. -/
abbrev PublicKeyHandler := Context → OfferedKey → Bool × List Event

/-- Rendering of an error with `%s`: its format and arguments. -/
def GoError.text : GoError → String
  | .errorf f args => f ++ " " ++ toString args
  | .wrapf f args inner => f ++ " " ++ toString args ++ ": " ++ inner.text

/-! ## Strings (`strings` package) -/

/-- The function `strings.HasPrefix`. -/
def HasPrefix (s pre : String) : Bool := pre.data.isPrefixOf s.data

/-- The function `strings.TrimPrefix`. -/
def TrimPrefix (s pre : String) : String :=
  if HasPrefix s pre then ⟨s.data.drop pre.data.length⟩ else s

/-- The function `strings.IndexByte`: the first position of `c`, or `-1`. -/
def IndexByte (s : String) (c : Char) : Int :=
  if c ∈ s.data then (s.data.indexOf c : Int) else -1

/-- The slice expression `s[i:]`. -/
def sliceFrom (s : String) (i : Nat) : String := ⟨s.data.drop i⟩

/-- The slice expression `s[:j]`. -/
def sliceTo (s : String) (j : Nat) : String := ⟨s.data.take j⟩

/-- The function `UserFromGomoteInstanceName` (ssh.go:628-639). -/
def UserFromGomoteInstanceName (name : String) : String :=
  let name := TrimPrefix name "mutable-"
  if !HasPrefix name "user-" then ""
  else
    let user := sliceFrom name "user-".length
    let hyphen := IndexByte user '-'
    if hyphen == -1 then ""
    else sliceTo user hyphen.toNat

/-- A sample handler that logs its name and returns `verdict`. -/
def namedHandler (name : String) (verdict : Bool) : PublicKeyHandler :=
  fun _ _ => (verdict, [.log name []])

/-! ## Issuing a certificate -/

/-- What `SignPublicSSHKey` does with the random source and the signer. -/
inductive SignEvent where
  | readRand
  | signerPublicKey
  | signerSign (data : SignedFields)
  deriving DecidableEq, Repr

/-- The library method `(*Certificate).SignCert`: `rand` is the outcome of reading
the 32 nonce bytes from the random source. -/
def Certificate.SignCert (c : Certificate) (rand : Except GoError (List Nat))
    (authority : Signer) : Except GoError Certificate × List SignEvent :=
  match rand with
  | .error err => (.error err, [.readRand])
  | .ok nonce =>
    let c1 := { c with Nonce := nonce }
    let c2 := { c1 with SignatureKey := authority.PublicKey }
    match authority.Sign c2.bytesForSigning with
    | .error err => (.error err, [.readRand, .signerPublicKey, .signerSign c2.bytesForSigning])
    | .ok sig =>
      (.ok { c2 with Signature := sig },
        [.readRand, .signerPublicKey, .signerSign c2.bytesForSigning])

/-- The zero-value key a certificate literal holds in `SignatureKey` before it is
signed (a nil interface in Go). -/
def nilKey : PublicKey := { Marshal := [], Verify := fun _ _ => false }

/-- The composite literal `&ssh.Certificate` of `SignPublicSSHKey` (ssh.go:50-67);
`now1` and `now2` are the two readings of `time.Now()`. -/
def newCertificate (pubKey : PublicKey) (sessionID ownerID : String) (now1 now2 : Time)
    (d : Duration) : Certificate :=
  { Nonce := []
    Key := pubKey
    Serial := 1
    CertType := UserCert
    KeyId := "go_build"
    ValidPrincipals := [sessionID ++ "@farmer.golang.org", ownerID]
    ValidAfter := toUint64 now1.Unix
    ValidBefore := toUint64 (now2.Add d).Unix
    Permissions :=
      { CriticalOptions := []
        Extensions := [("permit-X11-forwarding", ""), ("permit-agent-forwarding", ""),
          ("permit-port-forwarding", ""), ("permit-pty", ""), ("permit-user-rc", "")] }
    SignatureKey := nilKey
    Signature := [] }

/-- The function `SignPublicSSHKey` (ssh.go:45-73). The result stands for the
bytes `ssh.MarshalAuthorizedKey(cert)`, an encoding of the signed certificate;
`ParseAuthorizedKey` is the library parser, and the `ctx` argument, which the
function does not read, is left out. -/
def SignPublicSSHKey (ParseAuthorizedKey : List Nat → Except GoError PublicKey)
    (now1 now2 : Time) (rand : Except GoError (List Nat)) (caPriKey : Signer)
    (rawPubKey : List Nat) (sessionID ownerID : String) (d : Duration) :
    Except GoError Certificate × List SignEvent :=
  match ParseAuthorizedKey rawPubKey with
  | .error err => (.error (.wrapf "unable to parse public key=%w" [] err), [])
  | .ok pubKey =>
    let cert := newCertificate pubKey sessionID ownerID now1 now2 d
    match cert.SignCert rand caPriKey with
    | (.error err, evs) => (.error (.wrapf "cerificate.SignCert() = %w" [] err), evs)
    | (.ok signed, evs) => (.ok signed, evs)

/-! ## Authentication handlers -/

/-- The function `chainSSHPublicKeyHandlers` (ssh.go:504-513): the loop over the
handlers, returning at the first one that accepts. -/
def chainSSHPublicKeyHandlers (handlers : List PublicKeyHandler) : PublicKeyHandler :=
  fun ctx key =>
    match handlers with
    | [] => (false, [])
    | handler :: rest =>
      let r := handler ctx key
      if r.1 then (true, r.2)
      else
        let r2 := chainSSHPublicKeyHandlers rest ctx key
        (r2.1, r.2 ++ r2.2)

/-- The function `handleCertificateAuthFunc` (ssh.go:518-548); `timeNow` is the
clock reading `CheckCert` takes. -/
def handleCertificateAuthFunc (timeNow : Time) (sp : SessionPool) (caKeySigner : Signer) :
    PublicKeyHandler :=
  fun ctx key =>
    let sessionID := ctx.User
    match key with
    | .plain _ => (false, [.log "public key is not a certificate session=%s" [sessionID]])
    | .certificate cert =>
      if cert.CertType != UserCert then
        (false, [.log "certificate not user cert session=%s" [sessionID]])
      else if !(cert.SignatureKey.Marshal == caKeySigner.PublicKey.Marshal) then
        (false, [.log
          "certificate is not signed by recognized Certificate Authority session=%s"
          [sessionID]])
      else
        match sp.Session sessionID with
        | .error err =>
          (false, [.sessionLookup sessionID,
            .log "HandleCertificateAuth: unable to retrieve session=%s: %s"
              [sessionID, err.text]])
        | .ok _ =>
          let certChecker := CertChecker.zero
          let wantPrincipal := sessionID ++ "@farmer.golang.org"
          match certChecker.CheckCert timeNow wantPrincipal cert with
          | .error err =>
            (false, [.sessionLookup sessionID, .checkCert wantPrincipal,
              .log "certChecker.CheckCert(%s, user_certificate) = %s"
                [wantPrincipal, err.text]])
          | .ok _ => (true, [.sessionLookup sessionID, .checkCert wantPrincipal])

/-! ## The legacy strategy and the identity source -/

/-- The conversion `[]byte(s)`: the UTF-8 bytes of a string. -/
def bytesOf (s : String) : List Nat := s.toUTF8.data.toList.map UInt8.toNat

/-- The library predicate `unicode.IsSpace`. -/
def isSpace (c : Char) : Bool :=
  c == '\t' || c == '\n' || c.toNat == 0x0B || c.toNat == 0x0C || c == '\r' || c == ' '
    || c.toNat == 0x85 || c.toNat == 0xA0 || c.toNat == 0x1680
    || (0x2000 ≤ c.toNat && c.toNat ≤ 0x200A)
    || c.toNat == 0x2028 || c.toNat == 0x2029 || c.toNat == 0x202F || c.toNat == 0x205F
    || c.toNat == 0x3000

/-- The function `strings.TrimSpace`: leading and trailing white space removed. -/
def TrimSpace (s : String) : String :=
  ⟨((s.data.dropWhile isSpace).reverse.dropWhile isSpace).reverse⟩

/-- The library function `crypto/subtle.ConstantTimeCompare`: 1 when the two slices have
equal contents, 0 otherwise. -/
def ConstantTimeCompare (x y : List Nat) : Nat := if x = y then 1 else 0

/-- The wire encoding of an offered key (its `Marshal` method); `MarshalCertificate` is
the library encoding of a certificate. -/
def OfferedKey.Marshal (MarshalCertificate : Certificate → List Nat) : OfferedKey → List Nat
  | .plain k => k.Marshal
  | .certificate c => MarshalCertificate c

/-- The function `gssh.KeysEqual` on an offered key and a plain key, neither of them nil. -/
def KeysEqual (MarshalCertificate : Certificate → List Nat) (ak : OfferedKey)
    (bk : PublicKey) : Bool :=
  let a := ak.Marshal MarshalCertificate
  let b := bk.Marshal
  a.length == b.length && ConstantTimeCompare a b == 1

/-- The struct `authorizedKey` (ssh.go:572-575). -/
structure authorizedKey where
  AuthorizedLine : String
  PublicKey : PublicKey

/-- An HTTP response of the identity source as `githubPublicKeys` reads it: the status
code, the lines the scanner yields from the body, and the error the scanner ends with. -/
structure Response where
  StatusCode : Nat
  Lines : List String
  ScanErr : Option GoError
  deriving DecidableEq, Repr

/-- The HTTP client as `githubPublicKeys` uses it: building the request for a URL
(`http.NewRequest`) and sending it (`http.DefaultClient.Do`). -/
structure HTTPClient where
  NewRequest : String → Except GoError Unit
  Do : String → Except GoError Response

/-- The scanning loop of `githubPublicKeys` (ssh.go:597-607) over the remaining lines. -/
def scanKeys (ParseAuthorizedKey : List Nat → Except GoError PublicKey) (user : String) :
    List String → List authorizedKey × List Event
  | [] => ([], [])
  | line :: rest =>
    let r := scanKeys ParseAuthorizedKey user rest
    match ParseAuthorizedKey (bytesOf line) with
    | .error err =>
      (r.1, .log "parsing github user %q key %q: %v" [user, line, err.text] :: r.2)
    | .ok key => ({ PublicKey := key, AuthorizedLine := TrimSpace line } :: r.1, r.2)

/-- The function `githubPublicKeys` (ssh.go:577-612). -/
def githubPublicKeys (http : HTTPClient)
    (ParseAuthorizedKey : List Nat → Except GoError PublicKey) (user : String) :
    List authorizedKey × List Event :=
  match http.NewRequest ("https://github.com/" ++ user ++ ".keys") with
  | .error _ => ([], [])
  | .ok _ =>
    match http.Do ("https://github.com/" ++ user ++ ".keys") with
    | .error err =>
      ([], [.identityLookup user, .log "getting %s github keys: %v" [user, err.text]])
    | .ok res =>
      if res.StatusCode != 200 then ([], [.identityLookup user])
      else
        let r := scanKeys ParseAuthorizedKey user res.Lines
        match res.ScanErr with
        | some _ => ([], .identityLookup user :: r.2)
        | none => (r.1, .identityLookup user :: r.2)

/-- The function `handleSSHPublicKeyAuth` (ssh.go:550-569); `GitHubOfGomoteUser` is the
table of `internal/gophers` from gomote user names to GitHub user names. -/
def handleSSHPublicKeyAuth (GitHubOfGomoteUser : String → String) (http : HTTPClient)
    (ParseAuthorizedKey : List Nat → Except GoError PublicKey)
    (MarshalCertificate : Certificate → List Nat) : PublicKeyHandler :=
  fun ctx key =>
    let inst := ctx.User
    let user := UserFromGomoteInstanceName inst
    if user == "" then (false, [])
    else
      let githubUser := GitHubOfGomoteUser user
      let keys := githubPublicKeys http ParseAuthorizedKey githubUser
      match keys.1.find? (fun authKey => KeysEqual MarshalCertificate key authKey.PublicKey) with
      | some authKey =>
        (true, keys.2 ++ [.log "for instance %q, github user %q key matched: %s"
          [inst, githubUser, authKey.AuthorizedLine]])
      | none => (false, keys.2)

/-! ## The gateway after authentication -/

/-- A host type of the catalog `dashboard.Hosts`, through the field `SSHUsername` and the
method `IsHermetic()`. -/
structure HostConfig where
  SSHUsername : String
  IsHermetic : Bool
  deriving DecidableEq, Repr

/-- A builder of the catalog `dashboard.Builders`, through the methods `GOOS()` and
`Env()`. -/
structure BuildConfig where
  GOOS : String
  Env : List String
  deriving DecidableEq, Repr

/-- A legacy remote buildlet `*Buildlet`: its types and `Client`, the client that its
method `Buildlet()` returns. -/
structure Buildlet where
  HostType : String
  BuilderType : String
  Client : BuildletClient

/-- The legacy table `*Buildlets`, through its map `M`. -/
structure Buildlets where
  M : String → Option Buildlet

/-- The struct `SSHServer` (ssh.go:99-105), without the library server it wraps. -/
structure SSHServer where
  gomotePublicKey : String
  privateHostKeyFile : String
  remoteBuildlets : Buildlets
  sessionPool : SessionPool

/-- An authenticated `gssh.Session`: `User()`, and from `Pty()` the terminal name and
whether a PTY was requested. -/
structure ClientSession where
  User : String
  Term : String
  isPty : Bool
  deriving DecidableEq, Repr

/-- What the gateway reads outside its own state: the catalogs `dashboard.Hosts` and
`dashboard.Builders`, and the outcomes of `net.Listen("tcp", "localhost:0")` (the port),
of `net.SplitHostPort` and of `pty.Start` on a command line. -/
structure Platform where
  Hosts : String → Option HostConfig
  Builders : String → Option BuildConfig
  Listen : Except GoError Nat
  SplitHostPort : String → Except GoError (String × String)
  PtyStart : List String → Except GoError Unit

/-- What a post-authentication handler does, in program order: text written to the
caller's session, log lines, calls on collaborators, goroutines started, and the deferred
calls, which run when the handler returns, the last registered first. -/
inductive Effect where
  | write (format : String) (args : List String)
  | log (format : String) (args : List String)
  | legacyLookup (id : String)
  | sessionLookup (id : String)
  | keepAlive (id : String)
  | renew
  | buildletClient (id : String)
  | connectSSH (user : String) (authorizedPubKey : String)
  | listen
  | proxy (port : Nat)
  | workDir
  | ptyStart (argv : List String) (env : String)
  | forwardWindowSize
  | copyStdin
  | copyStdout
  | kill
  | wait
  | closeFile
  | closeListener
  | closeConn
  | cancel
  deriving DecidableEq, Repr

/-- The effects of the last part of a handler, from `WorkDir` on: text and log lines, the
`WorkDir` call, the start of the client process and the bridging of its PTY. -/
@[simp]
def Effect.isBridging : Effect → Bool
  | .write _ _ => true
  | .log _ _ => true
  | .workDir => true
  | .ptyStart _ _ => true
  | .forwardWindowSize => true
  | .copyStdin => true
  | .copyStdout => true
  | .kill => true
  | .wait => true
  | .closeFile => true
  | _ => false

/-- The effects on the tunnel: the remote-shell connection, the local listener and the
goroutine that serves it, and their closing. -/
@[simp]
def Effect.isTunnel : Effect → Bool
  | .connectSSH _ _ => true
  | .listen => true
  | .proxy _ => true
  | .closeListener => true
  | .closeConn => true
  | _ => false

/-- The lookups of an instance, in the legacy table or in the session registry. -/
@[simp]
def Effect.isLookup : Effect → Bool
  | .legacyLookup _ => true
  | .sessionLookup _ => true
  | _ => false

/-- The text written to the caller: the format strings of the `write` effects. -/
def written : List Effect → List String
  | [] => []
  | .write format _ :: rest => format :: written rest
  | _ :: rest => written rest

/-- A run in which the remote-shell connector `ConnectSSH` is not called and no local
listener is opened. -/
def noTunnel (t : List Effect) : Prop :=
  (∀ user key, Effect.connectSSH user key ∉ t) ∧ Effect.listen ∉ t

/-- A run without any call of `KeepAlive`, `BuildletClient` or `ConnectSSH` and without a
local listener. -/
def noSessionWork (t : List Effect) : Prop :=
  (∀ id, Effect.keepAlive id ∉ t) ∧ (∀ id, Effect.buildletClient id ∉ t) ∧ noTunnel t

/-- A run that ends with a failed start of the client process: the start, the log line
that reports the error, then only deferred closing calls; the client is not started
before. -/
def endsWithFailedStart (inst : String) (err : GoError) (t : List Effect) : Prop :=
  ∃ pre argv env closers,
    t = pre ++ [.ptyStart argv env, .log "running ssh client to %s: %v" [inst, err.text]]
      ++ closers ∧
    (∀ c ∈ closers, c = .closeListener ∨ c = .closeConn ∨ c = .cancel) ∧
    (∀ e ∈ pre, ∀ a v, e ≠ .ptyStart a v)

/-- The first lines of `HandleIncomingSSHPostAuth` and of `legacyIncomingSSHPostAuth`
(ssh.go:157-161, 191-194): the flag `requestedMutable` and the instance name `inst`. -/
def mutableAndInstance (user : String) : Bool × String :=
  let inst := user
  let requestedMutable := HasPrefix inst "mutable-"
  let inst := if requestedMutable then TrimPrefix inst "mutable-" else inst
  (requestedMutable, inst)

/-- The end of both handlers (ssh.go:325-343, 467-485): the client process is started on
a PTY and bridged to the caller until it ends; the file is closed by the deferred call
registered once the process has started. -/
def startClient (pf : Platform) (s : ClientSession) (inst : String) (argv : List String) :
    List Effect :=
  .ptyStart argv ("TERM=" ++ s.Term) ::
    match pf.PtyStart argv with
    | .error err => [.log "running ssh client to %s: %v" [inst, err.text]]
    | .ok _ => [.forwardWindowSize, .copyStdin, .copyStdout, .kill, .wait, .closeFile]

/-- The part of both handlers from `WorkDir` on (ssh.go:289-343, 433-485), the same text
in both. -/
def bridge (pf : Platform) (ss : SSHServer) (s : ClientSession) (inst : String)
    (bconf : BuildConfig) (sshUser : String) (client : BuildletClient)
    (localProxyPort : Nat) : List Effect :=
  .workDir ::
    match client.WorkDir with
    | .error err => [.write "Error getting WorkDir: %v\n" [err.text]]
    | .ok workDir =>
      [.write "# `gomote push` and the builders use:\n" [],
        .write "# - workdir: %s\n" [workDir],
        .write "# - GOROOT: %s/go\n" [workDir],
        .write "# - GOPATH: %s/gopath\n" [workDir],
        .write "# - env: %s\n" [" ".intercalate bconf.Env],
        .write "# Happy debugging.\n" [],
        .log "ssh to %s: starting ssh -p %d for %s@localhost"
          [inst, toString localProxyPort, sshUser]] ++
      if bconf.GOOS == "plan9" then
        .write "# Plan9 user/pass: glenda/glenda123\n" [] ::
          match pf.SplitHostPort client.IPPort with
          | .error _ => [.write "# Failed to get IP out of %q: %v\n" [client.IPPort, "<nil>"]]
          | .ok (ip, _) =>
            startClient pf s inst
              ["/usr/local/bin/drawterm", "-a", ip, "-c", ip, "-u", "glenda", "-k", "user=glenda"]
      else
        startClient pf s inst
          ["ssh", "-p", toString localProxyPort, "-o", "UserKnownHostsFile=/dev/null",
            "-o", "StrictHostKeyChecking=no", "-i", ss.privateHostKeyFile,
            sshUser ++ "@localhost"]

/-- The part of both handlers that opens the local proxy (ssh.go:255-288, 390-432), the
same text in both, followed by `bridge` and, on return, by the deferred calls registered
here: the listener is closed, then the connection. The goroutine that accepts one
connection on the listener and copies both ways is the effect `proxy`. -/
def connectAndBridge (pf : Platform) (ss : SSHServer) (s : ClientSession) (inst : String)
    (bconf : BuildConfig) (sshUser : String) (useLocalSSHProxy : Bool)
    (client : BuildletClient) : List Effect :=
  if useLocalSSHProxy then
    match client.ConnectSSH sshUser ss.gomotePublicKey with
    | .error err =>
      [.connectSSH sshUser ss.gomotePublicKey,
        .log "buildlet(%q).ConnectSSH = %T, %v" [inst, err.text],
        .write "failed to connect to ssh on %s: %v\n" [inst, err.text]]
    | .ok _ =>
      [.connectSSH sshUser ss.gomotePublicKey,
        .log "buildlet(%q).ConnectSSH = %T, %v" [inst, "<nil>"],
        .listen] ++
      match pf.Listen with
      | .error err => [.write "local listen error: %v\n" [err.text], .closeConn]
      | .ok port =>
        [.log "ssh local proxy port for %s: %v" [inst, toString port], .proxy port] ++
          bridge pf ss s inst bconf sshUser client port ++ [.closeListener, .closeConn]
  else bridge pf ss s inst bconf sshUser client 0

/-- The five lines written when a host is not hermetic (ssh.go:231-235, 372-376). -/
def hermeticWarning (inst hostType : String) : List Effect :=
  [.write "WARNING: instance %q host type %q is not currently\n" [inst, hostType],
    .write "configured to have a hermetic filesystem per boot.\n" [],
    .write "You must be careful not to modify machine state\n" [],
    .write "that will affect future builds. Do you agree? If so,\n" [],
    .write "run gomote ssh --i-will-not-break-the-host <INST>\n" []]

/-- The method `legacyIncomingSSHPostAuth` (ssh.go:187-343). -/
def legacyIncomingSSHPostAuth (pf : Platform) (ss : SSHServer) (s : ClientSession)
    (rb : Buildlet) : List Effect :=
  let user := UserFromGomoteInstanceName s.User
  let requestedMutable := (mutableAndInstance s.User).1
  let inst := (mutableAndInstance s.User).2
  if !s.isPty then
    [.write "scp etc not yet supported; https://golang.org/issue/21140\n" []]
  else if ss.gomotePublicKey == "" then [.write "invalid gomote-ssh-public-key" []]
  else
    let hostType := rb.HostType
    match pf.Hosts hostType with
    | none => [.write "instance %q has unknown host type %q\n" [inst, hostType]]
    | some hostConf =>
      match pf.Builders rb.BuilderType with
      | none => [.write "instance %q has unknown builder type %q\n" [inst, rb.BuilderType]]
      | some bconf =>
        let sshUser := hostConf.SSHUsername
        let useLocalSSHProxy := bconf.GOOS != "plan9"
        if sshUser == "" && useLocalSSHProxy then
          [.renew,
            .write "instance %q host type %q does not have SSH configured\n" [inst, hostType],
            .cancel]
        else if !hostConf.IsHermetic && !requestedMutable then
          [.renew] ++ hermeticWarning inst hostType ++ [.cancel]
        else
          [.renew,
            .log "connecting to ssh to instance %q ..." [inst],
            .write "# Welcome to the gomote ssh proxy, %s.\n" [user],
            .write "# Connecting to/starting remote ssh...\n" [],
            .write "#\n" []] ++
          connectAndBridge pf ss s inst bconf sshUser useLocalSSHProxy rb.Client ++ [.cancel]

/-- The call `ss.sessionPool.KeepAlive(ctx, inst)` and the log line on its error
(ssh.go:360-363). -/
def keepAliveEffects (ss : SSHServer) (inst : String) : List Effect :=
  .keepAlive inst ::
    match ss.sessionPool.KeepAlive inst with
    | .error err => [.log "ssh: KeepAlive on session=%s failed: %s" [inst, err.text]]
    | .ok _ => []

/-- The method `IncomingSSHPostAuth` (ssh.go:344-485). -/
def IncomingSSHPostAuth (pf : Platform) (ss : SSHServer) (s : ClientSession)
    (rs : Session) : List Effect :=
  let inst := s.User
  match pf.Hosts rs.HostType with
  | none => [.write "instance %q has unknown host type %q\n" [inst, rs.HostType]]
  | some hostConf =>
    match pf.Builders rs.BuilderType with
    | none => [.write "instance %q has unknown builder type %q\n" [inst, rs.BuilderType]]
    | some bconf =>
      let sshUser := hostConf.SSHUsername
      let useLocalSSHProxy := bconf.GOOS != "plan9"
      if sshUser == "" && useLocalSSHProxy then
        keepAliveEffects ss inst ++
          [.write "instance %q host type %q does not have SSH configured\n" [inst, rs.HostType],
            .cancel]
      else if !hostConf.IsHermetic then
        keepAliveEffects ss inst ++ hermeticWarning inst rs.HostType ++ [.cancel]
      else
        keepAliveEffects ss inst ++
          [.log "connecting to ssh to instance %q ..." [inst],
            .write "# Welcome to the gomote ssh proxy.\n" [],
            .write "# Connecting to/starting remote ssh...\n" [],
            .write "#\n" [],
            .buildletClient inst] ++
          (match ss.sessionPool.BuildletClient inst with
            | .error err => [.write "failed to connect to ssh on %s: %v\n" [inst, err.text]]
            | .ok bc => connectAndBridge pf ss s inst bconf sshUser useLocalSSHProxy bc) ++
          [.cancel]

/-- The method `HandleIncomingSSHPostAuth` (ssh.go:156-184). -/
def HandleIncomingSSHPostAuth (pf : Platform) (ss : SSHServer) (s : ClientSession) :
    List Effect :=
  let inst := (mutableAndInstance s.User).2
  if !s.isPty then
    [.write "scp etc not yet supported; https://golang.org/issue/21140\n" []]
  else if ss.gomotePublicKey == "" then [.write "invalid gomote-ssh-public-key" []]
  else
    .legacyLookup inst ::
      match ss.remoteBuildlets.M inst with
      | some rb => legacyIncomingSSHPostAuth pf ss s rb
      | none =>
        .sessionLookup inst ::
          match ss.sessionPool.Session inst with
          | .error _ => [.write "unknown instance %q" [inst]]
          | .ok rs => IncomingSSHPostAuth pf ss s rs

/-! ## The host key file and the constructor -/

/-- What `WriteSSHPrivateKeyToTempFile` does to the local file system, in program order:
the file `ioutil.TempFile` creates (the library creates it empty, with mode 0600), the mode
change and whether it took effect, the bytes a write put into the file, and the close. -/
inductive FileEffect where
  | create (path : String) (mode : Nat)
  | chmod (path : String) (mode : Nat) (ok : Bool)
  | write (path : String) (bytes : List Nat)
  | close (path : String)
  deriving DecidableEq, Repr

/-- The local file system as one call meets it: the name of the file
`ioutil.TempFile("", "ssh-priv-key")` creates, the outcome of `Chmod` with a mode, the
count of bytes the system call behind `Write` accepts with its error, and the outcome of
`Close`. -/
structure FileSystem where
  TempFile : Except GoError String
  Chmod : Nat → Except GoError Unit
  write : List Nat → Nat × Option GoError
  Close : Option GoError

/-- The method `(*os.File).Write`: the count of bytes written and the error, which is
non-nil whenever the count differs from the length of `b`. -/
def FileSystem.Write (fs : FileSystem) (b : List Nat) : Nat × Option GoError :=
  let r := fs.write b
  let n := min r.1 b.length
  match r.2 with
  | some e => (n, some (.wrapf "write" [] e))
  | none => if n != b.length then (n, some (.errorf "short write" [])) else (n, none)

/-- The function `WriteSSHPrivateKeyToTempFile` (ssh.go:486-500): the returned path and
error, and what was done to the file system. -/
def WriteSSHPrivateKeyToTempFile (fs : FileSystem) (key : List Nat) :
    (String × Option GoError) × List FileEffect :=
  match fs.TempFile with
  | .error err => (("", some err), [])
  | .ok name =>
    match fs.Chmod 0o600 with
    | .error err => (("", some err), [.create name 0o600, .chmod name 0o600 false])
    | .ok _ =>
      let w := fs.Write key
      match w.2 with
      | some err =>
        (("", some err),
          [.create name 0o600, .chmod name 0o600 true, .write name (key.take w.1)])
      | none =>
        ((name, fs.Close),
          [.create name 0o600, .chmod name 0o600 true, .write name (key.take w.1),
            .close name])

/-- The bytes the writes of a trace put into the file `path`, in order. -/
def contentOf (path : String) : List FileEffect → List Nat
  | [] => []
  | .write p bytes :: rest => (if p = path then bytes else []) ++ contentOf path rest
  | _ :: rest => contentOf path rest

/-- The effect puts at least one byte into a file. -/
def FileEffect.writesBytes : FileEffect → Bool
  | .write _ bytes => !bytes.isEmpty
  | _ => false

/-- The library server `gssh.Server`, through the fields `NewSSHServer` sets. -/
structure Server where
  Addr : String
  PublicKeyHandler : PublicKeyHandler
  HostSigners : List Signer
  Handler : ClientSession → List Effect

/-- What the constructor and its handlers read outside their arguments: the library parser
`ssh.ParsePrivateKey`, the local file system, the clock, the table of GitHub user names, the
HTTP client, the library functions `ssh.ParseAuthorizedKey` and the certificate encoding,
and the gateway's platform. -/
structure Environment where
  ParsePrivateKey : List Nat → Except GoError Signer
  fs : FileSystem
  timeNow : Time
  GitHubOfGomoteUser : String → String
  http : HTTPClient
  ParseAuthorizedKey : List Nat → Except GoError PublicKey
  MarshalCertificate : Certificate → List Nat
  pf : Platform

/-- The function `NewSSHServer` (ssh.go:107-134): the server with the library server it
wraps, or the error returned with a nil server; and what was done to the file system.
`gomotePublicKey` is the text `string(gomotePublicKey)`. -/
def NewSSHServer (env : Environment) (addr : String) (hostPrivateKey : List Nat)
    (gomotePublicKey : String) (caPrivateKey : List Nat) (sp : SessionPool)
    (rbs : Buildlets) : Except GoError (SSHServer × Server) × List FileEffect :=
  match env.ParsePrivateKey hostPrivateKey with
  | .error err =>
    (.error (.errorf "failed to parse SSH host key: %v; not configuring SSH server"
      [err.text]), [])
  | .ok hostSigner =>
    match env.ParsePrivateKey caPrivateKey with
    | .error err =>
      (.error (.errorf "failed to parse SSH host key: %v; not configuring SSH server"
        [err.text]), [])
    | .ok CASigner =>
      let w := WriteSSHPrivateKeyToTempFile env.fs hostPrivateKey
      match w.1.2 with
      | some err =>
        (.error (.errorf
          "error writing ssh private key to temp file: %v; not configuring SSH server"
          [err.text]), w.2)
      | none =>
        let s : SSHServer :=
          { gomotePublicKey := gomotePublicKey
            privateHostKeyFile := w.1.1
            remoteBuildlets := rbs
            sessionPool := sp }
        (.ok (s,
          { Addr := addr
            PublicKeyHandler := chainSSHPublicKeyHandlers
              [handleSSHPublicKeyAuth env.GitHubOfGomoteUser env.http env.ParseAuthorizedKey
                env.MarshalCertificate,
               handleCertificateAuthFunc env.timeNow sp CASigner]
            HostSigners := [hostSigner]
            Handler := HandleIncomingSSHPostAuth env.pf s }), w.2)

/-! ## Sample values

Concrete keys, signers and registries on which the statements below are
evaluated. The signature scheme is a toy one: a signature is the authority's
key bytes followed by the signed nonce, subject key and validity bounds. -/

/-- A sample key with wire encoding `b`. -/
def demoKey (b : List Nat) : PublicKey :=
  { Marshal := b
    Verify := fun data sig =>
      sig == b ++ data.Nonce ++ data.Key ++ [data.ValidAfter, data.ValidBefore] }

/-- A sample signer whose public key is `demoKey b`. -/
def demoSigner (b : List Nat) : Signer :=
  { PublicKey := demoKey b
    Sign := fun data => .ok (b ++ data.Nonce ++ data.Key ++ [data.ValidAfter, data.ValidBefore]) }

/-- A sample signer whose signing operation always fails. -/
def brokenSigner (b : List Nat) : Signer :=
  { PublicKey := demoKey b
    Sign := fun _ => .error (.errorf "signer unavailable" []) }

/-- A sample registry holding exactly the sessions named in `ids`. -/
def demoPool (ids : List String) : SessionPool :=
  { Session := fun id =>
      if ids.contains id then .ok { ID := id, HostType := "host-linux", BuilderType := "linux-amd64" }
      else .error (.errorf "session %q not found" [id])
    KeepAlive := fun id =>
      if ids.contains id then .ok () else .error (.errorf "session %q not found" [id])
    BuildletClient := fun id =>
      if ids.contains id then
        .ok { ConnectSSH := fun _ _ => .ok (), WorkDir := .ok "/workdir", IPPort := "10.0.0.7:22" }
      else .error (.errorf "session %q not found" [id]) }

/-- A sample parser: an empty input does not parse, any other input is the key
with that encoding. -/
def demoParse (raw : List Nat) : Except GoError PublicKey :=
  if raw.isEmpty then .error (.errorf "ssh: no key found" []) else .ok (demoKey raw)

/-- A sample certificate: a user certificate for `principals`, valid in
`[after, before)`, naming `demoKey signer` as its signing key, with `sig` as its
signature. -/
def demoCert (signer : List Nat) (principals : List String) (after before : Nat)
    (sig : List Nat) : Certificate :=
  { Nonce := [7]
    Key := demoKey [1]
    Serial := 1
    CertType := UserCert
    KeyId := "go_build"
    ValidPrincipals := principals
    ValidAfter := after
    ValidBefore := before
    Permissions := { CriticalOptions := [], Extensions := [] }
    SignatureKey := demoKey signer
    Signature := sig }

/-- A sample certificate of the authority `[5]`, correctly signed, listing no principal. -/
def certNoPrincipals : Certificate := demoCert [5] [] 10 20 [5, 7, 1, 10, 20]

/-- A sample certificate naming the authority `[5]` for session `s1`, with a signature
that does not verify. -/
def certBadSignature : Certificate := demoCert [5] ["s1@farmer.golang.org"] 10 20 [0]

/-- A sample certificate of the authority `[5]` for session `s1`, correctly signed,
carrying the critical option `force-command`. -/
def certForcedCommand : Certificate :=
  { demoCert [5] ["s1@farmer.golang.org"] 10 20 [5, 7, 1, 10, 20] with
    Permissions := { CriticalOptions := [("force-command", "ls")], Extensions := [] } }

/-- A sample certificate of the authority `[5]` for session `s1`, correctly signed, whose
`ValidBefore` is `2^63`. -/
def certFarExpiry : Certificate :=
  demoCert [5] ["s1@farmer.golang.org"] 10 9223372036854775808
    [5, 7, 1, 10, 9223372036854775808]

/-- A sample line parser: a line is a key when it starts with `ssh-`, and the key is the
one with the bytes of the line as its encoding. -/
def demoLineParse (raw : List Nat) : Except GoError PublicKey :=
  if [115, 115, 104, 45].isPrefixOf raw then .ok (demoKey raw)
  else .error (.errorf "ssh: no key found" [])

/-- A sample identity source: `alice` has the lines in `lines`, any other user gets the
status 404. -/
def demoGitHub (lines : List String) : HTTPClient :=
  { NewRequest := fun _ => .ok ()
    Do := fun url =>
      if url == "https://github.com/alice.keys" then
        .ok { StatusCode := 200, Lines := lines, ScanErr := none }
      else .ok { StatusCode := 404, Lines := ["Not Found"], ScanErr := none } }

/-- A sample identity source whose reply, for every user, has the status 200 and the lines
in `lines`, after which the scanner ends with an error (a line too long for its buffer). -/
def cutShortGitHub (lines : List String) : HTTPClient :=
  { NewRequest := fun _ => .ok ()
    Do := fun _ =>
      .ok { StatusCode := 200, Lines := lines
            ScanErr := some (.errorf "bufio.Scanner: token too long" []) } }

/-- A sample certificate encoding: the byte 0 followed by the encoding of the subject
key. -/
def demoMarshalCertificate (c : Certificate) : List Nat := 0 :: c.Key.Marshal

/-- A sample buildlet client: every call succeeds. -/
def demoClient : BuildletClient :=
  { ConnectSSH := fun _ _ => .ok (), WorkDir := .ok "/workdir", IPPort := "10.0.0.7:22" }

/-- A sample buildlet client whose `ConnectSSH` fails. -/
def refusingClient : BuildletClient :=
  { ConnectSSH := fun _ _ => .error (.errorf "connection refused" [])
    WorkDir := .ok "/workdir", IPPort := "10.0.0.7:22" }

/-- A sample catalog and system: `host-linux` is hermetic with SSH user `root`,
`host-darwin` is not hermetic with SSH user `gopher`, `host-bare` has no SSH user,
`host-plan9` is hermetic and has no SSH user; builders exist for linux, darwin and plan9;
the listener gets port 40000 and the client process starts. -/
def demoPlatform : Platform :=
  { Hosts := fun h =>
      if h == "host-linux" then some { SSHUsername := "root", IsHermetic := true }
      else if h == "host-darwin" then some { SSHUsername := "gopher", IsHermetic := false }
      else if h == "host-bare" then some { SSHUsername := "", IsHermetic := true }
      else if h == "host-plan9" then some { SSHUsername := "", IsHermetic := true }
      else none
    Builders := fun b =>
      if b == "linux-amd64" then some { GOOS := "linux", Env := ["GO_BUILDER=linux-amd64"] }
      else if b == "darwin-arm64" then some { GOOS := "darwin", Env := [] }
      else if b == "plan9-386" then some { GOOS := "plan9", Env := [] }
      else none
    Listen := .ok 40000
    SplitHostPort := fun _ => .ok ("10.0.0.7", "22")
    PtyStart := fun _ => .ok () }

/-- The sample system on which the local listener cannot be bound. -/
def noListenPlatform : Platform :=
  { demoPlatform with Listen := .error (.errorf "listen tcp: address already in use" []) }

/-- The sample system on which the client process cannot be started on a PTY. -/
def noPtyPlatform : Platform :=
  { demoPlatform with PtyStart := fun _ => .error (.errorf "fork/exec ssh: no such file" []) }

/-- A sample registry holding the sessions of `sessions`, all served by `client`. -/
def demoRegistry (sessions : List Session) (client : BuildletClient) : SessionPool :=
  { Session := fun id =>
      match sessions.find? (fun x => x.ID == id) with
      | some x => .ok x
      | none => .error (.errorf "session %q not found" [id])
    KeepAlive := fun id =>
      match sessions.find? (fun x => x.ID == id) with
      | some _ => .ok ()
      | none => .error (.errorf "session %q not found" [id])
    BuildletClient := fun id =>
      match sessions.find? (fun x => x.ID == id) with
      | some _ => .ok client
      | none => .error (.errorf "session %q not found" [id]) }

/-- A sample server with the legacy buildlets of `legacy` and the sessions of `sessions`. -/
def demoServer (legacy : List (String × Buildlet)) (sessions : List Session)
    (client : BuildletClient) : SSHServer :=
  { gomotePublicKey := "ssh-ed25519 AAAAC3 gomote"
    privateHostKeyFile := "/tmp/ssh-priv-key1"
    remoteBuildlets := { M := fun id => (legacy.find? (fun x => x.1 == id)).map (fun x => x.2) }
    sessionPool := demoRegistry sessions client }

/-- A sample session on the non-hermetic host type `host-darwin`. -/
def darwinSession : Session :=
  { ID := "user-alice-darwin-arm64-0", HostType := "host-darwin", BuilderType := "darwin-arm64" }

/-- A sample session on the hermetic host type `host-linux`. -/
def linuxSession : Session :=
  { ID := "user-alice-linux-amd64-0", HostType := "host-linux", BuilderType := "linux-amd64" }

/-- A sample legacy buildlet on the non-hermetic host type `host-darwin`. -/
def darwinBuildlet : Buildlet :=
  { HostType := "host-darwin", BuilderType := "darwin-arm64", Client := demoClient }

/-- A sample plan9 session: `host-plan9` has no SSH user. -/
def plan9Session : Session :=
  { ID := "user-alice-plan9-386-0", HostType := "host-plan9", BuilderType := "plan9-386" }

/-- The sample server without its gomote public key. -/
def keylessServer : SSHServer :=
  { demoServer [] [] demoClient with gomotePublicKey := "" }

/-- A sample file system: the temporary file is `/tmp/ssh-priv-key1`, every operation
succeeds, and a write accepts at most `limit` bytes. -/
def demoFS (limit : Nat) : FileSystem :=
  { TempFile := .ok "/tmp/ssh-priv-key1"
    Chmod := fun _ => .ok ()
    write := fun b => (min limit b.length, none)
    Close := none }

/-- A sample private-key parser: a key is its bytes, and the empty input is refused. -/
def demoParsePrivateKey (raw : List Nat) : Except GoError Signer :=
  if raw.isEmpty then .error (.errorf "ssh: no key found" []) else .ok (demoSigner raw)

/-- A sample environment around `demoFS limit`. -/
def demoEnvironment (limit : Nat) : Environment :=
  { ParsePrivateKey := demoParsePrivateKey
    fs := demoFS limit
    timeNow := ⟨15000000000⟩
    GitHubOfGomoteUser := fun u => u
    http := demoGitHub []
    ParseAuthorizedKey := demoLineParse
    MarshalCertificate := demoMarshalCertificate
    pf := demoPlatform }

end Remote

/-!
# Identity-aware proxy authentication

A shallow embedding of `internal/access/access.go`.
-/

namespace Access

/-- The header the proxy stores the JWT in (`iapHeaderJWT`). -/
def iapHeaderJWT : String := "X-Goog-IAP-JWT-Assertion"

/-- The header the proxy stores the email in (`iapHeaderEmail`). -/
def iapHeaderEmail : String := "X-Goog-Authenticated-User-Email"

/-- The header the proxy stores the user id in (`iapHeaderID`). -/
def iapHeaderID : String := "X-Goog-Authenticated-User-Id"

/-- The struct `IAPFields`. -/
structure IAPFields where
  Email : String
  ID : String
  deriving DecidableEq, Repr

/-- The request metadata `metadata.MD`, through its method `Get`: the values stored for a
header name. -/
structure MD where
  Get : String → List String

/-- What `ctx.Value(contextIAP)` can hold: a value of type `IAPFields`, or a value of
another type. -/
inductive ContextValue where
  | iap (fields : IAPFields)
  | other (typeName : String)
  deriving DecidableEq, Repr

/-- A `context.Context`, through what this package reads from it: the incoming metadata
(`metadata.FromIncomingContext`), absent or present, and the value stored under the key
`contextIAP`, absent or present. -/
structure Context where
  incoming : Option MD
  value : Option ContextValue

/-- The status codes of `google.golang.org/grpc/codes` this package uses. -/
inductive Code where
  | Internal
  | Unauthenticated
  deriving DecidableEq, Repr

/-- The method `Code.String`. -/
def Code.String : Code → String
  | .Internal => "Internal"
  | .Unauthenticated => "Unauthenticated"

/-- An error built by `status.Error(code, message)`. -/
structure Status where
  code : Code
  message : String
  deriving DecidableEq, Repr

/-- The type `validator`: the check of a token against an audience in a context; the
payload it returns on success is not read by this package. -/
abbrev validator := Context → String → String → Except Remote.GoError Unit

/-- The function `IAPFromContext` (access.go:49-60). -/
def IAPFromContext (ctx : Context) : Except Remote.GoError IAPFields :=
  match ctx.value with
  | none => .error (.errorf "IAP fields not found in context" [])
  | some (.other _) => .error (.errorf "context value retrieved does not match expected type" [])
  | some (.iap iap) => .ok iap

/-- The function `ContextWithIAP` (access.go:110-113): `context.WithValue` under the key
`contextIAP`. -/
def ContextWithIAP (ctx : Context) (iap : IAPFields) : Context :=
  { ctx with value := some (.iap iap) }

/-- The closure `retrieveFn` of `contextWithIAPMD` (access.go:92-98). -/
def retrieveFn (fmd : MD) (mdKey : String) : Except Remote.GoError String :=
  match fmd.Get mdKey with
  | [] => .error (.errorf "unable to retrieve %s from GRPC metadata" [mdKey])
  | v :: _ =>
    if v == "" then .error (.errorf "unable to retrieve %s from GRPC metadata" [mdKey])
    else .ok v

/-- The function `contextWithIAPMD` (access.go:90-108): the context returned and the
error. -/
def contextWithIAPMD (ctx : Context) (md : MD) : Context × Option Remote.GoError :=
  match retrieveFn md iapHeaderEmail with
  | .error _ => (ctx, some (.errorf "unable to retrieve metadata field: %s" [iapHeaderEmail]))
  | .ok email =>
    match retrieveFn md iapHeaderID with
    | .error _ => (ctx, some (.errorf "unable to retrieve metadata field: %s" [iapHeaderID]))
    | .ok id => (ContextWithIAP ctx { Email := email, ID := id }, none)

/-- The function `iapAuthFunc` (access.go:62-88): for a context, the context and the error
the authentication function returns, and the lines it logs. -/
def iapAuthFunc (audience : String) (validatorFn : validator) (ctx : Context) :
    (Context × Option Status) × List (String × List String) :=
  match ctx.incoming with
  | none => ((ctx, some ⟨.Internal, Code.Internal.String⟩), [])
  | some md =>
    match md.Get iapHeaderJWT with
    | [] => ((ctx, some ⟨.Unauthenticated, "IAP JWT not found in request"⟩), [])
    | jwt0 :: _ =>
      match validatorFn ctx jwt0 audience with
      | .error err =>
        ((ctx, some ⟨.Unauthenticated, "unable to authenticate"⟩),
          [("access: error validating JWT: %s", [err.text])])
      | .ok _ =>
        match contextWithIAPMD ctx md with
        | (ctx2, some err) =>
          ((ctx2, some ⟨.Unauthenticated, "unable to authenticate"⟩),
            [("access: unable to set IAP fields in context: %s", [err.text])])
        | (ctx2, none) => ((ctx2, none), [])

/-- Sample metadata holding the given header values. -/
def demoMD (headers : List (String × List String)) : MD :=
  { Get := fun k => ((headers.find? (fun h => h.1 == k)).map (fun h => h.2)).getD [] }

/-- A sample validator: it accepts the token `good-token` for the audience `aud`. -/
def demoValidator : validator :=
  fun _ token audience =>
    if token == "good-token" && audience == "aud" then .ok ()
    else .error (.errorf "idtoken: invalid token" [])

/-- A sample request context carrying the three headers of the proxy. -/
def demoContext : Context :=
  { incoming := some (demoMD
      [(iapHeaderJWT, ["good-token"]),
       (iapHeaderEmail, ["accounts.google.com:gopher@example.com"]),
       (iapHeaderID, ["accounts.google.com:1234"])])
    value := none }

end Access

/-!
# Release tasks: versions, announcements, archives

A shallow embedding of parts of `internal/task`: `version.go` (`GetNextVersion`,
`nextVersion`), `announce.go` (the template choice of `announcementMail`) and
`buildrelease.go` (`fixupCrossCompile`).

A Go `string` is here a Lean `String`, that is, valid UTF-8 text; an index into a string
is a byte index, as in Go, and a slice taken at an index inside a rune is kept apart from
text. An `int` is an `Int` reduced to 64 bits after each operation. A loop without a bound
takes a count of iterations it may run (`fuel`) and returns `none` when the count is used
up before the loop ends.
-/

namespace Task

/-! ## Library functions (`strings`, `strconv`, `fmt`) -/

/-- The result of an `int` operation: the value reduced to 64 bits. -/
def wrapInt (x : Int) : Int := Remote.toInt64 (Remote.toUint64 x)

/-- The verb `%d` of `fmt.Sprintf` on an `int`. -/
def formatInt : Int → String
  | .ofNat m => Nat.repr m
  | .negSucc m => "-" ++ Nat.repr (m + 1)

/-- The test `'0' <= r && r <= '9'`. -/
def isDigit (r : Char) : Bool := decide ('0' ≤ r) && decide (r ≤ '9')

/-- The loop of `strings.LastIndexFunc` read forwards: `off` is the byte index of the next
rune, `found` the byte index of the last rune seen that satisfies `f`. -/
def lastIndexFrom (f : Char → Bool) : List Char → Nat → Int → Int
  | [], _, found => found
  | c :: cs, off, found => lastIndexFrom f cs (off + c.utf8Size) (if f c then (off : Int) else found)

/-- The function `strings.LastIndexFunc`: the byte index of the last rune satisfying `f`,
or `-1`. -/
def LastIndexFunc (s : String) (f : Char → Bool) : Int := lastIndexFrom f s.data 0 (-1)

/-- The runes before and from byte index `i`; `none` when `i` lies inside a rune or beyond
the end. -/
def splitAtByte : List Char → Nat → Option (List Char × List Char)
  | cs, 0 => some ([], cs)
  | [], _ + 1 => none
  | c :: cs, i + 1 =>
    if c.utf8Size ≤ i + 1 then
      (splitAtByte cs (i + 1 - c.utf8Size)).map (fun p => (c :: p.1, p.2))
    else none

/-- The value of a run of decimal digits, as the loops of `strconv` compute it. -/
def digitsValue (ds : List Char) : Nat :=
  ds.foldl (fun n ch => n * 10 + (ch.toNat - '0'.toNat)) 0

/-- The function `strconv.Atoi` on text, for a 64-bit `int`: an optional sign, then one or
more decimal digits, the value lying in the range of `int`. -/
def Atoi (s : String) : Except Remote.GoError Int :=
  let neg := s.data.head? == some '-'
  let digits := if s.data.head? == some '-' || s.data.head? == some '+' then s.data.tail else s.data
  if digits.isEmpty || !digits.all isDigit then
    .error (.errorf "strconv.Atoi: parsing %q: invalid syntax" [s])
  else if !neg && digitsValue digits ≥ 2 ^ 63 then
    .error (.errorf "strconv.Atoi: parsing %q: value out of range" [s])
  else if neg && digitsValue digits > 2 ^ 63 then
    .error (.errorf "strconv.Atoi: parsing %q: value out of range" [s])
  else .ok (if neg then -(digitsValue digits : Int) else (digitsValue digits : Int))

/-- The loop of `strings.Index` on runes: `off` is the byte index of the next rune. -/
def indexFrom (substr : List Char) : List Char → Nat → Int
  | [], off => if substr.isEmpty then (off : Int) else -1
  | c :: cs, off =>
    if substr.isPrefixOf (c :: cs) then (off : Int) else indexFrom substr cs (off + c.utf8Size)

/-- The function `strings.Index`: the byte index of the first instance of `substr`, or
`-1`. -/
def Index (s substr : String) : Int := indexFrom substr.data s.data 0

/-- The function `strings.Count` for a separator of one byte: the number of its
instances. -/
def Count (s : String) (sep : Char) : Nat := s.data.count sep

/-- The function `strings.HasPrefix`. -/
def HasPrefix (s pre : String) : Bool := pre.data.isPrefixOf s.data

/-- The function `strings.HasSuffix`. -/
def HasSuffix (s suffix : String) : Bool := suffix.data.isSuffixOf s.data

/-- The scan of `strings.ReplaceAll` for a non-empty `old`: `skip` counts the runes of a
matched instance still to pass over. -/
def replaceFrom (old new : List Char) : Nat → List Char → List Char
  | _, [] => []
  | skip + 1, _ :: cs => replaceFrom old new skip cs
  | 0, c :: cs =>
    if old.isPrefixOf (c :: cs) then new ++ replaceFrom old new (old.length - 1) cs
    else c :: replaceFrom old new 0 cs

/-- The function `strings.ReplaceAll`: every non-overlapping instance of `old`, from the
left, replaced by `new`; an empty `old` matches before every rune and at the end. -/
def ReplaceAll (s old new : String) : String :=
  if old.data.isEmpty then ⟨new.data ++ s.data.flatMap (fun c => c :: new.data)⟩
  else ⟨replaceFrom old.data new.data 0 s.data⟩

/-! ## Versions (`version.go`) -/

/-- The release kinds the switch of `GetNextVersion` names; `other` stands for every other
value of the type, whose declaration lies outside the embedded files. -/
inductive ReleaseKind where
  | KindCurrentMinor
  | KindPrevMinor
  | KindBeta
  | KindRC
  | KindMajor
  | other (value : Int)
  deriving DecidableEq, Repr

/-- The function `nextVersion` (version.go:62-74). The slices `version[lastNonDigit+1:]`
and `version[:lastNonDigit+1]` are taken at a byte index: when it lies inside the last
non-digit rune, the first slice starts with a continuation byte, which `strconv.Atoi`
refuses as invalid syntax. -/
def nextVersion (version : String) : Except Remote.GoError String :=
  let lastNonDigit := LastIndexFunc version (fun r => decide (r < '0') || decide (r > '9'))
  if lastNonDigit == -1 || (version.utf8ByteSize : Int) == lastNonDigit then
    .error (.errorf "malformatted Go version %q" [version])
  else
    match splitAtByte version.data (lastNonDigit + 1).toNat with
    | none =>
      .error (.errorf "malformatted Go version %q (%v)"
        [version, "strconv.Atoi: parsing: invalid syntax"])
    | some (head, tail) =>
      match Atoi ⟨tail⟩ with
      | .error err => .error (.errorf "malformatted Go version %q (%v)" [version, err.text])
      | .ok n => .ok (⟨head⟩ ++ formatInt (wrapInt (n + 1)))

/-- The first loop of `GetNextVersion` (version.go:28-35), from `currentMajor` downwards:
the value at which it breaks. -/
def findCurrentMajor (tagSet : String → Bool) : Nat → Int → Option Int
  | 0, _ => none
  | fuel + 1, currentMajor =>
    if tagSet ("go1." ++ formatInt currentMajor) then some currentMajor
    else findCurrentMajor tagSet fuel (wrapInt (currentMajor - 1))

/-- The closure `findUnused` of `GetNextVersion` (version.go:36-46). -/
def findUnused (tagSet : String → Bool) : Nat → String → Option (Except Remote.GoError String)
  | 0, _ => none
  | fuel + 1, v =>
    if !tagSet v then some (.ok v)
    else
      match nextVersion v with
      | .error err => some (.error err)
      | .ok v2 => findUnused tagSet fuel v2

/-- The method `GetNextVersion` (version.go:18-60); `ListTags` is the outcome of
`t.Gerrit.ListTags(ctx, t.GoProject)`, and each loop may run `fuel` iterations. -/
def GetNextVersion (ListTags : Except Remote.GoError (List String)) (fuel : Nat)
    (kind : ReleaseKind) : Option (Except Remote.GoError String) :=
  match ListTags with
  | .error err => some (.error err)
  | .ok tags =>
    let tagSet := fun tag => tags.contains tag
    match findCurrentMajor tagSet fuel 100 with
    | none => none
    | some currentMajor =>
      match kind with
      | .KindCurrentMinor =>
        findUnused tagSet fuel ("go1." ++ formatInt currentMajor ++ ".1")
      | .KindPrevMinor =>
        findUnused tagSet fuel ("go1." ++ formatInt (wrapInt (currentMajor - 1)) ++ ".1")
      | .KindBeta =>
        findUnused tagSet fuel ("go1." ++ formatInt (wrapInt (currentMajor + 1)) ++ "beta1")
      | .KindRC =>
        findUnused tagSet fuel ("go1." ++ formatInt (wrapInt (currentMajor + 1)) ++ "rc1")
      | .KindMajor => some (.ok ("go1." ++ formatInt (wrapInt (currentMajor + 1))))
      | .other value => some (.error (.errorf "unknown release kind %v" [formatInt value]))

/-- The number `k` is the least integer, from 1 on, for which the version `p ++ k` is not
in the tag list. -/
def leastUnused (tags : List String) (p : String) (k : Nat) : Prop :=
  1 ≤ k ∧ p ++ Nat.repr k ∉ tags ∧ ∀ j, 1 ≤ j → j < k → p ++ Nat.repr j ∈ tags

/-! ## Announcements (`announce.go`) -/

/-- The struct `ReleaseAnnouncement` (announce.go:33-55). -/
structure ReleaseAnnouncement where
  Version : String
  SecondaryVersion : String
  Security : List String
  Names : List String
  deriving DecidableEq, Repr

/-- The struct `mailContent`. -/
structure mailContent where
  Subject : String
  BodyHTML : String
  BodyText : String
  deriving DecidableEq, Repr

/-- The function `announcementMail` (announce.go:164-216); `render` is the rest of the
function once the template is picked: the execution of the named template on `r`, the
reading of the result as a mail message and the rendering of its body. -/
def announcementMail (render : String → ReleaseAnnouncement → Except Remote.GoError mailContent)
    (r : ReleaseAnnouncement) : Except Remote.GoError mailContent :=
  let picked : Option String :=
    if Index r.Version "beta" != -1 then some "announce-beta.md"
    else if Index r.Version "rc" != -1 then some "announce-rc.md"
    else if Count r.Version '.' == 1 then some "announce-major.md"
    else if Count r.Version '.' == 2 then some "announce-minor.md"
    else none
  match picked with
  | none => .error (.errorf "unknown version format: %q" [r.Version])
  | some name =>
    if r.Security.length > 0 && name != "announce-minor.md" then
      .error (.errorf
        ("email template %q doesn't support the Security field; " ++
          "this field can only be used in minor releases") [name])
    else render name r

/-! ## Archives (`buildrelease.go`) -/

/-- A release target (`releasetargets.Target`), through the fields read here. -/
structure Target where
  GOOS : String
  GOARCH : String
  Builder : String
  deriving DecidableEq, Repr

/-- An archive entry header (`tar.Header`), through its name and, for the rest, its mode,
size and type flag. -/
structure Header where
  Name : String
  Mode : Int
  Size : Int
  Typeflag : Nat
  deriving DecidableEq, Repr

/-- The last test of the adjuster (buildrelease.go:206-209): host architecture files are
dropped, every other header is returned. -/
def dropHostFiles (h : Header) : Option Header :=
  if HasPrefix h.Name "pkg/linux_amd64" || HasPrefix h.Name "pkg/tool/linux_amd64" then none
  else some h

/-- The function `fixupCrossCompile` (buildrelease.go:188-211): the adjuster for a target;
`none` is the nil header, which drops the entry. -/
def fixupCrossCompile (target : Target) : Header → Option Header :=
  if !HasSuffix target.Builder "-crosscompile" then fun h => some h
  else
    let osarch := target.GOOS ++ "_" ++ target.GOARCH
    fun h =>
      if HasPrefix h.Name "bin/" then
        if HasPrefix h.Name ("bin/" ++ osarch) then
          dropHostFiles { h with Name := ReplaceAll h.Name ("bin/" ++ osarch) "bin" }
        else none
      else dropHostFiles h

/-! ## Sample values -/

/-- A sample cross-compiled target. -/
def armTarget : Target :=
  { GOOS := "linux", GOARCH := "arm64", Builder := "linux-arm64-crosscompile" }

/-- A sample header named `name`. -/
def demoHeader (name : String) : Header :=
  { Name := name, Mode := 0o755, Size := 10, Typeflag := 48 }

/-- A sample renderer: the subject names the template and the version. -/
def demoRender (name : String) (r : ReleaseAnnouncement) : Except Remote.GoError mailContent :=
  .ok { Subject := name ++ " " ++ r.Version, BodyHTML := "", BodyText := "" }

end Task

namespace Remote

/-! ## Machine integers and the library check -/

theorem toInt64_of_lt {u : Nat} (h : u < 2 ^ 63) : toInt64 u = (u : Int) := by
  unfold toInt64
  split <;> omega

theorem toInt64_of_ge {u : Nat} (h1 : 2 ^ 63 ≤ u) (h2 : u < 2 ^ 64) :
    toInt64 u = (u : Int) - 2 ^ 64 := by
  unfold toInt64
  split <;> omega

theorem toInt64_neg_iff {u : Nat} (h2 : u < 2 ^ 64) : toInt64 u < 0 ↔ 2 ^ 63 ≤ u := by
  by_cases h : u < 2 ^ 63
  · rw [toInt64_of_lt h]; omega
  · rw [toInt64_of_ge (by omega) h2]; omega

/-- The zero-value checker accepts exactly when the certificate has no critical option
besides the source address, lists no principal or lists the wanted one, is inside its
window as `CheckCert` reads it, and carries a signature that verifies. -/
theorem CheckCert_zero_ok_iff (timeNow : Time) (principal : String) (cert : Certificate)
    (hA : cert.ValidAfter < 2 ^ 64) (hB : cert.ValidBefore < 2 ^ 64) :
    CertChecker.zero.CheckCert timeNow principal cert = .ok () ↔
      (∀ opt ∈ cert.Permissions.CriticalOptions, opt.1 = "source-address") ∧
      (cert.ValidPrincipals = [] ∨ principal ∈ cert.ValidPrincipals) ∧
      (cert.ValidAfter < 2 ^ 63 ∧ (cert.ValidAfter : Int) ≤ timeNow.Unix) ∧
      (cert.ValidBefore = 2 ^ 64 - 1 ∨
        (timeNow.Unix < (cert.ValidBefore : Int) ∧ cert.ValidBefore < 2 ^ 63)) ∧
      cert.SignatureKey.Verify cert.bytesForSigning cert.Signature = true := by
  unfold CertChecker.CheckCert
  simp only [CertChecker.zero, Bool.false_eq_true, if_false]
  cases hopt : cert.Permissions.CriticalOptions.find? (fun opt =>
        opt.1 != sourceAddressCriticalOption && !([] : List String).contains opt.1) with
  | some opt =>
    have hmem := List.mem_of_find?_eq_some hopt
    have hp := List.find?_some hopt
    simp [sourceAddressCriticalOption] at hp
    simp only []
    constructor
    · intro h; cases h
    · rintro ⟨h, -⟩
      exact absurd (h opt hmem) hp
  | none =>
    simp only []
    have hall : ∀ opt ∈ cert.Permissions.CriticalOptions, opt.1 = "source-address" := by
      intro opt ho
      have := List.find?_eq_none.mp hopt opt ho
      simpa [sourceAddressCriticalOption] using this
    have eA : (cert.ValidAfter < 2 ^ 63 ∧ toInt64 cert.ValidAfter = (cert.ValidAfter : Int)) ∨
        (2 ^ 63 ≤ cert.ValidAfter ∧ toInt64 cert.ValidAfter = (cert.ValidAfter : Int) - 2 ^ 64) := by
      by_cases h : cert.ValidAfter < 2 ^ 63
      · exact Or.inl ⟨h, toInt64_of_lt h⟩
      · exact Or.inr ⟨by omega, toInt64_of_ge (by omega) hA⟩
    have eB : (cert.ValidBefore < 2 ^ 63 ∧ toInt64 cert.ValidBefore = (cert.ValidBefore : Int)) ∨
        (2 ^ 63 ≤ cert.ValidBefore ∧
          toInt64 cert.ValidBefore = (cert.ValidBefore : Int) - 2 ^ 64) := by
      by_cases h : cert.ValidBefore < 2 ^ 63
      · exact Or.inl ⟨h, toInt64_of_lt h⟩
      · exact Or.inr ⟨by omega, toInt64_of_ge (by omega) hB⟩
    generalize toInt64 cert.ValidAfter = a at eA ⊢
    generalize toInt64 cert.ValidBefore = b at eB ⊢
    split_ifs with c1 c2 c3 c4
    · simp only [Bool.and_eq_true, decide_eq_true_eq, Bool.not_eq_true', gt_iff_lt] at c1
      have hm : principal ∉ cert.ValidPrincipals := by
        intro hm
        have hc : cert.ValidPrincipals.contains principal = true := by simpa using hm
        rw [c1.2] at hc; cases hc
      have hne : cert.ValidPrincipals ≠ [] := List.length_pos.mp c1.1
      constructor
      · intro h; cases h
      · rintro ⟨-, h, -⟩
        rcases h with h | h
        · exact absurd h hne
        · exact absurd h hm
    · simp only [Bool.or_eq_true, decide_eq_true_eq] at c2
      constructor
      · intro h; cases h
      · rintro ⟨-, -, h, -⟩
        omega
    · simp only [Bool.and_eq_true, Bool.or_eq_true, decide_eq_true_eq, bne_iff_ne, ne_eq,
        CertTimeInfinity, ge_iff_le] at c3
      constructor
      · intro h; cases h
      · rintro ⟨-, -, -, h, -⟩
        omega
    · simp only [Bool.not_eq_true'] at c4
      constructor
      · intro h; cases h
      · rintro ⟨-, -, -, -, h⟩
        rw [h] at c4; cases c4
    · simp only [Bool.and_eq_true, decide_eq_true_eq, Bool.not_eq_true', gt_iff_lt, not_and,
        Bool.not_eq_false] at c1
      simp only [Bool.or_eq_true, decide_eq_true_eq, not_or, not_lt] at c2
      simp only [Bool.and_eq_true, Bool.or_eq_true, decide_eq_true_eq, bne_iff_ne, ne_eq,
        CertTimeInfinity, ge_iff_le] at c3
      simp only [Bool.not_eq_true', Bool.not_eq_false] at c4
      refine ⟨fun _ => ⟨hall, ?_, ?_, ?_, c4⟩, fun _ => rfl⟩
      · by_cases hnil : cert.ValidPrincipals = []
        · exact Or.inl hnil
        · exact Or.inr (by simpa using c1 (List.length_pos.mpr hnil))
      · omega
      · omega

/-- A certificate that passes `CheckCert` lists no principal or lists the wanted one. -/
theorem CheckCert_ok_principal (c : CertChecker) (timeNow : Time) (principal : String)
    (cert : Certificate) (h : c.CheckCert timeNow principal cert = .ok ()) :
    cert.ValidPrincipals = [] ∨ principal ∈ cert.ValidPrincipals := by
  unfold CertChecker.CheckCert at h
  split at h
  · cases h
  · split at h
    · cases h
    · split at h
      · cases h
      · rename_i hc
        simp only [Bool.and_eq_true, decide_eq_true_eq, Bool.not_eq_true', gt_iff_lt, not_and,
          Bool.not_eq_false] at hc
        by_cases hnil : cert.ValidPrincipals = []
        · exact Or.inl hnil
        · exact Or.inr (by simpa using hc (List.length_pos.mpr hnil))

/-! ## The certificate strategy -/

/-- The verdict of the certificate strategy, case by case. -/
theorem certAuth_true_iff (timeNow : Time) (sp : SessionPool)
    (caKeySigner : Signer) (ctx : Context) (key : OfferedKey) :
    (handleCertificateAuthFunc timeNow sp caKeySigner ctx key).1 = true ↔
      ∃ cert, key = .certificate cert ∧ cert.CertType = UserCert ∧
        cert.SignatureKey.Marshal = caKeySigner.PublicKey.Marshal ∧
        (∃ s, sp.Session ctx.User = .ok s) ∧
        CertChecker.zero.CheckCert timeNow (ctx.User ++ "@farmer.golang.org") cert = .ok () := by
  cases key with
  | plain k => simp [handleCertificateAuthFunc]
  | certificate cert =>
    by_cases hT : cert.CertType = UserCert
    · by_cases hK : cert.SignatureKey.Marshal = caKeySigner.PublicKey.Marshal
      · cases hS : sp.Session ctx.User with
        | error e => simp [handleCertificateAuthFunc, hT, hK, hS]
        | ok s =>
          cases hC : CertChecker.zero.CheckCert timeNow (ctx.User ++ "@farmer.golang.org") cert with
          | error e => simp [handleCertificateAuthFunc, hT, hK, hS, hC]
          | ok u => simp [handleCertificateAuthFunc, hT, hK, hS, hC]
      · simp [handleCertificateAuthFunc, hT, hK]
    · simp [handleCertificateAuthFunc, hT]

/-- C1. The handler built by `handleCertificateAuthFunc` returns true exactly when the
offered key is a certificate, of user type, whose signing key marshals to the same bytes
as the authority signer's public key, the session registry resolves the connecting
user-name, and `CheckCert` succeeds for the principal made of the user-name followed by
`@farmer.golang.org`; in every other case it returns false. -/
theorem handleCertificateAuthFunc_true_iff (timeNow : Time) (sp : SessionPool)
    (caKeySigner : Signer) (ctx : Context) (key : OfferedKey) :
    ((handleCertificateAuthFunc timeNow sp caKeySigner ctx key).1 = true ↔
      ∃ cert, key = .certificate cert ∧ cert.CertType = UserCert ∧
        cert.SignatureKey.Marshal = caKeySigner.PublicKey.Marshal ∧
        (∃ s, sp.Session ctx.User = .ok s) ∧
        CertChecker.zero.CheckCert timeNow (ctx.User ++ "@farmer.golang.org") cert = .ok ()) ∧
    ((handleCertificateAuthFunc timeNow sp caKeySigner ctx key).1 = false ↔
      ¬ ∃ cert, key = .certificate cert ∧ cert.CertType = UserCert ∧
        cert.SignatureKey.Marshal = caKeySigner.PublicKey.Marshal ∧
        (∃ s, sp.Session ctx.User = .ok s) ∧
        CertChecker.zero.CheckCert timeNow (ctx.User ++ "@farmer.golang.org") cert = .ok ()) := by
  refine ⟨certAuth_true_iff timeNow sp caKeySigner ctx key, ?_⟩
  rw [← certAuth_true_iff timeNow sp caKeySigner ctx key]
  simp

/-- C2. A certificate whose signing key differs from the authority's public key is
rejected by the certificate strategy whatever its principals and validity window, at any
time and for any registry; the only thing the handler does before returning is write a
log line, so neither the registry is consulted nor a principal checked. -/
theorem handleCertificateAuthFunc_foreign_signer (timeNow : Time) (sp : SessionPool)
    (caKeySigner : Signer) (ctx : Context) (cert : Certificate)
    (hkey : cert.SignatureKey.Marshal ≠ caKeySigner.PublicKey.Marshal) :
    (handleCertificateAuthFunc timeNow sp caKeySigner ctx (.certificate cert)).1 = false ∧
    (∀ e ∈ (handleCertificateAuthFunc timeNow sp caKeySigner ctx (.certificate cert)).2,
      (∀ id, e ≠ .sessionLookup id) ∧ (∀ p, e ≠ .checkCert p) ∧ ∃ f a, e = .log f a) ∧
    (∀ (timeNow2 : Time) (sp2 : SessionPool),
      handleCertificateAuthFunc timeNow2 sp2 caKeySigner ctx (.certificate cert) =
        handleCertificateAuthFunc timeNow sp caKeySigner ctx (.certificate cert)) := by
  by_cases hT : cert.CertType = UserCert
  · simp [handleCertificateAuthFunc, hT, hkey]
  · simp [handleCertificateAuthFunc, hT]

/-- Witness for C2: a certificate naming the right session, inside its window and with a
session that exists, but signed by the key `[9]` while the authority is `[5]`. -/
theorem handleCertificateAuthFunc_foreign_signer_witness :
    (demoCert [9] ["s1@farmer.golang.org"] 10 20 []).SignatureKey.Marshal
      ≠ (demoSigner [5]).PublicKey.Marshal ∧
    (handleCertificateAuthFunc ⟨15000000000⟩ (demoPool ["s1"]) (demoSigner [5]) ⟨"s1"⟩
      (.certificate (demoCert [9] ["s1@farmer.golang.org"] 10 20 []))).1 = false :=
  ⟨by decide, (handleCertificateAuthFunc_foreign_signer ⟨15000000000⟩ (demoPool ["s1"])
    (demoSigner [5]) ⟨"s1"⟩ (demoCert [9] ["s1@farmer.golang.org"] 10 20 []) (by decide)).1⟩

/-- The four conditions of C3 on a certificate: the signing key matches the authority
key, the type is user, the wanted principal is in the principal list, and the current
Unix second is in `[ValidAfter, ValidBefore)`. -/
theorem sample_certificates_conditions :
    ∀ cert ∈ [certBadSignature, certForcedCommand, certFarExpiry],
      cert.SignatureKey.Marshal = (demoSigner [5]).PublicKey.Marshal ∧
      cert.CertType = UserCert ∧
      (Context.mk "s1").User ++ "@farmer.golang.org" ∈ cert.ValidPrincipals ∧
      (cert.ValidAfter : Int) ≤ (Time.mk 15000000000).Unix ∧
      (Time.mk 15000000000).Unix < (cert.ValidBefore : Int) := by
  intro cert h
  simp only [List.mem_cons, List.mem_singleton, List.mem_nil_iff, or_false] at h
  rcases h with h | h | h <;> subst h <;> decide

/-- C3, as stated, fails, for the authority `[5]`, the existing session `s1` and the time
15 s. A certificate that lists no principal at all is accepted although the wanted
principal `s1@farmer.golang.org` is not in its principal set. And three certificates that
meet the four stated conditions (signer, user type, principal listed, time inside
`[10, ValidBefore)`) are rejected: one whose signature does not verify, one that carries
the critical option `force-command`, and one whose `ValidBefore` is `2^63`. -/
theorem certificate_validation_counterexample :
    ((handleCertificateAuthFunc ⟨15000000000⟩ (demoPool ["s1"]) (demoSigner [5]) ⟨"s1"⟩
        (.certificate certNoPrincipals)).1 = true ∧
      (Context.mk "s1").User ++ "@farmer.golang.org" ∉ certNoPrincipals.ValidPrincipals) ∧
    (∀ cert ∈ [certBadSignature, certForcedCommand, certFarExpiry],
      (handleCertificateAuthFunc ⟨15000000000⟩ (demoPool ["s1"]) (demoSigner [5]) ⟨"s1"⟩
          (.certificate cert)).1 = false ∧
        cert.SignatureKey.Marshal = (demoSigner [5]).PublicKey.Marshal ∧
        cert.CertType = UserCert ∧
        (Context.mk "s1").User ++ "@farmer.golang.org" ∈ cert.ValidPrincipals ∧
        (cert.ValidAfter : Int) ≤ (Time.mk 15000000000).Unix ∧
        (Time.mk 15000000000).Unix < (cert.ValidBefore : Int)) := by
  refine ⟨by decide, ?_⟩
  intro cert h
  refine ⟨?_, sample_certificates_conditions cert h⟩
  simp only [List.mem_cons, List.mem_singleton, List.mem_nil_iff, or_false] at h
  rcases h with h | h | h <;> subst h <;> decide

/-- C3, amended. With the session resolved and the two validity bounds 64-bit values, the
certificate strategy accepts exactly when: the signing key matches the authority key; the
type is user; the principal list is empty or contains the wanted principal; the current
Unix time is at or after `ValidAfter`, itself below `2^63`; `ValidBefore` is the infinity
value `2^64 - 1` or is below `2^63` and after the current time; no critical option other
than the source address is present; and the signature verifies under the signing key.
The second part says the same of the three checks for an arbitrary wanted principal. -/
theorem certificate_validation_iff (timeNow : Time) (sp : SessionPool) (caKeySigner : Signer)
    (ctx : Context) (cert : Certificate) (hs : ∃ s, sp.Session ctx.User = .ok s)
    (hA : cert.ValidAfter < 2 ^ 64) (hB : cert.ValidBefore < 2 ^ 64) :
    ((handleCertificateAuthFunc timeNow sp caKeySigner ctx (.certificate cert)).1 = true ↔
      cert.SignatureKey.Marshal = caKeySigner.PublicKey.Marshal ∧
      cert.CertType = UserCert ∧
      (cert.ValidPrincipals = [] ∨ (ctx.User ++ "@farmer.golang.org") ∈ cert.ValidPrincipals) ∧
      (cert.ValidAfter < 2 ^ 63 ∧ (cert.ValidAfter : Int) ≤ timeNow.Unix) ∧
      (cert.ValidBefore = 2 ^ 64 - 1 ∨
        (timeNow.Unix < (cert.ValidBefore : Int) ∧ cert.ValidBefore < 2 ^ 63)) ∧
      (∀ opt ∈ cert.Permissions.CriticalOptions, opt.1 = "source-address") ∧
      cert.SignatureKey.Verify cert.bytesForSigning cert.Signature = true) ∧
    (∀ wantPrincipal : String,
      (cert.SignatureKey.Marshal = caKeySigner.PublicKey.Marshal ∧ cert.CertType = UserCert ∧
        CertChecker.zero.CheckCert timeNow wantPrincipal cert = .ok ()) ↔
      cert.SignatureKey.Marshal = caKeySigner.PublicKey.Marshal ∧
      cert.CertType = UserCert ∧
      (cert.ValidPrincipals = [] ∨ wantPrincipal ∈ cert.ValidPrincipals) ∧
      (cert.ValidAfter < 2 ^ 63 ∧ (cert.ValidAfter : Int) ≤ timeNow.Unix) ∧
      (cert.ValidBefore = 2 ^ 64 - 1 ∨
        (timeNow.Unix < (cert.ValidBefore : Int) ∧ cert.ValidBefore < 2 ^ 63)) ∧
      (∀ opt ∈ cert.Permissions.CriticalOptions, opt.1 = "source-address") ∧
      cert.SignatureKey.Verify cert.bytesForSigning cert.Signature = true) := by
  constructor
  · rw [certAuth_true_iff]
    constructor
    · rintro ⟨c, hc, hT, hK, -, hC⟩
      cases hc
      have := (CheckCert_zero_ok_iff timeNow _ cert hA hB).mp hC
      exact ⟨hK, hT, this.2.1, this.2.2.1, this.2.2.2.1, this.1, this.2.2.2.2⟩
    · rintro ⟨hK, hT, hP, hVA, hVB, hO, hV⟩
      exact ⟨cert, rfl, hT, hK, hs,
        (CheckCert_zero_ok_iff timeNow _ cert hA hB).mpr ⟨hO, hP, hVA, hVB, hV⟩⟩
  · intro wantPrincipal
    rw [CheckCert_zero_ok_iff timeNow wantPrincipal cert hA hB]
    tauto

/-- Witness for C3, amended: a certificate of the authority `[5]` for the session `s1`,
checked at second 15 of its window from 10 to 20. -/
theorem certificate_validation_iff_witness :
    (∃ s, (demoPool ["s1"]).Session (Context.mk "s1").User = .ok s) ∧
    (demoCert [5] ["s1@farmer.golang.org"] 10 20 [5, 7, 1, 10, 20]).ValidAfter < 2 ^ 64 ∧
    (demoCert [5] ["s1@farmer.golang.org"] 10 20 [5, 7, 1, 10, 20]).ValidBefore < 2 ^ 64 ∧
    (handleCertificateAuthFunc ⟨15000000000⟩ (demoPool ["s1"]) (demoSigner [5]) ⟨"s1"⟩
      (.certificate (demoCert [5] ["s1@farmer.golang.org"] 10 20 [5, 7, 1, 10, 20]))).1 = true :=
  ⟨⟨_, rfl⟩, by decide, by decide,
    ((certificate_validation_iff ⟨15000000000⟩ (demoPool ["s1"]) (demoSigner [5]) ⟨"s1"⟩
      (demoCert [5] ["s1@farmer.golang.org"] 10 20 [5, 7, 1, 10, 20]) ⟨_, rfl⟩
      (by decide) (by decide)).1).mpr (by decide)⟩

/-! ## Issuance -/

/-- What a successful `SignPublicSSHKey` returns: the parsed key, the fields of the
literal, the nonce read, the authority's key and the signature it produced. -/
theorem SignPublicSSHKey_ok_fields
    (ParseAuthorizedKey : List Nat → Except GoError PublicKey) (now1 now2 : Time)
    (rand : Except GoError (List Nat)) (caPriKey : Signer) (rawPubKey : List Nat)
    (sessionID ownerID : String) (d : Duration) (cert : Certificate)
    (h : (SignPublicSSHKey ParseAuthorizedKey now1 now2 rand caPriKey rawPubKey
      sessionID ownerID d).1 = .ok cert) :
    ∃ pubKey nonce sig, ParseAuthorizedKey rawPubKey = .ok pubKey ∧ rand = .ok nonce ∧
      caPriKey.Sign cert.bytesForSigning = .ok sig ∧
      cert.Nonce = nonce ∧
      cert.Key = pubKey ∧
      cert.CertType = UserCert ∧
      cert.ValidPrincipals = [sessionID ++ "@farmer.golang.org", ownerID] ∧
      cert.ValidAfter = toUint64 now1.Unix ∧
      cert.ValidBefore = toUint64 (now2.Add d).Unix ∧
      cert.Permissions.CriticalOptions = [] ∧
      cert.SignatureKey = caPriKey.PublicKey ∧
      cert.Signature = sig := by
  unfold SignPublicSSHKey at h
  cases hp : ParseAuthorizedKey rawPubKey with
  | error e => simp [hp] at h
  | ok pubKey =>
    cases hr : rand with
    | error e => simp [hp, hr, Certificate.SignCert] at h
    | ok nonce =>
      simp only [hp, hr, Certificate.SignCert] at h
      split at h
      · rename_i e evs heq
        split at heq <;> simp at heq h
      · rename_i signed evs heq
        split at heq
        · simp at heq
        · rename_i sig hsig
          simp only [Prod.mk.injEq, Except.ok.injEq] at heq h
          obtain ⟨h1, -⟩ := heq
          subst h
          subst h1
          exact ⟨pubKey, nonce, sig, rfl, rfl, hsig, rfl, rfl, rfl, rfl, rfl, rfl, rfl, rfl, rfl⟩

/-- When the key parses, the nonce is read and the signer signs, `SignPublicSSHKey`
returns a certificate. -/
theorem SignPublicSSHKey_ok_of
    (ParseAuthorizedKey : List Nat → Except GoError PublicKey) (now1 now2 : Time)
    (nonce : List Nat) (caPriKey : Signer) (rawPubKey : List Nat)
    (sessionID ownerID : String) (d : Duration) (pubKey : PublicKey) (sig : List Nat)
    (hp : ParseAuthorizedKey rawPubKey = .ok pubKey)
    (hsig : caPriKey.Sign ({ newCertificate pubKey sessionID ownerID now1 now2 d with
      Nonce := nonce, SignatureKey := caPriKey.PublicKey }).bytesForSigning = .ok sig) :
    ∃ cert, (SignPublicSSHKey ParseAuthorizedKey now1 now2 (.ok nonce) caPriKey rawPubKey
      sessionID ownerID d).1 = .ok cert := by
  refine ⟨{ newCertificate pubKey sessionID ownerID now1 now2 d with
      Nonce := nonce, SignatureKey := caPriKey.PublicKey, Signature := sig }, ?_⟩
  unfold SignPublicSSHKey
  simp only [hp, Certificate.SignCert]
  rw [hsig]

/-- The suffix that turns a session id into its principal is cancellable. -/
theorem principal_injective {a b : String}
    (h : a ++ "@farmer.golang.org" = b ++ "@farmer.golang.org") : a = b := by
  have hd := congrArg String.data h
  simp only [String.data_append] at hd
  exact String.ext (List.append_cancel_right hd)

/-- C4. For every caller key that parses, the certificate `SignPublicSSHKey` builds has
exactly the two valid principals `sessionID@farmer.golang.org` and `ownerID`, in that
order, and is of user type; this holds of the literal and of every certificate the
function returns. -/
theorem SignPublicSSHKey_principals
    (ParseAuthorizedKey : List Nat → Except GoError PublicKey) (now1 now2 : Time)
    (rand : Except GoError (List Nat)) (caPriKey : Signer) (rawPubKey : List Nat)
    (sessionID ownerID : String) (d : Duration) (pubKey : PublicKey)
    (hparse : ParseAuthorizedKey rawPubKey = .ok pubKey) :
    (newCertificate pubKey sessionID ownerID now1 now2 d).ValidPrincipals
      = [sessionID ++ "@farmer.golang.org", ownerID] ∧
    (newCertificate pubKey sessionID ownerID now1 now2 d).CertType = UserCert ∧
    (∀ cert, (SignPublicSSHKey ParseAuthorizedKey now1 now2 rand caPriKey rawPubKey
        sessionID ownerID d).1 = .ok cert →
      cert.Key.Marshal = pubKey.Marshal ∧
      cert.ValidPrincipals = [sessionID ++ "@farmer.golang.org", ownerID] ∧
      cert.ValidPrincipals.length = 2 ∧
      (∀ p ∈ cert.ValidPrincipals, p = sessionID ++ "@farmer.golang.org" ∨ p = ownerID) ∧
      cert.CertType = UserCert) := by
  refine ⟨rfl, rfl, ?_⟩
  intro cert h
  obtain ⟨pk, nonce, sig, hp, -, -, -, hk, hT, hP, -⟩ :=
    SignPublicSSHKey_ok_fields _ _ _ _ _ _ _ _ _ _ h
  rw [hparse] at hp
  cases hp
  refine ⟨by rw [hk], hP, by rw [hP]; rfl, ?_, hT⟩
  intro p hp
  rw [hP] at hp
  simpa using hp

/-- Witness for C4: the key `[1]` signed by the authority `[5]` for session `s1` of
owner `alice`; the issuance succeeds and the principals are the two expected ones. -/
theorem SignPublicSSHKey_principals_witness :
    demoParse [1] = .ok (demoKey [1]) ∧
    ∃ cert, (SignPublicSSHKey demoParse ⟨1700000000000000000⟩ ⟨1700000000000000000⟩ (.ok [7])
        (demoSigner [5]) [1] "s1" "alice" (300 * Second)).1 = .ok cert ∧
      cert.ValidPrincipals = ["s1@farmer.golang.org", "alice"] ∧ cert.CertType = UserCert :=
  ⟨rfl, _, rfl,
    ((SignPublicSSHKey_principals demoParse ⟨1700000000000000000⟩ ⟨1700000000000000000⟩
      (.ok [7]) (demoSigner [5]) [1] "s1" "alice" (300 * Second) (demoKey [1]) rfl).2.2 _
      rfl).2.1,
    ((SignPublicSSHKey_principals demoParse ⟨1700000000000000000⟩ ⟨1700000000000000000⟩
      (.ok [7]) (demoSigner [5]) [1] "s1" "alice" (300 * Second) (demoKey [1]) rfl).2.2 _
      rfl).2.2.2.2⟩

/-- The conversion `uint64(x)` as an integer: the residue of `x` modulo `2^64`. -/
theorem toUint64_cast (x : Int) : ((toUint64 x : Nat) : Int) = x % 2 ^ 64 := by
  unfold toUint64
  exact Int.toNat_of_nonneg (Int.emod_nonneg _ (by norm_num))

/-- C5, as stated, fails on the code. A certificate issued at second 1700000000 with the
validity `-1700000002` seconds gets `ValidAfter = 1700000000` and, the expiry second `-2`
being converted to `uint64`, `ValidBefore = 2^64 - 2`. The second 1700000120 lies inside
`[ValidAfter, ValidBefore)` and the session `s1` exists, yet the strategy rejects the
certificate: `CheckCert` reads `ValidBefore` as a negative `int64`. -/
theorem issue_then_authenticate_counterexample :
    ∃ cert, (SignPublicSSHKey demoParse ⟨1700000000000000000⟩ ⟨1700000000000000000⟩ (.ok [7])
        (demoSigner [5]) [1] "s1" "alice" (-1700000002 * Second)).1 = .ok cert ∧
      cert.ValidAfter = 1700000000 ∧ cert.ValidBefore = 2 ^ 64 - 2 ∧
      ((cert.ValidAfter : Int) ≤ (⟨1700000120000000000⟩ : Time).Unix ∧
        (⟨1700000120000000000⟩ : Time).Unix < (cert.ValidBefore : Int)) ∧
      (∃ s, (demoPool ["s1", "s2"]).Session "s1" = .ok s) ∧
      (handleCertificateAuthFunc ⟨1700000120000000000⟩ (demoPool ["s1", "s2"]) (demoSigner [5])
        ⟨"s1"⟩ (.certificate cert)).1 = false :=
  ⟨_, rfl, by decide, by decide, by decide, ⟨_, rfl⟩, by decide⟩

/-- C5, amended. Issue, then authenticate. A certificate that `SignPublicSSHKey` returns for
`sessionID` and `ownerID` lists the principal the certificate strategy demands for the
user-name `sessionID`, is of user type, and names the authority signer's public key as its
signing key. Hence, when the signer's signatures verify under its public key, the session
exists and the expiry instant (the second clock reading plus the validity) is not before the
Unix epoch, the strategy accepts the certificate for `sessionID` at every time inside
`[ValidAfter, ValidBefore)`; the seconds of the expiry and of the time of the check are
64-bit signed values. -/
theorem issue_then_authenticate
    (ParseAuthorizedKey : List Nat → Except GoError PublicKey) (now1 now2 : Time)
    (rand : Except GoError (List Nat)) (caPriKey : Signer) (rawPubKey : List Nat)
    (sessionID ownerID : String) (d : Duration) (cert : Certificate)
    (hissue : (SignPublicSSHKey ParseAuthorizedKey now1 now2 rand caPriKey rawPubKey
      sessionID ownerID d).1 = .ok cert) :
    (Context.mk sessionID).User ++ "@farmer.golang.org" ∈ cert.ValidPrincipals ∧
    cert.CertType = UserCert ∧
    cert.SignatureKey.Marshal = caPriKey.PublicKey.Marshal ∧
    (∀ (sp : SessionPool) (timeNow : Time),
      (∀ data sig, caPriKey.Sign data = .ok sig → caPriKey.PublicKey.Verify data sig = true) →
      (∃ s, sp.Session sessionID = .ok s) →
      (0 ≤ (now2.Add d).Unix ∧ (now2.Add d).Unix < 2 ^ 63) →
      timeNow.Unix < 2 ^ 63 →
      (cert.ValidAfter : Int) ≤ timeNow.Unix → timeNow.Unix < (cert.ValidBefore : Int) →
      (handleCertificateAuthFunc timeNow sp caPriKey ⟨sessionID⟩ (.certificate cert)).1
        = true) := by
  obtain ⟨pk, nonce, sig, -, -, hsig, -, -, hT, hP, hVA, hVB, hO, hK, hS⟩ :=
    SignPublicSSHKey_ok_fields _ _ _ _ _ _ _ _ _ _ hissue
  refine ⟨by rw [hP]; simp, hT, by rw [hK], ?_⟩
  intro sp timeNow hscheme hsess hr2 hrt hwa hwb
  have cA := toUint64_cast now1.Unix
  have cB := toUint64_cast (now2.Add d).Unix
  rw [← hVA] at cA
  rw [← hVB] at cB
  have hA : cert.ValidAfter < 2 ^ 64 := by omega
  have hB : cert.ValidBefore < 2 ^ 64 := by omega
  rw [certAuth_true_iff]
  refine ⟨cert, rfl, hT, by rw [hK], hsess, ?_⟩
  rw [CheckCert_zero_ok_iff _ _ _ hA hB]
  refine ⟨by rw [hO]; simp, Or.inr (by rw [hP]; simp), ⟨by omega, hwa⟩, Or.inr ⟨hwb, by omega⟩, ?_⟩
  rw [hK, hS]
  exact hscheme _ _ hsig

/-- Witness for C5: the key `[1]` signed by the sample authority `[5]` at second
1700000000 for five minutes (the second clock reading 250 ms after the first), offered
120 seconds later for the existing session `s1`. -/
theorem issue_then_authenticate_witness :
    ∃ cert, (SignPublicSSHKey demoParse ⟨1700000000000000000⟩ ⟨1700000000250000000⟩ (.ok [7])
        (demoSigner [5]) [1] "s1" "alice" (300 * Second)).1 = .ok cert ∧
      (handleCertificateAuthFunc ⟨1700000120000000000⟩ (demoPool ["s1", "s2"]) (demoSigner [5])
        ⟨"s1"⟩ (.certificate cert)).1 = true :=
  ⟨_, rfl,
    (issue_then_authenticate demoParse ⟨1700000000000000000⟩ ⟨1700000000250000000⟩ (.ok [7])
      (demoSigner [5]) [1] "s1" "alice" (300 * Second) _ rfl).2.2.2
      (demoPool ["s1", "s2"]) ⟨1700000120000000000⟩
      (by intro data sig h; simp only [demoSigner, Except.ok.injEq] at h; simp [demoSigner, demoKey, ← h])
      ⟨_, rfl⟩ (by decide) (by decide) (by decide) (by decide)⟩

/-- C6, as stated, fails: the owner id is itself a valid principal, so a certificate issued
for session `a` to an owner whose id reads `b@farmer.golang.org` lists the principal the
strategy demands for session `b`, and the strategy accepts it for `b`. -/
theorem session_scope_counterexample :
    "a" ≠ "b" ∧
    "b" ++ "@farmer.golang.org" ∈
      (newCertificate (demoKey [1]) "a" "b@farmer.golang.org" ⟨1700000000000000000⟩
        ⟨1700000000000000000⟩ (300 * Second)).ValidPrincipals ∧
    ∃ cert, (SignPublicSSHKey demoParse ⟨1700000000000000000⟩ ⟨1700000000000000000⟩ (.ok [7])
        (demoSigner [5]) [1] "a" "b@farmer.golang.org" (300 * Second)).1 = .ok cert ∧
      (handleCertificateAuthFunc ⟨1700000120000000000⟩ (demoPool ["a", "b"]) (demoSigner [5])
        ⟨"b"⟩ (.certificate cert)).1 = true :=
  ⟨by decide, by decide, _, rfl, by decide⟩

/-- C6, amended. For session ids `S1 ≠ S2` and every owner id other than
`S2@farmer.golang.org`, the principal the certificate strategy requires for a connection
naming `S2` is not in the valid-principals list `SignPublicSSHKey` builds for `S1` and that
owner, and a certificate issued for them is rejected by the strategy for `S2`, at any time
and for any registry. -/
theorem session_scope (S1 S2 ownerID : String) (hne : S1 ≠ S2)
    (howner : ownerID ≠ S2 ++ "@farmer.golang.org") :
    (∀ (pubKey : PublicKey) (now1 now2 : Time) (d : Duration),
      S2 ++ "@farmer.golang.org" ∉
        (newCertificate pubKey S1 ownerID now1 now2 d).ValidPrincipals) ∧
    (∀ (ParseAuthorizedKey : List Nat → Except GoError PublicKey) (now1 now2 : Time)
      (rand : Except GoError (List Nat)) (caPriKey : Signer) (rawPubKey : List Nat)
      (d : Duration) (cert : Certificate),
      (SignPublicSSHKey ParseAuthorizedKey now1 now2 rand caPriKey rawPubKey S1 ownerID d).1
        = .ok cert →
      S2 ++ "@farmer.golang.org" ∉ cert.ValidPrincipals ∧
      ∀ (timeNow : Time) (sp : SessionPool),
        (handleCertificateAuthFunc timeNow sp caPriKey ⟨S2⟩ (.certificate cert)).1 = false) := by
  have hnot : S2 ++ "@farmer.golang.org" ∉ [S1 ++ "@farmer.golang.org", ownerID] := by
    intro h
    simp only [List.mem_cons, List.mem_singleton, List.mem_nil_iff, or_false] at h
    rcases h with h | h
    · exact hne (principal_injective h).symm
    · exact howner h.symm
  refine ⟨fun _ _ _ _ => hnot, ?_⟩
  intro ParseAuthorizedKey now1 now2 rand caPriKey rawPubKey d cert hissue
  obtain ⟨pk, nonce, sig, -, -, -, -, -, -, hP, -⟩ :=
    SignPublicSSHKey_ok_fields _ _ _ _ _ _ _ _ _ _ hissue
  refine ⟨by rw [hP]; exact hnot, ?_⟩
  intro timeNow sp
  cases hres : (handleCertificateAuthFunc timeNow sp caPriKey ⟨S2⟩ (.certificate cert)).1 with
  | false => rfl
  | true =>
    exfalso
    obtain ⟨c, hc, -, -, -, hC⟩ := (certAuth_true_iff _ _ _ _ _).mp hres
    cases hc
    rcases CheckCert_ok_principal _ _ _ _ hC with h | h
    · rw [hP] at h; cases h
    · rw [hP] at h; exact hnot h

/-- Witness for C6, amended: the sessions `a` and `b` and the owner `alice`. -/
theorem session_scope_witness :
    "a" ≠ "b" ∧ "alice" ≠ "b" ++ "@farmer.golang.org" ∧
    ∃ cert, (SignPublicSSHKey demoParse ⟨1700000000000000000⟩ ⟨1700000000000000000⟩ (.ok [7])
        (demoSigner [5]) [1] "a" "alice" (300 * Second)).1 = .ok cert ∧
      (handleCertificateAuthFunc ⟨1700000120000000000⟩ (demoPool ["a", "b"]) (demoSigner [5])
        ⟨"b"⟩ (.certificate cert)).1 = false :=
  ⟨by decide, by decide, _, rfl,
    ((session_scope "a" "b" "alice" (by decide) (by decide)).2 demoParse
      ⟨1700000000000000000⟩ ⟨1700000000000000000⟩ (.ok [7]) (demoSigner [5]) [1]
      (300 * Second) _ rfl).2 ⟨1700000120000000000⟩ (demoPool ["a", "b"])⟩

/-- C7, as stated, fails for an instant before the Unix epoch: at one second before the
epoch, with a validity of ten seconds, the certificate has `ValidAfter = 2^64 - 1`, which is
not the Unix second `-1`, and `ValidBefore = 9`, which is not `ValidAfter + 10`. -/
theorem validity_window_counterexample :
    ∃ cert, (SignPublicSSHKey demoParse ⟨-1000000000⟩ ⟨-1000000000⟩ (.ok [7])
        (demoSigner [5]) [1] "s1" "alice" (10 * Second)).1 = .ok cert ∧
      (Time.mk (-1000000000)).Unix = -1 ∧
      cert.ValidAfter = 18446744073709551615 ∧
      (cert.ValidAfter : Int) ≠ (Time.mk (-1000000000)).Unix ∧
      cert.ValidBefore = 9 ∧
      cert.ValidBefore ≠ cert.ValidAfter + 10 :=
  ⟨_, rfl, by decide, by decide, by decide, by decide, by decide⟩

/-- C7, amended. For every issuance instant `t` at or after the Unix epoch, read by both
clock reads, and every validity of `k` whole seconds (the Unix second and the duration
being 64-bit signed values), a certificate returned by `SignPublicSSHKey` has `ValidAfter`
equal to the Unix second of `t` and `ValidBefore = ValidAfter + k`, so its window is the
`k` seconds from the issuance second on. -/
theorem validity_window
    (ParseAuthorizedKey : List Nat → Except GoError PublicKey) (t : Time)
    (rand : Except GoError (List Nat)) (caPriKey : Signer) (rawPubKey : List Nat)
    (sessionID ownerID : String) (k : Nat) (cert : Certificate)
    (hepoch : 0 ≤ t.Unix) (hunix : t.Unix < 2 ^ 63) (hdur : (k : Int) * Second < 2 ^ 63)
    (hissue : (SignPublicSSHKey ParseAuthorizedKey t t rand caPriKey rawPubKey
      sessionID ownerID ((k : Int) * Second)).1 = .ok cert) :
    (cert.ValidAfter : Int) = t.Unix ∧
    cert.ValidBefore = cert.ValidAfter + k ∧
    (∀ timeNow : Time, ((cert.ValidAfter : Int) ≤ timeNow.Unix ∧
        timeNow.Unix < (cert.ValidBefore : Int)) ↔
      (t.Unix ≤ timeNow.Unix ∧ timeNow.Unix < t.Unix + k)) := by
  obtain ⟨pk, nonce, sig, -, -, -, -, -, -, -, hVA, hVB, -⟩ :=
    SignPublicSSHKey_ok_fields _ _ _ _ _ _ _ _ _ _ hissue
  have cA := toUint64_cast t.Unix
  have cB := toUint64_cast (t.Add ((k : Int) * Second)).Unix
  rw [← hVA] at cA
  rw [← hVB] at cB
  have hadd : (t.Add ((k : Int) * Second)).Unix = t.Unix + k := by
    unfold Time.Unix Time.Add Second
    simp only []
    omega
  have hk : (k : Int) < 2 ^ 63 := by
    unfold Second at hdur
    omega
  rw [hadd] at cB
  have e1 : (cert.ValidAfter : Int) = t.Unix := by omega
  have e2 : cert.ValidBefore = cert.ValidAfter + k := by omega
  refine ⟨e1, e2, ?_⟩
  intro timeNow
  omega

/-- Witness for C7, amended: issuance at second 1700000000 (and 250 ms) for 300 seconds. -/
theorem validity_window_witness :
    0 ≤ (Time.mk 1700000000250000000).Unix ∧
    ∃ cert, (SignPublicSSHKey demoParse ⟨1700000000250000000⟩ ⟨1700000000250000000⟩ (.ok [7])
        (demoSigner [5]) [1] "s1" "alice" (((300 : Nat) : Int) * Second)).1 = .ok cert ∧
      (cert.ValidAfter : Int) = (Time.mk 1700000000250000000).Unix ∧
      cert.ValidBefore = cert.ValidAfter + 300 :=
  ⟨by decide, _, rfl,
    (validity_window demoParse ⟨1700000000250000000⟩ (.ok [7]) (demoSigner [5]) [1] "s1" "alice"
      300 _ (by decide) (by decide) (by decide) rfl).1,
    (validity_window demoParse ⟨1700000000250000000⟩ (.ok [7]) (demoSigner [5]) [1] "s1" "alice"
      300 _ (by decide) (by decide) (by decide) rfl).2.1⟩

/-- The library method `SignCert` fails exactly when the nonce cannot be read or the
authority fails to sign, with that error. -/
theorem SignCert_error_iff (c : Certificate) (rand : Except GoError (List Nat))
    (authority : Signer) (e : GoError) :
    (c.SignCert rand authority).1 = .error e ↔
      rand = .error e ∨ ∃ nonce, rand = .ok nonce ∧ authority.Sign
        ({ c with Nonce := nonce, SignatureKey := authority.PublicKey }).bytesForSigning
          = .error e := by
  unfold Certificate.SignCert
  cases rand with
  | error e2 => simp
  | ok nonce =>
    simp only [Except.ok.injEq, exists_eq_left', false_or, reduceCtorEq]
    split <;> rename_i h <;> simp [h]

/-- C8. `SignPublicSSHKey` returns a certificate with no error exactly when the caller key
parses and the signature operation `SignCert` succeeds, and then it returns what `SignCert`
produced. When the key does not parse, it returns no certificate and an error wrapping the
parse error, and neither the random source nor the signer is touched. When `SignCert`
fails, it returns no certificate and an error wrapping the error of `SignCert`. -/
theorem SignPublicSSHKey_result
    (ParseAuthorizedKey : List Nat → Except GoError PublicKey) (now1 now2 : Time)
    (rand : Except GoError (List Nat)) (caPriKey : Signer) (rawPubKey : List Nat)
    (sessionID ownerID : String) (d : Duration) :
    ((∃ cert, (SignPublicSSHKey ParseAuthorizedKey now1 now2 rand caPriKey rawPubKey
        sessionID ownerID d).1 = .ok cert) ↔
      ∃ pubKey, ParseAuthorizedKey rawPubKey = .ok pubKey ∧
        ∃ signed, ((newCertificate pubKey sessionID ownerID now1 now2 d).SignCert rand
          caPriKey).1 = .ok signed) ∧
    (∀ pubKey signed, ParseAuthorizedKey rawPubKey = .ok pubKey →
      ((newCertificate pubKey sessionID ownerID now1 now2 d).SignCert rand caPriKey).1
        = .ok signed →
      (SignPublicSSHKey ParseAuthorizedKey now1 now2 rand caPriKey rawPubKey
        sessionID ownerID d).1 = .ok signed) ∧
    (∀ err, ParseAuthorizedKey rawPubKey = .error err →
      SignPublicSSHKey ParseAuthorizedKey now1 now2 rand caPriKey rawPubKey
          sessionID ownerID d
        = (.error (.wrapf "unable to parse public key=%w" [] err), []) ∧
      (GoError.wrapf "unable to parse public key=%w" [] err).Unwrap = some err) ∧
    (∀ pubKey err, ParseAuthorizedKey rawPubKey = .ok pubKey →
      ((newCertificate pubKey sessionID ownerID now1 now2 d).SignCert rand caPriKey).1
        = .error err →
      (SignPublicSSHKey ParseAuthorizedKey now1 now2 rand caPriKey rawPubKey
          sessionID ownerID d).1
        = .error (.wrapf "cerificate.SignCert() = %w" [] err) ∧
      (GoError.wrapf "cerificate.SignCert() = %w" [] err).Unwrap = some err) := by
  have hok : ∀ pubKey signed, ParseAuthorizedKey rawPubKey = .ok pubKey →
      ((newCertificate pubKey sessionID ownerID now1 now2 d).SignCert rand caPriKey).1
        = .ok signed →
      (SignPublicSSHKey ParseAuthorizedKey now1 now2 rand caPriKey rawPubKey
        sessionID ownerID d).1 = .ok signed := by
    intro pubKey signed hp hs
    unfold SignPublicSSHKey
    simp only [hp]
    split <;> rename_i heq <;> rw [heq] at hs <;> simp_all
  have herr : ∀ pubKey err, ParseAuthorizedKey rawPubKey = .ok pubKey →
      ((newCertificate pubKey sessionID ownerID now1 now2 d).SignCert rand caPriKey).1
        = .error err →
      (SignPublicSSHKey ParseAuthorizedKey now1 now2 rand caPriKey rawPubKey
          sessionID ownerID d).1
        = .error (.wrapf "cerificate.SignCert() = %w" [] err) := by
    intro pubKey err hp hs
    unfold SignPublicSSHKey
    simp only [hp]
    split <;> rename_i heq <;> rw [heq] at hs <;> simp_all
  refine ⟨⟨?_, ?_⟩, hok, ?_, fun pubKey err hp hs => ⟨herr pubKey err hp hs, rfl⟩⟩
  · rintro ⟨cert, h⟩
    cases hp : ParseAuthorizedKey rawPubKey with
    | error e => simp [SignPublicSSHKey, hp] at h
    | ok pubKey =>
      refine ⟨pubKey, rfl, ?_⟩
      cases hs : ((newCertificate pubKey sessionID ownerID now1 now2 d).SignCert rand
          caPriKey).1 with
      | error e => rw [herr pubKey e hp hs] at h; cases h
      | ok signed => exact ⟨signed, rfl⟩
  · rintro ⟨pubKey, hp, signed, hs⟩
    exact ⟨signed, hok pubKey signed hp hs⟩
  · intro err hp
    refine ⟨?_, rfl⟩
    unfold SignPublicSSHKey
    simp only [hp]

/-! ## The chain of handlers -/

/-- A chain whose handlers all reject rejects, having run every one of them in order. -/
theorem chain_all_reject (hs : List PublicKeyHandler) (ctx : Context) (key : OfferedKey)
    (h : ∀ g ∈ hs, (g ctx key).1 = false) :
    chainSSHPublicKeyHandlers hs ctx key = (false, hs.flatMap (fun g => (g ctx key).2)) := by
  induction hs with
  | nil => rfl
  | cons g rest ih =>
    have hg : (g ctx key).1 = false := h g (List.mem_cons_self _ _)
    have hrest := ih (fun g2 hg2 => h g2 (List.mem_cons_of_mem _ hg2))
    simp [chainSSHPublicKeyHandlers, hg, hrest, List.flatMap_cons]

/-- A chain stops at its first accepting handler: the handlers before it have run, in
order, then it has run, and nothing after it has. -/
theorem chain_first_accept (pre : List PublicKeyHandler) (h : PublicKeyHandler)
    (post : List PublicKeyHandler) (ctx : Context) (key : OfferedKey)
    (hpre : ∀ g ∈ pre, (g ctx key).1 = false) (hacc : (h ctx key).1 = true) :
    chainSSHPublicKeyHandlers (pre ++ h :: post) ctx key
      = (true, (pre ++ [h]).flatMap (fun g => (g ctx key).2)) := by
  induction pre with
  | nil => simp [chainSSHPublicKeyHandlers, hacc, List.flatMap_cons]
  | cons g rest ih =>
    have hg : (g ctx key).1 = false := hpre g (List.mem_cons_self _ _)
    have hrest := ih (fun g2 hg2 => hpre g2 (List.mem_cons_of_mem _ hg2))
    simp [chainSSHPublicKeyHandlers, hg, hrest, List.flatMap_cons]

/-- The verdict of a chain: some handler accepts. -/
theorem chain_true_iff (hs : List PublicKeyHandler) (ctx : Context) (key : OfferedKey) :
    (chainSSHPublicKeyHandlers hs ctx key).1 = true ↔ ∃ h ∈ hs, (h ctx key).1 = true := by
  induction hs with
  | nil => simp [chainSSHPublicKeyHandlers]
  | cons g rest ih =>
    by_cases hg : (g ctx key).1 = true
    · simp [chainSSHPublicKeyHandlers, hg]
    · simp only [Bool.not_eq_true] at hg
      simp [chainSSHPublicKeyHandlers, hg, ih]

/-- C9. The handler built by `chainSSHPublicKeyHandlers` returns true exactly when at least
one handler of the list returns true on the same context and key. The handlers run in list
order and none runs after the first that accepts: when the handlers of `pre` reject and
`h` accepts, the events of the chain on `pre ++ h :: post` are those of `pre`, in order,
followed by those of `h`, and nothing of `post`; when all reject, the events are those of
all the handlers in order. For the empty list the chain returns false and does nothing. -/
theorem chainSSHPublicKeyHandlers_spec (hs : List PublicKeyHandler) (ctx : Context)
    (key : OfferedKey) :
    ((chainSSHPublicKeyHandlers hs ctx key).1 = true ↔ ∃ h ∈ hs, (h ctx key).1 = true) ∧
    (∀ pre h post, hs = pre ++ h :: post → (∀ g ∈ pre, (g ctx key).1 = false) →
      (h ctx key).1 = true →
      chainSSHPublicKeyHandlers hs ctx key
        = (true, (pre ++ [h]).flatMap (fun g => (g ctx key).2))) ∧
    ((∀ g ∈ hs, (g ctx key).1 = false) →
      chainSSHPublicKeyHandlers hs ctx key = (false, hs.flatMap (fun g => (g ctx key).2))) ∧
    chainSSHPublicKeyHandlers [] ctx key = (false, []) := by
  refine ⟨chain_true_iff hs ctx key, ?_, chain_all_reject hs ctx key, rfl⟩
  intro pre h post hsplit hpre hacc
  rw [hsplit]
  exact chain_first_accept pre h post ctx key hpre hacc

/-- Witness for C9: of four handlers, the first rejects, the second accepts; the chain
accepts and only the first two have run, in that order. -/
theorem chainSSHPublicKeyHandlers_spec_witness :
    chainSSHPublicKeyHandlers
        [namedHandler "h1" false, namedHandler "h2" true, namedHandler "h3" true,
          namedHandler "h4" false]
        ⟨"s1"⟩ (.plain (demoKey [1]))
      = (true, [.log "h1" [], .log "h2" []]) :=
  (chainSSHPublicKeyHandlers_spec
    [namedHandler "h1" false, namedHandler "h2" true, namedHandler "h3" true,
      namedHandler "h4" false] ⟨"s1"⟩ (.plain (demoKey [1]))).2.1
    [namedHandler "h1" false] (namedHandler "h2" true)
    [namedHandler "h3" true, namedHandler "h4" false] rfl (by simp [namedHandler]) rfl

/-! ## Instance names -/

/-- A list that contains `c` splits at the first `c`. -/
theorem indexOf_split (c : Char) (u : List Char) (h : c ∈ u) :
    u = u.take (u.indexOf c) ++ c :: u.drop (u.indexOf c + 1) ∧
      c ∉ u.take (u.indexOf c) := by
  induction u with
  | nil => cases h
  | cons a rest ih =>
    by_cases hac : a = c
    · subst hac
      simp [List.indexOf_cons_self]
    · have hr : c ∈ rest := by
        rcases List.mem_cons.mp h with h | h
        · exact absurd h.symm hac
        · exact h
      obtain ⟨e1, e2⟩ := ih hr
      rw [List.indexOf_cons_ne _ hac]
      simp only [Nat.succ_eq_add_one, List.take_succ_cons, List.drop_succ_cons, List.cons_append,
        List.mem_cons, not_or]
      exact ⟨by rw [← e1], fun h => hac h.symm, e2⟩

/-- The first `c` of `o ++ c :: rest` is at position `o.length` when `o` has no `c`. -/
theorem indexOf_of_split (c : Char) (o rest : List Char) (h : c ∉ o) :
    (o ++ c :: rest).indexOf c = o.length := by
  rw [List.indexOf_append_of_not_mem h, List.indexOf_cons_self]
  rfl

/-- The part of a list before its first hyphen, when there is one. -/
theorem before_hyphen_iff (u o : List Char) (ho : o ≠ []) :
    (if '-' ∈ u then u.take (u.indexOf '-') else []) = o ↔
      ∃ rest, u = o ++ '-' :: rest ∧ '-' ∉ o := by
  constructor
  · intro h
    by_cases hm : '-' ∈ u
    · rw [if_pos hm] at h
      obtain ⟨e1, e2⟩ := indexOf_split '-' u hm
      rw [h] at e1 e2
      exact ⟨_, e1, e2⟩
    · rw [if_neg hm] at h
      exact absurd h.symm ho
  · rintro ⟨rest, hu, hno⟩
    have hm : '-' ∈ u := by rw [hu]; simp
    rw [if_pos hm, hu, indexOf_of_split _ _ _ hno]
    simp

/-- The body of `UserFromGomoteInstanceName` after the `mutable-` prefix is trimmed, on
the characters of the trimmed name. -/
theorem user_of_trimmed (t : String) :
    (if !HasPrefix t "user-" then ""
      else
        if IndexByte (sliceFrom t "user-".length) '-' == -1 then ""
        else sliceTo (sliceFrom t "user-".length)
          (IndexByte (sliceFrom t "user-".length) '-').toNat)
      = if HasPrefix t "user-" then
          ⟨if '-' ∈ t.data.drop 5 then (t.data.drop 5).take ((t.data.drop 5).indexOf '-') else []⟩
        else "" := by
  have hlen : "user-".length = 5 := by decide
  rw [hlen]
  by_cases hp : HasPrefix t "user-" = true
  · simp only [hp, Bool.not_true, Bool.false_eq_true, if_false, if_true]
    unfold IndexByte sliceTo sliceFrom
    by_cases hm : '-' ∈ t.data.drop 5
    · simp only [hm, if_true]
      have : ((List.indexOf '-' (List.drop 5 t.data) : Nat) : Int) ≠ -1 := by omega
      simp [this]
    · simp only [hm, if_false]
      rfl
  · simp [hp]

/-- `HasPrefix` in terms of concatenation. -/
theorem HasPrefix_iff (s pre : String) :
    HasPrefix s pre = true ↔ s = pre ++ ⟨s.data.drop pre.data.length⟩ := by
  unfold HasPrefix
  rw [List.isPrefixOf_iff_prefix, List.prefix_iff_eq_append]
  constructor
  · intro h
    apply String.ext
    rw [String.data_append]
    exact h.symm
  · intro h
    have := congrArg String.data h
    rw [String.data_append] at this
    exact this.symm

/-- A string that starts with `pre`. -/
theorem HasPrefix_append (pre s : String) : HasPrefix (pre ++ s) pre = true := by
  unfold HasPrefix
  rw [List.isPrefixOf_iff_prefix, String.data_append]
  exact List.prefix_append _ _

/-- Trimming a prefix that was just put in front gives the string back. -/
theorem TrimPrefix_append (pre s : String) : TrimPrefix (pre ++ s) pre = s := by
  unfold TrimPrefix
  rw [if_pos (HasPrefix_append pre s)]
  apply String.ext
  simp [String.data_append]

/-- A string is its trimmed form, or the prefix followed by its trimmed form. -/
theorem TrimPrefix_cases (s pre : String) :
    (HasPrefix s pre = false ∧ TrimPrefix s pre = s) ∨
      (HasPrefix s pre = true ∧ s = pre ++ TrimPrefix s pre) := by
  unfold TrimPrefix
  cases h : HasPrefix s pre with
  | false => left; simp
  | true =>
    right
    refine ⟨rfl, ?_⟩
    simp only [if_true]
    exact (HasPrefix_iff s pre).mp h

/-- A name that starts with `user-` does not start with `mutable-`. -/
theorem not_mutable_of_user (s : String) (h : HasPrefix s "user-" = true) :
    HasPrefix s "mutable-" = false := by
  have hs := (HasPrefix_iff s "user-").mp h
  rw [hs]
  unfold HasPrefix
  rw [String.data_append]
  have h1 : "user-".data = ['u', 's', 'e', 'r', '-'] := rfl
  have h2 : "mutable-".data = ['m', 'u', 't', 'a', 'b', 'l', 'e', '-'] := rfl
  rw [h1, h2]
  rfl

/-- The owner read from a trimmed name. -/
theorem user_of_trimmed_iff (t o : String) (ho : o ≠ "") :
    (if !HasPrefix t "user-" then ""
      else
        if IndexByte (sliceFrom t "user-".length) '-' == -1 then ""
        else sliceTo (sliceFrom t "user-".length)
          (IndexByte (sliceFrom t "user-".length) '-').toNat) = o ↔
      ∃ rest : String, t = "user-" ++ o ++ "-" ++ rest ∧ '-' ∉ o.data := by
  rw [user_of_trimmed]
  have hod : o.data ≠ [] := fun h => ho (String.ext h)
  have h5 : "user-".data.length = 5 := rfl
  constructor
  · intro h
    by_cases hp : HasPrefix t "user-" = true
    · rw [if_pos hp] at h
      have hd := congrArg String.data h
      simp only [] at hd
      obtain ⟨rest, hr, hno⟩ := (before_hyphen_iff _ _ hod).mp hd
      refine ⟨⟨rest⟩, ?_, hno⟩
      have ht := (HasPrefix_iff t "user-").mp hp
      rw [h5, hr] at ht
      rw [ht]
      apply String.ext
      simp [String.data_append]
    · rw [if_neg hp] at h
      exact absurd h.symm ho
  · rintro ⟨rest, ht, hno⟩
    have ht2 : t = "user-" ++ (o ++ "-" ++ rest) := by
      rw [ht]; apply String.ext; simp [String.data_append]
    have hp : HasPrefix t "user-" = true := by rw [ht2]; exact HasPrefix_append _ _
    rw [if_pos hp]
    apply String.ext
    simp only []
    apply (before_hyphen_iff _ _ hod).mpr
    refine ⟨rest.data, ?_, hno⟩
    rw [ht2, String.data_append]
    have h1 : "user-".data = ['u', 's', 'e', 'r', '-'] := rfl
    rw [h1]
    simp [String.data_append]

/-- C10. For every instance name `n` and every non-empty `o`, `UserFromGomoteInstanceName n`
is `o` exactly when `n`, or `n` without one leading `mutable-`, has the form
`user-` `o` `-` `rest` with no hyphen in `o`. The two names of the specification give
`alice` and `bob`, and putting `mutable-` in front of a name that starts with `user-` does
not change the result. -/
theorem UserFromGomoteInstanceName_iff (n o : String) (ho : o ≠ "") :
    (UserFromGomoteInstanceName n = o ↔
      ∃ m rest : String, (n = m ∨ n = "mutable-" ++ m) ∧
        m = "user-" ++ o ++ "-" ++ rest ∧ '-' ∉ o.data) ∧
    UserFromGomoteInstanceName "mutable-user-alice-linux-amd64-0" = "alice" ∧
    UserFromGomoteInstanceName "user-bob-darwin-arm64-3" = "bob" ∧
    (∀ name : String, HasPrefix name "user-" = true →
      UserFromGomoteInstanceName ("mutable-" ++ name) = UserFromGomoteInstanceName name) := by
  refine ⟨?_, by decide, by decide, ?_⟩
  · show (if !HasPrefix (TrimPrefix n "mutable-") "user-" then ""
      else
        if IndexByte (sliceFrom (TrimPrefix n "mutable-") "user-".length) '-' == -1 then ""
        else sliceTo (sliceFrom (TrimPrefix n "mutable-") "user-".length)
          (IndexByte (sliceFrom (TrimPrefix n "mutable-") "user-".length) '-').toNat) = o ↔ _
    rw [user_of_trimmed_iff _ _ ho]
    constructor
    · rintro ⟨rest, ht, hno⟩
      refine ⟨TrimPrefix n "mutable-", rest, ?_, ht, hno⟩
      rcases TrimPrefix_cases n "mutable-" with ⟨-, h⟩ | ⟨-, h⟩
      · exact Or.inl h.symm
      · exact Or.inr h
    · rintro ⟨m, rest, hn, hm, hno⟩
      refine ⟨rest, ?_, hno⟩
      have hm2 : m = "user-" ++ (o ++ "-" ++ rest) := by
        rw [hm]; apply String.ext; simp [String.data_append]
      have hp : HasPrefix m "user-" = true := by rw [hm2]; exact HasPrefix_append _ _
      rcases hn with hn | hn
      · rw [hn]
        rcases TrimPrefix_cases m "mutable-" with ⟨-, h⟩ | ⟨h, -⟩
        · rw [h]; exact hm
        · rw [not_mutable_of_user m hp] at h; cases h
      · rw [hn, TrimPrefix_append]; exact hm
  · intro name hp
    have h1 : TrimPrefix ("mutable-" ++ name) "mutable-" = name := TrimPrefix_append _ _
    have h2 : TrimPrefix name "mutable-" = name := by
      rcases TrimPrefix_cases name "mutable-" with ⟨-, h⟩ | ⟨h, -⟩
      · exact h
      · rw [not_mutable_of_user name hp] at h; cases h
    unfold UserFromGomoteInstanceName
    simp only [h1, h2]

/-- Witness for C10: the owner `alice` in a name with the `mutable-` prefix. -/
theorem UserFromGomoteInstanceName_iff_witness :
    "alice" ≠ "" ∧ UserFromGomoteInstanceName "mutable-user-alice-linux-amd64-0" = "alice" :=
  ⟨by decide, ((UserFromGomoteInstanceName_iff "mutable-user-alice-linux-amd64-0" "alice"
    (by decide)).1).mpr ⟨"user-alice-linux-amd64-0", "linux-amd64-0", Or.inr (by decide),
      by decide, by decide⟩⟩

/-! ## The legacy strategy -/

/-- A name that does not start with `user-` once `mutable-` is trimmed has no owner. -/
theorem UserFromGomoteInstanceName_empty (name : String)
    (h : HasPrefix (TrimPrefix name "mutable-") "user-" = false) :
    UserFromGomoteInstanceName name = "" := by
  unfold UserFromGomoteInstanceName
  simp [h]

/-- C11. For every connecting user-name that, with one leading `mutable-` removed, does not
begin with `user-`, `UserFromGomoteInstanceName` returns the empty string and the legacy
strategy returns false for every offered key, having done nothing: no request to the
identity source, no log line. -/
theorem handleSSHPublicKeyAuth_fails_closed (GitHubOfGomoteUser : String → String)
    (http : HTTPClient) (ParseAuthorizedKey : List Nat → Except GoError PublicKey)
    (MarshalCertificate : Certificate → List Nat) (ctx : Context) (key : OfferedKey)
    (h : HasPrefix (TrimPrefix ctx.User "mutable-") "user-" = false) :
    UserFromGomoteInstanceName ctx.User = "" ∧
    handleSSHPublicKeyAuth GitHubOfGomoteUser http ParseAuthorizedKey MarshalCertificate
      ctx key = (false, []) ∧
    (∀ user, Event.identityLookup user ∉
      (handleSSHPublicKeyAuth GitHubOfGomoteUser http ParseAuthorizedKey MarshalCertificate
        ctx key).2) := by
  have hu := UserFromGomoteInstanceName_empty ctx.User h
  have hr : handleSSHPublicKeyAuth GitHubOfGomoteUser http ParseAuthorizedKey
      MarshalCertificate ctx key = (false, []) := by
    unfold handleSSHPublicKeyAuth
    simp [hu]
  refine ⟨hu, hr, ?_⟩
  intro user
  rw [hr]
  simp

/-- Witness for C11: the user-name `mutable-root-linux`, offered a key that the identity
source lists for `alice`. -/
theorem handleSSHPublicKeyAuth_fails_closed_witness :
    HasPrefix (TrimPrefix (Context.mk "mutable-root-linux").User "mutable-") "user-" = false ∧
    handleSSHPublicKeyAuth id (demoGitHub ["ssh-ed25519 AAAA"]) demoLineParse
      demoMarshalCertificate ⟨"mutable-root-linux"⟩
      (.plain (demoKey (bytesOf "ssh-ed25519 AAAA"))) = (false, []) :=
  ⟨by decide, (handleSSHPublicKeyAuth_fails_closed id (demoGitHub ["ssh-ed25519 AAAA"])
    demoLineParse demoMarshalCertificate ⟨"mutable-root-linux"⟩
    (.plain (demoKey (bytesOf "ssh-ed25519 AAAA"))) (by decide)).2.1⟩

/-- The comparison `KeysEqual` holds exactly when the two encodings are equal. -/
theorem KeysEqual_iff (MarshalCertificate : Certificate → List Nat) (ak : OfferedKey)
    (bk : PublicKey) :
    KeysEqual MarshalCertificate ak bk = true ↔ ak.Marshal MarshalCertificate = bk.Marshal := by
  unfold KeysEqual ConstantTimeCompare
  by_cases h : ak.Marshal MarshalCertificate = bk.Marshal
  · simp [h]
  · simp [h]

/-- The verdict of the legacy strategy. -/
theorem legacyAuth_true_iff (GitHubOfGomoteUser : String → String)
    (http : HTTPClient) (ParseAuthorizedKey : List Nat → Except GoError PublicKey)
    (MarshalCertificate : Certificate → List Nat) (ctx : Context) (key : OfferedKey) :
    (handleSSHPublicKeyAuth GitHubOfGomoteUser http ParseAuthorizedKey MarshalCertificate
      ctx key).1 = true ↔
    UserFromGomoteInstanceName ctx.User ≠ "" ∧
      ∃ authKey ∈ (githubPublicKeys http ParseAuthorizedKey
          (GitHubOfGomoteUser (UserFromGomoteInstanceName ctx.User))).1,
        key.Marshal MarshalCertificate = authKey.PublicKey.Marshal := by
  unfold handleSSHPublicKeyAuth
  by_cases hu : UserFromGomoteInstanceName ctx.User = ""
  · simp [hu]
  · simp only [beq_iff_eq, hu, if_false, ne_eq, not_false_eq_true, true_and]
    cases hf : (githubPublicKeys http ParseAuthorizedKey
        (GitHubOfGomoteUser (UserFromGomoteInstanceName ctx.User))).1.find?
        (fun authKey => KeysEqual MarshalCertificate key authKey.PublicKey) with
    | none =>
      simp only [Bool.false_eq_true, false_iff, not_exists, not_and]
      intro authKey hmem heq
      have := List.find?_eq_none.mp hf authKey hmem
      exact this ((KeysEqual_iff _ _ _).mpr heq)
    | some authKey =>
      simp only [true_iff]
      have hk : KeysEqual MarshalCertificate key authKey.PublicKey = true :=
        List.find?_some
          (p := fun a : authorizedKey => KeysEqual MarshalCertificate key a.PublicKey) hf
      exact ⟨authKey, List.mem_of_find?_eq_some hf, (KeysEqual_iff _ _ _).mp hk⟩

/-- C12. The legacy strategy accepts exactly when the owner that
`UserFromGomoteInstanceName` derives from the user-name is not empty and the offered key has
the same encoding as one of the keys fetched from the identity source for that owner (under
the GitHub name the table gives the owner). Nothing else of the connection counts: two
connections with the same derived owner and keys of the same encoding get the same verdict. -/
theorem handleSSHPublicKeyAuth_accepts_iff (GitHubOfGomoteUser : String → String)
    (http : HTTPClient) (ParseAuthorizedKey : List Nat → Except GoError PublicKey)
    (MarshalCertificate : Certificate → List Nat) (ctx : Context) (key : OfferedKey) :
    ((handleSSHPublicKeyAuth GitHubOfGomoteUser http ParseAuthorizedKey MarshalCertificate
        ctx key).1 = true ↔
      UserFromGomoteInstanceName ctx.User ≠ "" ∧
        ∃ authKey ∈ (githubPublicKeys http ParseAuthorizedKey
            (GitHubOfGomoteUser (UserFromGomoteInstanceName ctx.User))).1,
          key.Marshal MarshalCertificate = authKey.PublicKey.Marshal) ∧
    (∀ (ctx2 : Context) (key2 : OfferedKey),
      UserFromGomoteInstanceName ctx2.User = UserFromGomoteInstanceName ctx.User →
      key2.Marshal MarshalCertificate = key.Marshal MarshalCertificate →
      (handleSSHPublicKeyAuth GitHubOfGomoteUser http ParseAuthorizedKey MarshalCertificate
        ctx2 key2).1 =
      (handleSSHPublicKeyAuth GitHubOfGomoteUser http ParseAuthorizedKey MarshalCertificate
        ctx key).1) := by
  refine ⟨legacyAuth_true_iff _ _ _ _ _ _, ?_⟩
  intro ctx2 key2 hu hk
  rw [Bool.eq_iff_iff, legacyAuth_true_iff, legacyAuth_true_iff, hu, hk]

/-- Witness for C12: `alice` connects to `user-alice-linux-amd64-0` with the second of her
two keys and is accepted; with a key of her own that the source does not list she is not. -/
theorem handleSSHPublicKeyAuth_accepts_iff_witness :
    (handleSSHPublicKeyAuth id (demoGitHub ["ssh-rsa AAAA1", "ssh-ed25519 AAAA2"]) demoLineParse
      demoMarshalCertificate ⟨"user-alice-linux-amd64-0"⟩
      (.plain (demoKey (bytesOf "ssh-ed25519 AAAA2")))).1 = true ∧
    (handleSSHPublicKeyAuth id (demoGitHub ["ssh-rsa AAAA1", "ssh-ed25519 AAAA2"]) demoLineParse
      demoMarshalCertificate ⟨"user-alice-linux-amd64-0"⟩
      (.plain (demoKey (bytesOf "ssh-ed25519 AAAA3")))).1 = false :=
  ⟨((handleSSHPublicKeyAuth_accepts_iff id (demoGitHub ["ssh-rsa AAAA1", "ssh-ed25519 AAAA2"])
      demoLineParse demoMarshalCertificate ⟨"user-alice-linux-amd64-0"⟩
      (.plain (demoKey (bytesOf "ssh-ed25519 AAAA2")))).1).mpr
      ⟨by decide, ⟨"ssh-ed25519 AAAA2", demoKey (bytesOf "ssh-ed25519 AAAA2")⟩,
        List.Mem.tail _ (List.Mem.head _), rfl⟩,
    by decide⟩

/-! ## The identity source -/

/-- The keys the scanning loop collects: one entry per line that parses, in order. -/
theorem scanKeys_keys (ParseAuthorizedKey : List Nat → Except GoError PublicKey)
    (user : String) (lines : List String) :
    (scanKeys ParseAuthorizedKey user lines).1 =
      lines.filterMap (fun line =>
        match ParseAuthorizedKey (bytesOf line) with
        | .ok key => some { AuthorizedLine := TrimSpace line, PublicKey := key }
        | .error _ => none) := by
  induction lines with
  | nil => rfl
  | cons line rest ih =>
    unfold scanKeys
    cases hp : ParseAuthorizedKey (bytesOf line) with
    | error e => simp [List.filterMap_cons, hp, ih]
    | ok key => simp [List.filterMap_cons, hp, ih]

/-- C20, as stated, fails on the code. The reply has the status 200 and its first line,
`ssh-rsa AAAA1`, parses as an authorized key; the scanner then ends with an error, and
`githubPublicKeys` returns no key at all. -/
theorem githubPublicKeys_counterexample :
    (cutShortGitHub ["ssh-rsa AAAA1"]).Do ("https://github.com/" ++ "alice" ++ ".keys") =
      .ok { StatusCode := 200, Lines := ["ssh-rsa AAAA1"]
            ScanErr := some (.errorf "bufio.Scanner: token too long" []) } ∧
    (demoLineParse (bytesOf "ssh-rsa AAAA1")).toOption.isSome = true ∧
    (githubPublicKeys (cutShortGitHub ["ssh-rsa AAAA1"]) demoLineParse "alice").1 = [] := by
  refine ⟨rfl, by decide, rfl⟩

/-- C20, amended. With the reply of the identity source a status code and a list of lines:
`githubPublicKeys` returns no key when the request cannot be built, when it fails, or when
the status is not 200. When the status is 200 and the lines were read to the end without a
scanner error, it returns one entry for every line that parses as an authorized key, in the
order of the reply, with `AuthorizedLine` the line trimmed of white space; a line that does
not parse is skipped and the entries of the lines before and after it are kept. When the
status is 200 and the scanner ends with an error, it returns no key. -/
theorem githubPublicKeys_spec (http : HTTPClient)
    (ParseAuthorizedKey : List Nat → Except GoError PublicKey) (user : String) :
    (∀ err, http.NewRequest ("https://github.com/" ++ user ++ ".keys") = .error err →
      (githubPublicKeys http ParseAuthorizedKey user).1 = []) ∧
    (∀ err, http.Do ("https://github.com/" ++ user ++ ".keys") = .error err →
      (githubPublicKeys http ParseAuthorizedKey user).1 = []) ∧
    (∀ res, http.Do ("https://github.com/" ++ user ++ ".keys") = .ok res →
      res.StatusCode ≠ 200 → (githubPublicKeys http ParseAuthorizedKey user).1 = []) ∧
    (∀ res, http.NewRequest ("https://github.com/" ++ user ++ ".keys") = .ok () →
      http.Do ("https://github.com/" ++ user ++ ".keys") = .ok res →
      res.StatusCode = 200 → res.ScanErr = none →
      (githubPublicKeys http ParseAuthorizedKey user).1 =
        res.Lines.filterMap (fun line =>
          match ParseAuthorizedKey (bytesOf line) with
          | .ok key => some { AuthorizedLine := TrimSpace line, PublicKey := key }
          | .error _ => none) ∧
      ∀ before bad after err, res.Lines = before ++ bad :: after →
        ParseAuthorizedKey (bytesOf bad) = .error err →
        (githubPublicKeys http ParseAuthorizedKey user).1 =
          (scanKeys ParseAuthorizedKey user before).1 ++
            (scanKeys ParseAuthorizedKey user after).1) ∧
    (∀ res err, http.Do ("https://github.com/" ++ user ++ ".keys") = .ok res →
      res.ScanErr = some err → (githubPublicKeys http ParseAuthorizedKey user).1 = []) := by
  refine ⟨?_, ?_, ?_, ?_, ?_⟩
  · intro err h
    unfold githubPublicKeys
    simp [h]
  · intro err h
    unfold githubPublicKeys
    cases hn : http.NewRequest ("https://github.com/" ++ user ++ ".keys") <;> simp [h]
  · intro res h hs
    unfold githubPublicKeys
    cases hn : http.NewRequest ("https://github.com/" ++ user ++ ".keys") <;> simp [h, hs]
  · intro res hn h hs hscan
    have hkeys : (githubPublicKeys http ParseAuthorizedKey user).1 =
        (scanKeys ParseAuthorizedKey user res.Lines).1 := by
      unfold githubPublicKeys
      simp [hn, h, hs, hscan]
    refine ⟨by rw [hkeys, scanKeys_keys], ?_⟩
    intro before bad after err hl hbad
    rw [hkeys, hl, scanKeys_keys, scanKeys_keys, scanKeys_keys, List.filterMap_append,
      List.filterMap_cons, hbad]
  · intro res err h hscan
    unfold githubPublicKeys
    cases hn : http.NewRequest ("https://github.com/" ++ user ++ ".keys") with
    | error e => simp
    | ok u =>
      by_cases hs : res.StatusCode = 200
      · simp [h, hs, hscan]
      · simp [h, hs]

/-- Witness for C20: a reply of four lines, of which the second is empty and the third is
not a key; the two keys come back in order, the second with its line trimmed. -/
theorem githubPublicKeys_spec_witness :
    (githubPublicKeys (demoGitHub ["ssh-rsa AAAA1", "", "<html>", "ssh-ed25519 AAAA2  "])
        demoLineParse "alice").1.map (fun k => (k.AuthorizedLine, k.PublicKey.Marshal)) =
      [("ssh-rsa AAAA1", bytesOf "ssh-rsa AAAA1"),
        ("ssh-ed25519 AAAA2", bytesOf "ssh-ed25519 AAAA2  ")] ∧
    (githubPublicKeys (demoGitHub ["ssh-rsa AAAA1"]) demoLineParse "bob").1.length = 0 := by
  refine ⟨?_, ?_⟩
  · rw [((githubPublicKeys_spec
      (demoGitHub ["ssh-rsa AAAA1", "", "<html>", "ssh-ed25519 AAAA2  "]) demoLineParse
      "alice").2.2.2.1 _ rfl rfl rfl rfl).1]
    decide
  · rw [(githubPublicKeys_spec (demoGitHub ["ssh-rsa AAAA1"]) demoLineParse "bob").2.2.1
      _ rfl (by decide)]
    rfl

/-! ## The gateway: what each part does -/

/-- Every effect of `startClient` is a bridging effect. -/
theorem startClient_effects (pf : Platform) (s : ClientSession) (inst : String)
    (argv : List String) : ∀ e ∈ startClient pf s inst argv, e.isBridging = true := by
  unfold startClient
  split <;> simp

/-- Every effect of `bridge` is a bridging effect. -/
theorem bridge_effects (pf : Platform) (ss : SSHServer) (s : ClientSession) (inst : String)
    (bconf : BuildConfig) (sshUser : String) (client : BuildletClient)
    (localProxyPort : Nat) :
    ∀ e ∈ bridge pf ss s inst bconf sshUser client localProxyPort, e.isBridging = true := by
  have hs := startClient_effects pf s inst
  unfold bridge
  split
  · simp
  · split
    · split
      · simp
      · simp only [List.forall_mem_append, List.forall_mem_cons, List.mem_cons]
        simp
        exact hs _
    · simp only [List.forall_mem_append, List.forall_mem_cons, List.mem_cons]
      simp
      exact hs _

/-- Every effect of `connectAndBridge` is a bridging effect or an effect on the tunnel. -/
theorem connectAndBridge_effects (pf : Platform) (ss : SSHServer) (s : ClientSession)
    (inst : String) (bconf : BuildConfig) (sshUser : String) (useLocalSSHProxy : Bool)
    (client : BuildletClient) :
    ∀ e ∈ connectAndBridge pf ss s inst bconf sshUser useLocalSSHProxy client,
      e.isBridging = true ∨ e.isTunnel = true := by
  have hb := bridge_effects pf ss s inst bconf sshUser client
  unfold connectAndBridge
  split
  · split
    · simp
    · split
      · simp
      · intro e he
        simp only [List.mem_append, List.mem_cons, List.mem_nil_iff, or_false] at he
        rcases he with (rfl | rfl | rfl) | ((rfl | rfl) | he) | rfl | rfl
        all_goals first | exact Or.inl (hb _ e he) | simp
  · intro e he
    exact Or.inl (hb _ e he)

/-- The effects of the keep-alive call: the call, and a log line when it fails. -/
theorem keepAliveEffects_effects (ss : SSHServer) (inst : String) :
    ∀ e ∈ keepAliveEffects ss inst, e = .keepAlive inst ∨ e.isBridging = true := by
  unfold keepAliveEffects
  split <;> simp

/-! ## The session-based handler, path by path -/

/-- The host type of the session is not in the catalog. -/
theorem Incoming_unknown_host (pf : Platform) (ss : SSHServer) (s : ClientSession)
    (rs : Session) (hH : pf.Hosts rs.HostType = none) :
    IncomingSSHPostAuth pf ss s rs =
      [.write "instance %q has unknown host type %q\n" [s.User, rs.HostType]] := by
  simp [IncomingSSHPostAuth, hH]

/-- The builder type of the session is not in the catalog. -/
theorem Incoming_unknown_builder (pf : Platform) (ss : SSHServer) (s : ClientSession)
    (rs : Session) (hostConf : HostConfig) (hH : pf.Hosts rs.HostType = some hostConf)
    (hB : pf.Builders rs.BuilderType = none) :
    IncomingSSHPostAuth pf ss s rs =
      [.write "instance %q has unknown builder type %q\n" [s.User, rs.BuilderType]] := by
  simp [IncomingSSHPostAuth, hH, hB]

/-- The host has no SSH user and the builder is not a plan9 one. -/
theorem Incoming_no_ssh (pf : Platform) (ss : SSHServer) (s : ClientSession)
    (rs : Session) (hostConf : HostConfig) (bconf : BuildConfig)
    (hH : pf.Hosts rs.HostType = some hostConf) (hB : pf.Builders rs.BuilderType = some bconf)
    (hU : hostConf.SSHUsername = "") (hG : bconf.GOOS ≠ "plan9") :
    IncomingSSHPostAuth pf ss s rs =
      keepAliveEffects ss s.User ++
        [.write "instance %q host type %q does not have SSH configured\n" [s.User, rs.HostType],
          .cancel] := by
  simp [IncomingSSHPostAuth, hH, hB, hU, hG]

/-- The host has SSH configured, or the builder is a plan9 one, and the host is not
hermetic. -/
theorem Incoming_not_hermetic (pf : Platform) (ss : SSHServer) (s : ClientSession)
    (rs : Session) (hostConf : HostConfig) (bconf : BuildConfig)
    (hH : pf.Hosts rs.HostType = some hostConf) (hB : pf.Builders rs.BuilderType = some bconf)
    (hS : hostConf.SSHUsername ≠ "" ∨ bconf.GOOS = "plan9")
    (hM : hostConf.IsHermetic = false) :
    IncomingSSHPostAuth pf ss s rs =
      keepAliveEffects ss s.User ++ hermeticWarning s.User rs.HostType ++ [.cancel] := by
  have hc : (hostConf.SSHUsername == "" && bconf.GOOS != "plan9") = false := by
    rcases hS with h | h
    · simp [h]
    · simp [h]
  simp [IncomingSSHPostAuth, hH, hB, hc, hM]

/-- The host has SSH configured, or the builder is a plan9 one, and the host is hermetic:
the handler goes on to the buildlet client. -/
theorem Incoming_proceeds (pf : Platform) (ss : SSHServer) (s : ClientSession)
    (rs : Session) (hostConf : HostConfig) (bconf : BuildConfig)
    (hH : pf.Hosts rs.HostType = some hostConf) (hB : pf.Builders rs.BuilderType = some bconf)
    (hS : hostConf.SSHUsername ≠ "" ∨ bconf.GOOS = "plan9")
    (hM : hostConf.IsHermetic = true) :
    IncomingSSHPostAuth pf ss s rs =
      keepAliveEffects ss s.User ++
        [.log "connecting to ssh to instance %q ..." [s.User],
          .write "# Welcome to the gomote ssh proxy.\n" [],
          .write "# Connecting to/starting remote ssh...\n" [],
          .write "#\n" [],
          .buildletClient s.User] ++
        (match ss.sessionPool.BuildletClient s.User with
          | .error err => [.write "failed to connect to ssh on %s: %v\n" [s.User, err.text]]
          | .ok bc =>
            connectAndBridge pf ss s s.User bconf hostConf.SSHUsername (bconf.GOOS != "plan9")
              bc) ++
        [.cancel] := by
  have hc : (hostConf.SSHUsername == "" && bconf.GOOS != "plan9") = false := by
    rcases hS with h | h
    · simp [h]
    · simp [h]
  simp [IncomingSSHPostAuth, hH, hB, hc, hM]


/-- Every effect of `IncomingSSHPostAuth` is a bridging effect, an effect on the tunnel, a
call of `KeepAlive` or `BuildletClient` with the user-name of the connection, or the
deferred `cancel`. -/
theorem IncomingSSHPostAuth_effects (pf : Platform) (ss : SSHServer) (s : ClientSession)
    (rs : Session) :
    ∀ e ∈ IncomingSSHPostAuth pf ss s rs,
      e.isBridging = true ∨ e.isTunnel = true ∨ e = .keepAlive s.User ∨
        e = .buildletClient s.User ∨ e = .cancel := by
  have hk : ∀ e ∈ keepAliveEffects ss s.User,
      e.isBridging = true ∨ e.isTunnel = true ∨ e = .keepAlive s.User ∨
        e = .buildletClient s.User ∨ e = .cancel := by
    intro e he
    rcases keepAliveEffects_effects ss s.User e he with h | h
    · exact Or.inr (Or.inr (Or.inl h))
    · exact Or.inl h
  cases hH : pf.Hosts rs.HostType with
  | none =>
    rw [Incoming_unknown_host pf ss s rs hH]
    simp
  | some hostConf =>
    cases hB : pf.Builders rs.BuilderType with
    | none =>
      rw [Incoming_unknown_builder pf ss s rs hostConf hH hB]
      simp
    | some bconf =>
      by_cases hS : hostConf.SSHUsername ≠ "" ∨ bconf.GOOS = "plan9"
      · cases hM : hostConf.IsHermetic with
        | false =>
          rw [Incoming_not_hermetic pf ss s rs hostConf bconf hH hB hS hM]
          refine List.forall_mem_append.mpr ⟨List.forall_mem_append.mpr ⟨hk, ?_⟩, ?_⟩
          · simp [hermeticWarning]
          · simp
        | true =>
          rw [Incoming_proceeds pf ss s rs hostConf bconf hH hB hS hM]
          refine List.forall_mem_append.mpr ⟨List.forall_mem_append.mpr
            ⟨List.forall_mem_append.mpr ⟨hk, ?_⟩, ?_⟩, ?_⟩
          · simp
          · cases hbc : ss.sessionPool.BuildletClient s.User with
            | error err => simp
            | ok bc =>
              intro e he
              rcases connectAndBridge_effects pf ss s s.User bconf hostConf.SSHUsername
                (bconf.GOOS != "plan9") bc e he with h | h
              · exact Or.inl h
              · exact Or.inr (Or.inl h)
          · simp
      · have hU : hostConf.SSHUsername = "" := by
          by_contra h; exact hS (Or.inl h)
        have hG : bconf.GOOS ≠ "plan9" := fun h => hS (Or.inr h)
        rw [Incoming_no_ssh pf ss s rs hostConf bconf hH hB hU hG]
        refine List.forall_mem_append.mpr ⟨hk, ?_⟩
        simp

/-! ## The legacy handler, path by path -/

/-- The request is not a PTY request. -/
theorem legacy_not_pty (pf : Platform) (ss : SSHServer) (s : ClientSession) (rb : Buildlet)
    (hp : s.isPty = false) :
    legacyIncomingSSHPostAuth pf ss s rb =
      [.write "scp etc not yet supported; https://golang.org/issue/21140\n" []] := by
  simp [legacyIncomingSSHPostAuth, hp]

/-- The server has no gomote public key. -/
theorem legacy_no_key (pf : Platform) (ss : SSHServer) (s : ClientSession) (rb : Buildlet)
    (hp : s.isPty = true) (hk : ss.gomotePublicKey = "") :
    legacyIncomingSSHPostAuth pf ss s rb = [.write "invalid gomote-ssh-public-key" []] := by
  simp [legacyIncomingSSHPostAuth, hp, hk]

/-- The host type of the buildlet is not in the catalog. -/
theorem legacy_unknown_host (pf : Platform) (ss : SSHServer) (s : ClientSession)
    (rb : Buildlet) (hp : s.isPty = true) (hk : ss.gomotePublicKey ≠ "")
    (hH : pf.Hosts rb.HostType = none) :
    legacyIncomingSSHPostAuth pf ss s rb =
      [.write "instance %q has unknown host type %q\n"
        [(mutableAndInstance s.User).2, rb.HostType]] := by
  simp [legacyIncomingSSHPostAuth, hp, hk, hH]

/-- The builder type of the buildlet is not in the catalog. -/
theorem legacy_unknown_builder (pf : Platform) (ss : SSHServer) (s : ClientSession)
    (rb : Buildlet) (hostConf : HostConfig) (hp : s.isPty = true)
    (hk : ss.gomotePublicKey ≠ "") (hH : pf.Hosts rb.HostType = some hostConf)
    (hB : pf.Builders rb.BuilderType = none) :
    legacyIncomingSSHPostAuth pf ss s rb =
      [.write "instance %q has unknown builder type %q\n"
        [(mutableAndInstance s.User).2, rb.BuilderType]] := by
  simp [legacyIncomingSSHPostAuth, hp, hk, hH, hB]

/-- The host has no SSH user and the builder is not a plan9 one. -/
theorem legacy_no_ssh (pf : Platform) (ss : SSHServer) (s : ClientSession)
    (rb : Buildlet) (hostConf : HostConfig) (bconf : BuildConfig) (hp : s.isPty = true)
    (hk : ss.gomotePublicKey ≠ "") (hH : pf.Hosts rb.HostType = some hostConf)
    (hB : pf.Builders rb.BuilderType = some bconf)
    (hU : hostConf.SSHUsername = "") (hG : bconf.GOOS ≠ "plan9") :
    legacyIncomingSSHPostAuth pf ss s rb =
      [.renew,
        .write "instance %q host type %q does not have SSH configured\n"
          [(mutableAndInstance s.User).2, rb.HostType],
        .cancel] := by
  simp [legacyIncomingSSHPostAuth, hp, hk, hH, hB, hU, hG]

/-- The host is not hermetic and the user-name does not carry the override. -/
theorem legacy_not_hermetic (pf : Platform) (ss : SSHServer) (s : ClientSession)
    (rb : Buildlet) (hostConf : HostConfig) (bconf : BuildConfig) (hp : s.isPty = true)
    (hk : ss.gomotePublicKey ≠ "") (hH : pf.Hosts rb.HostType = some hostConf)
    (hB : pf.Builders rb.BuilderType = some bconf)
    (hS : hostConf.SSHUsername ≠ "" ∨ bconf.GOOS = "plan9")
    (hM : hostConf.IsHermetic = false) (hmut : (mutableAndInstance s.User).1 = false) :
    legacyIncomingSSHPostAuth pf ss s rb =
      [.renew] ++ hermeticWarning (mutableAndInstance s.User).2 rb.HostType ++ [.cancel] := by
  have hc : (hostConf.SSHUsername == "" && bconf.GOOS != "plan9") = false := by
    rcases hS with h | h
    · simp [h]
    · simp [h]
  simp [legacyIncomingSSHPostAuth, hp, hk, hH, hB, hc, hM, hmut]

/-- The host is hermetic or the user-name carries the override: the handler goes on to
the tunnel. -/
theorem legacy_proceeds (pf : Platform) (ss : SSHServer) (s : ClientSession)
    (rb : Buildlet) (hostConf : HostConfig) (bconf : BuildConfig) (hp : s.isPty = true)
    (hk : ss.gomotePublicKey ≠ "") (hH : pf.Hosts rb.HostType = some hostConf)
    (hB : pf.Builders rb.BuilderType = some bconf)
    (hS : hostConf.SSHUsername ≠ "" ∨ bconf.GOOS = "plan9")
    (hM : hostConf.IsHermetic = true ∨ (mutableAndInstance s.User).1 = true) :
    legacyIncomingSSHPostAuth pf ss s rb =
      [.renew,
        .log "connecting to ssh to instance %q ..." [(mutableAndInstance s.User).2],
        .write "# Welcome to the gomote ssh proxy, %s.\n" [UserFromGomoteInstanceName s.User],
        .write "# Connecting to/starting remote ssh...\n" [],
        .write "#\n" []] ++
      connectAndBridge pf ss s (mutableAndInstance s.User).2 bconf hostConf.SSHUsername
        (bconf.GOOS != "plan9") rb.Client ++
      [.cancel] := by
  have hc : (hostConf.SSHUsername == "" && bconf.GOOS != "plan9") = false := by
    rcases hS with h | h
    · simp [h]
    · simp [h]
  have hm : (!hostConf.IsHermetic && !(mutableAndInstance s.User).1) = false := by
    rcases hM with h | h
    · simp [h]
    · simp [h]
  simp [legacyIncomingSSHPostAuth, hp, hk, hH, hB, hc, hm]

/-- Every effect of `legacyIncomingSSHPostAuth` is a bridging effect, an effect on the
tunnel, the start of `Renew`, or the deferred `cancel`. -/
theorem legacyIncomingSSHPostAuth_effects (pf : Platform) (ss : SSHServer)
    (s : ClientSession) (rb : Buildlet) :
    ∀ e ∈ legacyIncomingSSHPostAuth pf ss s rb,
      e.isBridging = true ∨ e.isTunnel = true ∨ e = .renew ∨ e = .cancel := by
  cases hp : s.isPty with
  | false => rw [legacy_not_pty pf ss s rb hp]; simp
  | true =>
    by_cases hk : ss.gomotePublicKey = ""
    · rw [legacy_no_key pf ss s rb hp hk]; simp
    · cases hH : pf.Hosts rb.HostType with
      | none => rw [legacy_unknown_host pf ss s rb hp hk hH]; simp
      | some hostConf =>
        cases hB : pf.Builders rb.BuilderType with
        | none => rw [legacy_unknown_builder pf ss s rb hostConf hp hk hH hB]; simp
        | some bconf =>
          by_cases hS : hostConf.SSHUsername ≠ "" ∨ bconf.GOOS = "plan9"
          · by_cases hM : hostConf.IsHermetic = true ∨ (mutableAndInstance s.User).1 = true
            · rw [legacy_proceeds pf ss s rb hostConf bconf hp hk hH hB hS hM]
              refine List.forall_mem_append.mpr ⟨List.forall_mem_append.mpr ⟨?_, ?_⟩, ?_⟩
              · simp
              · intro e he
                rcases connectAndBridge_effects _ _ _ _ _ _ _ _ e he with h | h
                · exact Or.inl h
                · exact Or.inr (Or.inl h)
              · simp
            · have h1 : hostConf.IsHermetic = false := by
                cases h : hostConf.IsHermetic with
                | false => rfl
                | true => exact absurd (Or.inl h) hM
              have h2 : (mutableAndInstance s.User).1 = false := by
                cases h : (mutableAndInstance s.User).1 with
                | false => rfl
                | true => exact absurd (Or.inr h) hM
              rw [legacy_not_hermetic pf ss s rb hostConf bconf hp hk hH hB hS h1 h2]
              simp [hermeticWarning]
          · have hU : hostConf.SSHUsername = "" := by
              by_contra h; exact hS (Or.inl h)
            have hG : bconf.GOOS ≠ "plan9" := fun h => hS (Or.inr h)
            rw [legacy_no_ssh pf ss s rb hostConf bconf hp hk hH hB hU hG]
            simp

/-! ## The gateway entry point, path by path -/

/-- The request is not a PTY request: one line is written and nothing else happens. -/
theorem Handle_not_pty (pf : Platform) (ss : SSHServer) (s : ClientSession)
    (hp : s.isPty = false) :
    HandleIncomingSSHPostAuth pf ss s =
      [.write "scp etc not yet supported; https://golang.org/issue/21140\n" []] := by
  simp [HandleIncomingSSHPostAuth, hp]

/-- The server has no gomote public key: one line is written and nothing else happens. -/
theorem Handle_no_key (pf : Platform) (ss : SSHServer) (s : ClientSession)
    (hp : s.isPty = true) (hk : ss.gomotePublicKey = "") :
    HandleIncomingSSHPostAuth pf ss s = [.write "invalid gomote-ssh-public-key" []] := by
  simp [HandleIncomingSSHPostAuth, hp, hk]

/-- The instance is in the legacy table: the legacy handler takes over. -/
theorem Handle_legacy (pf : Platform) (ss : SSHServer) (s : ClientSession) (rb : Buildlet)
    (hp : s.isPty = true) (hk : ss.gomotePublicKey ≠ "")
    (hL : ss.remoteBuildlets.M (mutableAndInstance s.User).2 = some rb) :
    HandleIncomingSSHPostAuth pf ss s =
      .legacyLookup (mutableAndInstance s.User).2 :: legacyIncomingSSHPostAuth pf ss s rb := by
  simp [HandleIncomingSSHPostAuth, hp, hk, hL]

/-- The instance is in neither the legacy table nor the registry. -/
theorem Handle_unknown (pf : Platform) (ss : SSHServer) (s : ClientSession) (err : GoError)
    (hp : s.isPty = true) (hk : ss.gomotePublicKey ≠ "")
    (hL : ss.remoteBuildlets.M (mutableAndInstance s.User).2 = none)
    (hR : ss.sessionPool.Session (mutableAndInstance s.User).2 = .error err) :
    HandleIncomingSSHPostAuth pf ss s =
      [.legacyLookup (mutableAndInstance s.User).2,
        .sessionLookup (mutableAndInstance s.User).2,
        .write "unknown instance %q" [(mutableAndInstance s.User).2]] := by
  simp [HandleIncomingSSHPostAuth, hp, hk, hL, hR]

/-- The instance is in the registry only: the session-based handler takes over. -/
theorem Handle_session (pf : Platform) (ss : SSHServer) (s : ClientSession) (rs : Session)
    (hp : s.isPty = true) (hk : ss.gomotePublicKey ≠ "")
    (hL : ss.remoteBuildlets.M (mutableAndInstance s.User).2 = none)
    (hR : ss.sessionPool.Session (mutableAndInstance s.User).2 = .ok rs) :
    HandleIncomingSSHPostAuth pf ss s =
      .legacyLookup (mutableAndInstance s.User).2 ::
        .sessionLookup (mutableAndInstance s.User).2 :: IncomingSSHPostAuth pf ss s rs := by
  simp [HandleIncomingSSHPostAuth, hp, hk, hL, hR]

/-! ## The gateway: instance names and rejections -/

/-- Membership in the effects of the keep-alive call. -/
theorem mem_keepAliveEffects (ss : SSHServer) (inst : String) (e : Effect) :
    e ∈ keepAliveEffects ss inst ↔
      e = .keepAlive inst ∨
        ∃ err, ss.sessionPool.KeepAlive inst = .error err ∧
          e = .log "ssh: KeepAlive on session=%s failed: %s" [inst, err.text] := by
  unfold keepAliveEffects
  cases h : ss.sessionPool.KeepAlive inst with
  | error err => simp
  | ok u => simp

/-- C13. For every user-name, the mutable flag that `HandleIncomingSSHPostAuth` computes is
true exactly when the user-name starts with `mutable-`; the instance name is the user-name
with that one leading `mutable-` removed when the flag is true, and the user-name itself
otherwise. Every lookup the handler makes, in the legacy table or in the session registry,
is for that instance name, and for a PTY request on a server with a gomote key the legacy
table is looked up, then, when the instance is not there, the registry. -/
theorem HandleIncomingSSHPostAuth_instance (pf : Platform) (ss : SSHServer)
    (s : ClientSession) :
    ((mutableAndInstance s.User).1 = true ↔ ∃ rest, s.User = "mutable-" ++ rest) ∧
    ((mutableAndInstance s.User).1 = true →
      s.User = "mutable-" ++ (mutableAndInstance s.User).2) ∧
    ((mutableAndInstance s.User).1 = false → (mutableAndInstance s.User).2 = s.User) ∧
    (∀ e ∈ HandleIncomingSSHPostAuth pf ss s,
      (∀ id, e = .legacyLookup id → id = (mutableAndInstance s.User).2) ∧
      (∀ id, e = .sessionLookup id → id = (mutableAndInstance s.User).2)) ∧
    (s.isPty = true → ss.gomotePublicKey ≠ "" →
      (∃ rest, HandleIncomingSSHPostAuth pf ss s
        = .legacyLookup (mutableAndInstance s.User).2 :: rest) ∧
      (ss.remoteBuildlets.M (mutableAndInstance s.User).2 = none →
        ∃ rest, HandleIncomingSSHPostAuth pf ss s
          = .legacyLookup (mutableAndInstance s.User).2 ::
              .sessionLookup (mutableAndInstance s.User).2 :: rest)) ∧
    mutableAndInstance "mutable-user-alice-linux-amd64-0" = (true, "user-alice-linux-amd64-0") ∧
    mutableAndInstance "user-bob-darwin-arm64-3" = (false, "user-bob-darwin-arm64-3") := by
  refine ⟨?_, ?_, ?_, ?_, ?_, by decide, by decide⟩
  · show HasPrefix s.User "mutable-" = true ↔ _
    constructor
    · intro h
      exact ⟨_, (HasPrefix_iff _ _).mp h⟩
    · rintro ⟨rest, h⟩
      rw [h]
      exact HasPrefix_append _ _
  · intro h
    have h1 : HasPrefix s.User "mutable-" = true := h
    have h2 : (mutableAndInstance s.User).2 = TrimPrefix s.User "mutable-" := by
      simp [mutableAndInstance, h1]
    rw [h2]
    rcases TrimPrefix_cases s.User "mutable-" with ⟨h3, -⟩ | ⟨-, h3⟩
    · rw [h1] at h3; cases h3
    · exact h3
  · intro h
    have h1 : HasPrefix s.User "mutable-" = false := h
    simp [mutableAndInstance, h1]
  · intro e he
    have hleg : ∀ rb, ∀ e ∈ legacyIncomingSSHPostAuth pf ss s rb, e.isLookup = false := by
      intro rb e he
      rcases legacyIncomingSSHPostAuth_effects pf ss s rb e he with h | h | h | h
      · cases e <;> simp_all
      · cases e <;> simp_all
      · subst h; rfl
      · subst h; rfl
    have hinc : ∀ rs, ∀ e ∈ IncomingSSHPostAuth pf ss s rs, e.isLookup = false := by
      intro rs e he
      rcases IncomingSSHPostAuth_effects pf ss s rs e he with h | h | h | h | h
      · cases e <;> simp_all
      · cases e <;> simp_all
      · subst h; rfl
      · subst h; rfl
      · subst h; rfl
    cases hp : s.isPty with
    | false =>
      rw [Handle_not_pty pf ss s hp] at he
      simp only [List.mem_singleton] at he
      subst he
      exact ⟨fun _ h => (by cases h), fun _ h => (by cases h)⟩
    | true =>
      by_cases hk : ss.gomotePublicKey = ""
      · rw [Handle_no_key pf ss s hp hk] at he
        simp only [List.mem_singleton] at he
        subst he
        exact ⟨fun _ h => (by cases h), fun _ h => (by cases h)⟩
      · cases hL : ss.remoteBuildlets.M (mutableAndInstance s.User).2 with
        | some rb =>
          rw [Handle_legacy pf ss s rb hp hk hL, List.mem_cons] at he
          rcases he with rfl | he
          · exact ⟨fun _ h => (by cases h; rfl), fun _ h => (by cases h)⟩
          · have := hleg rb e he
            constructor
            · intro id h; subst h; simp at this
            · intro id h; subst h; simp at this
        | none =>
          cases hR : ss.sessionPool.Session (mutableAndInstance s.User).2 with
          | error err =>
            rw [Handle_unknown pf ss s err hp hk hL hR] at he
            simp only [List.mem_cons, List.mem_nil_iff, or_false] at he
            rcases he with rfl | rfl | rfl
            · exact ⟨fun _ h => (by cases h; rfl), fun _ h => (by cases h)⟩
            · exact ⟨fun _ h => (by cases h), fun _ h => (by cases h; rfl)⟩
            · exact ⟨fun _ h => (by cases h), fun _ h => (by cases h)⟩
          | ok rs =>
            rw [Handle_session pf ss s rs hp hk hL hR] at he
            simp only [List.mem_cons] at he
            rcases he with rfl | rfl | he
            · exact ⟨fun _ h => (by cases h; rfl), fun _ h => (by cases h)⟩
            · exact ⟨fun _ h => (by cases h), fun _ h => (by cases h; rfl)⟩
            · have := hinc rs e he
              constructor
              · intro id h; subst h; simp at this
              · intro id h; subst h; simp at this
  · intro hp hk
    cases hL : ss.remoteBuildlets.M (mutableAndInstance s.User).2 with
    | some rb =>
      exact ⟨⟨_, Handle_legacy pf ss s rb hp hk hL⟩, fun h => by cases h⟩
    | none =>
      cases hR : ss.sessionPool.Session (mutableAndInstance s.User).2 with
      | error err =>
        exact ⟨⟨_, Handle_unknown pf ss s err hp hk hL hR⟩,
          fun _ => ⟨_, Handle_unknown pf ss s err hp hk hL hR⟩⟩
      | ok rs =>
        exact ⟨⟨_, Handle_session pf ss s rs hp hk hL hR⟩,
          fun _ => ⟨_, Handle_session pf ss s rs hp hk hL hR⟩⟩

/-- The hermetic warning holds the line that names the override flag, and only text. -/
theorem hermeticWarning_effects (inst hostType : String) :
    Effect.write "run gomote ssh --i-will-not-break-the-host <INST>\n" []
        ∈ hermeticWarning inst hostType ∧
      ∀ e ∈ hermeticWarning inst hostType, ∃ f a, e = .write f a := by
  simp [hermeticWarning]

/-- A session-based run that stops at the hermetic warning opens no tunnel. -/
theorem Incoming_not_hermetic_noTunnel (ss : SSHServer) (inst hostType : String) :
    noTunnel (keepAliveEffects ss inst ++ hermeticWarning inst hostType ++ [.cancel]) := by
  unfold noTunnel
  simp [mem_keepAliveEffects, hermeticWarning]

/-- C14. For a resolved session whose host type and builder type are known and have SSH
configured, when the host type is not hermetic and the user-name does not carry the
override, the gateway writes the rejection, whose last line names the flag
`--i-will-not-break-the-host`, and returns without calling `ConnectSSH` and without opening
a listener. This holds of the session-based handler, of the legacy handler, and of the
entry point `HandleIncomingSSHPostAuth` on both routes. -/
theorem hermetic_rejection (pf : Platform) (ss : SSHServer) (s : ClientSession)
    (hostConf : HostConfig) (bconf : BuildConfig)
    (hS : hostConf.SSHUsername ≠ "" ∨ bconf.GOOS = "plan9")
    (hM : hostConf.IsHermetic = false) (hmut : (mutableAndInstance s.User).1 = false) :
    (∀ rs, pf.Hosts rs.HostType = some hostConf → pf.Builders rs.BuilderType = some bconf →
      Effect.write "run gomote ssh --i-will-not-break-the-host <INST>\n" []
        ∈ IncomingSSHPostAuth pf ss s rs ∧
      noTunnel (IncomingSSHPostAuth pf ss s rs)) ∧
    (∀ rb, s.isPty = true → ss.gomotePublicKey ≠ "" →
      pf.Hosts rb.HostType = some hostConf → pf.Builders rb.BuilderType = some bconf →
      Effect.write "run gomote ssh --i-will-not-break-the-host <INST>\n" []
        ∈ legacyIncomingSSHPostAuth pf ss s rb ∧
      noTunnel (legacyIncomingSSHPostAuth pf ss s rb)) ∧
    (s.isPty = true → ss.gomotePublicKey ≠ "" →
      (∀ rb, ss.remoteBuildlets.M (mutableAndInstance s.User).2 = some rb →
        pf.Hosts rb.HostType = some hostConf → pf.Builders rb.BuilderType = some bconf →
        Effect.write "run gomote ssh --i-will-not-break-the-host <INST>\n" []
          ∈ HandleIncomingSSHPostAuth pf ss s ∧
        noTunnel (HandleIncomingSSHPostAuth pf ss s)) ∧
      (∀ rs, ss.remoteBuildlets.M (mutableAndInstance s.User).2 = none →
        ss.sessionPool.Session (mutableAndInstance s.User).2 = .ok rs →
        pf.Hosts rs.HostType = some hostConf → pf.Builders rs.BuilderType = some bconf →
        Effect.write "run gomote ssh --i-will-not-break-the-host <INST>\n" []
          ∈ HandleIncomingSSHPostAuth pf ss s ∧
        noTunnel (HandleIncomingSSHPostAuth pf ss s))) := by
  have hinc : ∀ rs, pf.Hosts rs.HostType = some hostConf →
      pf.Builders rs.BuilderType = some bconf →
      Effect.write "run gomote ssh --i-will-not-break-the-host <INST>\n" []
        ∈ IncomingSSHPostAuth pf ss s rs ∧
      noTunnel (IncomingSSHPostAuth pf ss s rs) := by
    intro rs hH hB
    rw [Incoming_not_hermetic pf ss s rs hostConf bconf hH hB hS hM]
    refine ⟨?_, Incoming_not_hermetic_noTunnel ss _ _⟩
    simp [hermeticWarning]
  have hleg : ∀ rb, s.isPty = true → ss.gomotePublicKey ≠ "" →
      pf.Hosts rb.HostType = some hostConf → pf.Builders rb.BuilderType = some bconf →
      Effect.write "run gomote ssh --i-will-not-break-the-host <INST>\n" []
        ∈ legacyIncomingSSHPostAuth pf ss s rb ∧
      noTunnel (legacyIncomingSSHPostAuth pf ss s rb) := by
    intro rb hp hk hH hB
    rw [legacy_not_hermetic pf ss s rb hostConf bconf hp hk hH hB hS hM hmut]
    unfold noTunnel
    simp [hermeticWarning]
  refine ⟨hinc, hleg, ?_⟩
  intro hp hk
  constructor
  · intro rb hL hH hB
    obtain ⟨h1, h2, h3⟩ := hleg rb hp hk hH hB
    rw [Handle_legacy pf ss s rb hp hk hL]
    refine ⟨List.mem_cons_of_mem _ h1, ?_, ?_⟩
    · intro user key h
      rcases List.mem_cons.mp h with h | h
      · cases h
      · exact h2 user key h
    · intro h
      rcases List.mem_cons.mp h with h | h
      · cases h
      · exact h3 h
  · intro rs hL hR hH hB
    obtain ⟨h1, h2, h3⟩ := hinc rs hH hB
    rw [Handle_session pf ss s rs hp hk hL hR]
    refine ⟨List.mem_cons_of_mem _ (List.mem_cons_of_mem _ h1), ?_, ?_⟩
    · intro user key h
      rcases List.mem_cons.mp h with h | h
      · cases h
      · rcases List.mem_cons.mp h with h | h
        · cases h
        · exact h2 user key h
    · intro h
      rcases List.mem_cons.mp h with h | h
      · cases h
      · rcases List.mem_cons.mp h with h | h
        · cases h
        · exact h3 h

/-- Witness for C14: `user-alice-darwin-arm64-0`, a session of the registry on the
non-hermetic `host-darwin`, asked for without the override. -/
theorem hermetic_rejection_witness :
    Effect.write "run gomote ssh --i-will-not-break-the-host <INST>\n" []
        ∈ HandleIncomingSSHPostAuth demoPlatform (demoServer [] [darwinSession] demoClient)
          ⟨"user-alice-darwin-arm64-0", "xterm", true⟩ ∧
      noTunnel (HandleIncomingSSHPostAuth demoPlatform (demoServer [] [darwinSession] demoClient)
        ⟨"user-alice-darwin-arm64-0", "xterm", true⟩) :=
  ((hermetic_rejection demoPlatform (demoServer [] [darwinSession] demoClient)
    ⟨"user-alice-darwin-arm64-0", "xterm", true⟩
    { SSHUsername := "gopher", IsHermetic := false } { GOOS := "darwin", Env := [] }
    (Or.inl (by decide)) rfl (by decide)).2.2 rfl (by decide)).2 darwinSession rfl rfl rfl rfl

/-- C15 fails on the code. The user-name `mutable-user-alice-darwin-arm64-0` carries the
override, its session is in the registry on the non-hermetic host type `host-darwin` with
SSH configured, and the request is a PTY one; yet the session-based route writes the
hermetic rejection and stops, while the legacy route, for the same user-name and host
type, goes on to `ConnectSSH`. -/
theorem hermetic_override_ignored :
    (mutableAndInstance "mutable-user-alice-darwin-arm64-0").1 = true ∧
    HandleIncomingSSHPostAuth demoPlatform (demoServer [] [darwinSession] demoClient)
        ⟨"mutable-user-alice-darwin-arm64-0", "xterm", true⟩ =
      [.legacyLookup "user-alice-darwin-arm64-0",
        .sessionLookup "user-alice-darwin-arm64-0",
        .keepAlive "mutable-user-alice-darwin-arm64-0",
        .log "ssh: KeepAlive on session=%s failed: %s"
          ["mutable-user-alice-darwin-arm64-0",
            (GoError.errorf "session %q not found" ["mutable-user-alice-darwin-arm64-0"]).text]] ++
      hermeticWarning "mutable-user-alice-darwin-arm64-0" "host-darwin" ++ [.cancel] ∧
    Effect.connectSSH "gopher" "ssh-ed25519 AAAAC3 gomote" ∈
      HandleIncomingSSHPostAuth demoPlatform
        (demoServer [("user-alice-darwin-arm64-0", darwinBuildlet)] [] demoClient)
        ⟨"mutable-user-alice-darwin-arm64-0", "xterm", true⟩ := by
  refine ⟨by decide, by decide, by decide⟩

/-- C16. For a request that is not a PTY request, `HandleIncomingSSHPostAuth` writes one
explanatory line to the caller and returns: no lookup in the legacy table or in the
registry, no keep-alive, no buildlet client, no remote-shell connection, no listener. -/
theorem not_pty_refused (pf : Platform) (ss : SSHServer) (s : ClientSession)
    (hp : s.isPty = false) :
    HandleIncomingSSHPostAuth pf ss s =
      [.write "scp etc not yet supported; https://golang.org/issue/21140\n" []] ∧
    (∀ e ∈ HandleIncomingSSHPostAuth pf ss s, e.isLookup = false) ∧
    noSessionWork (HandleIncomingSSHPostAuth pf ss s) := by
  rw [Handle_not_pty pf ss s hp]
  unfold noSessionWork noTunnel
  simp

/-- Witness for C16: a request without a PTY for an existing session. -/
theorem not_pty_refused_witness :
    HandleIncomingSSHPostAuth demoPlatform (demoServer [] [linuxSession] demoClient)
        ⟨"user-alice-linux-amd64-0", "", false⟩ =
      [.write "scp etc not yet supported; https://golang.org/issue/21140\n" []] :=
  (not_pty_refused demoPlatform (demoServer [] [linuxSession] demoClient)
    ⟨"user-alice-linux-amd64-0", "", false⟩ rfl).1

/-- C17, as stated, fails on a server that has no gomote public key: for a PTY request
naming `user-zed-linux-amd64-0`, which is in neither the legacy table nor the registry,
the gateway writes `invalid gomote-ssh-public-key`, a message that does not name the
instance, and looks nothing up. -/
theorem unknown_item_counterexample :
    (ClientSession.mk "user-zed-linux-amd64-0" "xterm" true).isPty = true ∧
    keylessServer.remoteBuildlets.M
      (mutableAndInstance (ClientSession.mk "user-zed-linux-amd64-0" "xterm" true).User).2
        = none ∧
    keylessServer.sessionPool.Session
      (mutableAndInstance (ClientSession.mk "user-zed-linux-amd64-0" "xterm" true).User).2
        = .error (.errorf "session %q not found" ["user-zed-linux-amd64-0"]) ∧
    HandleIncomingSSHPostAuth demoPlatform keylessServer ⟨"user-zed-linux-amd64-0", "xterm", true⟩
      = [.write "invalid gomote-ssh-public-key" []] :=
  ⟨rfl, rfl, rfl, by decide⟩

/-- C17, amended. For every PTY request on a server that has a gomote public key: when
the instance is in neither the legacy table nor the registry, the gateway writes
`unknown instance` with the instance name; when the resolved host type, or else the
resolved builder type, is not in the catalog, it writes a line naming the instance and
that type. In each case it then returns, having made no `KeepAlive`, `BuildletClient` or
`ConnectSSH` call and opened no listener. -/
theorem unknown_item_refused (pf : Platform) (ss : SSHServer) (s : ClientSession)
    (hp : s.isPty = true) (hk : ss.gomotePublicKey ≠ "") :
    (∀ err, ss.remoteBuildlets.M (mutableAndInstance s.User).2 = none →
      ss.sessionPool.Session (mutableAndInstance s.User).2 = .error err →
      HandleIncomingSSHPostAuth pf ss s =
        [.legacyLookup (mutableAndInstance s.User).2,
          .sessionLookup (mutableAndInstance s.User).2,
          .write "unknown instance %q" [(mutableAndInstance s.User).2]] ∧
      noSessionWork (HandleIncomingSSHPostAuth pf ss s)) ∧
    (∀ rb, ss.remoteBuildlets.M (mutableAndInstance s.User).2 = some rb →
      pf.Hosts rb.HostType = none →
      HandleIncomingSSHPostAuth pf ss s =
        [.legacyLookup (mutableAndInstance s.User).2,
          .write "instance %q has unknown host type %q\n"
            [(mutableAndInstance s.User).2, rb.HostType]] ∧
      noSessionWork (HandleIncomingSSHPostAuth pf ss s)) ∧
    (∀ rb hostConf, ss.remoteBuildlets.M (mutableAndInstance s.User).2 = some rb →
      pf.Hosts rb.HostType = some hostConf → pf.Builders rb.BuilderType = none →
      HandleIncomingSSHPostAuth pf ss s =
        [.legacyLookup (mutableAndInstance s.User).2,
          .write "instance %q has unknown builder type %q\n"
            [(mutableAndInstance s.User).2, rb.BuilderType]] ∧
      noSessionWork (HandleIncomingSSHPostAuth pf ss s)) ∧
    (∀ rs, ss.remoteBuildlets.M (mutableAndInstance s.User).2 = none →
      ss.sessionPool.Session (mutableAndInstance s.User).2 = .ok rs →
      pf.Hosts rs.HostType = none →
      HandleIncomingSSHPostAuth pf ss s =
        [.legacyLookup (mutableAndInstance s.User).2,
          .sessionLookup (mutableAndInstance s.User).2,
          .write "instance %q has unknown host type %q\n" [s.User, rs.HostType]] ∧
      noSessionWork (HandleIncomingSSHPostAuth pf ss s)) ∧
    (∀ rs hostConf, ss.remoteBuildlets.M (mutableAndInstance s.User).2 = none →
      ss.sessionPool.Session (mutableAndInstance s.User).2 = .ok rs →
      pf.Hosts rs.HostType = some hostConf → pf.Builders rs.BuilderType = none →
      HandleIncomingSSHPostAuth pf ss s =
        [.legacyLookup (mutableAndInstance s.User).2,
          .sessionLookup (mutableAndInstance s.User).2,
          .write "instance %q has unknown builder type %q\n" [s.User, rs.BuilderType]] ∧
      noSessionWork (HandleIncomingSSHPostAuth pf ss s)) := by
  refine ⟨?_, ?_, ?_, ?_, ?_⟩
  · intro err hL hR
    rw [Handle_unknown pf ss s err hp hk hL hR]
    exact ⟨rfl, by unfold noSessionWork noTunnel; simp⟩
  · intro rb hL hH
    rw [Handle_legacy pf ss s rb hp hk hL, legacy_unknown_host pf ss s rb hp hk hH]
    exact ⟨rfl, by unfold noSessionWork noTunnel; simp⟩
  · intro rb hostConf hL hH hB
    rw [Handle_legacy pf ss s rb hp hk hL, legacy_unknown_builder pf ss s rb hostConf hp hk hH hB]
    exact ⟨rfl, by unfold noSessionWork noTunnel; simp⟩
  · intro rs hL hR hH
    rw [Handle_session pf ss s rs hp hk hL hR, Incoming_unknown_host pf ss s rs hH]
    exact ⟨rfl, by unfold noSessionWork noTunnel; simp⟩
  · intro rs hostConf hL hR hH hB
    rw [Handle_session pf ss s rs hp hk hL hR, Incoming_unknown_builder pf ss s rs hostConf hH hB]
    exact ⟨rfl, by unfold noSessionWork noTunnel; simp⟩

/-- Witness for C17, amended: a PTY request for `user-zed-linux-amd64-0`, which the
sample server does not know. -/
theorem unknown_item_refused_witness :
    (ClientSession.mk "user-zed-linux-amd64-0" "xterm" true).isPty = true ∧
    (demoServer [] [linuxSession] demoClient).gomotePublicKey ≠ "" ∧
    HandleIncomingSSHPostAuth demoPlatform (demoServer [] [linuxSession] demoClient)
        ⟨"user-zed-linux-amd64-0", "xterm", true⟩ =
      [.legacyLookup "user-zed-linux-amd64-0", .sessionLookup "user-zed-linux-amd64-0",
        .write "unknown instance %q" ["user-zed-linux-amd64-0"]] :=
  ⟨rfl, by decide,
    ((unknown_item_refused demoPlatform (demoServer [] [linuxSession] demoClient)
      ⟨"user-zed-linux-amd64-0", "xterm", true⟩ rfl (by decide)).1 _ rfl rfl).1⟩

/-! ## The gateway: SSH configuration and plan9 -/

/-- For a plan9 builder, `bridge` starts nothing but the direct-connect client, touches no
tunnel and does not complain about the SSH configuration. -/
theorem bridge_plan9 (pf : Platform) (ss : SSHServer) (s : ClientSession) (inst : String)
    (bconf : BuildConfig) (sshUser : String) (client : BuildletClient)
    (localProxyPort : Nat) (hG : bconf.GOOS = "plan9") :
    ∀ e ∈ bridge pf ss s inst bconf sshUser client localProxyPort,
      e.isTunnel = false ∧
      (∀ a, e ≠ .write "instance %q host type %q does not have SSH configured\n" a) ∧
      (∀ argv env, e = .ptyStart argv env → argv.head? = some "/usr/local/bin/drawterm") := by
  unfold bridge startClient
  simp only [hG, beq_self_eq_true, if_true]
  cases client.WorkDir with
  | error err => simp
  | ok workDir =>
    cases pf.SplitHostPort client.IPPort with
    | error err => simp
    | ok r =>
      simp
      split <;> simp

/-- What holds of every effect of a handler on a plan9 builder. -/
theorem plan9_effect_of_parts (e : Effect)
    (h : e.isTunnel = false ∧
      (∀ a, e ≠ .write "instance %q host type %q does not have SSH configured\n" a) ∧
      (∀ argv env, e = .ptyStart argv env → argv.head? = some "/usr/local/bin/drawterm")) :
    (∀ user key, e ≠ .connectSSH user key) ∧ e ≠ .listen ∧
      (∀ a, e ≠ .write "instance %q host type %q does not have SSH configured\n" a) ∧
      (∀ argv env, e = .ptyStart argv env → argv.head? = some "/usr/local/bin/drawterm") := by
  obtain ⟨h1, h2, h3⟩ := h
  refine ⟨?_, ?_, h2, h3⟩
  · intro user key he
    subst he
    simp at h1
  · intro he
    subst he
    simp at h1

/-- The session-based handler on a plan9 builder: no `ConnectSSH`, no listener, no
complaint about SSH, and no client other than the direct-connect one. -/
theorem Incoming_plan9 (pf : Platform) (ss : SSHServer) (s : ClientSession) (rs : Session)
    (hostConf : HostConfig) (bconf : BuildConfig)
    (hH : pf.Hosts rs.HostType = some hostConf) (hB : pf.Builders rs.BuilderType = some bconf)
    (hG : bconf.GOOS = "plan9") :
    ∀ e ∈ IncomingSSHPostAuth pf ss s rs,
      e.isTunnel = false ∧
      (∀ a, e ≠ .write "instance %q host type %q does not have SSH configured\n" a) ∧
      (∀ argv env, e = .ptyStart argv env → argv.head? = some "/usr/local/bin/drawterm") := by
  have hk : ∀ e ∈ keepAliveEffects ss s.User,
      e.isTunnel = false ∧
      (∀ a, e ≠ .write "instance %q host type %q does not have SSH configured\n" a) ∧
      (∀ argv env, e = .ptyStart argv env → argv.head? = some "/usr/local/bin/drawterm") := by
    intro e he
    rcases (mem_keepAliveEffects ss s.User e).mp he with h | ⟨err, -, h⟩ <;> subst h <;> simp
  cases hM : hostConf.IsHermetic with
  | false =>
    rw [Incoming_not_hermetic pf ss s rs hostConf bconf hH hB (Or.inr hG) hM]
    refine List.forall_mem_append.mpr ⟨List.forall_mem_append.mpr ⟨hk, ?_⟩, ?_⟩
    · simp [hermeticWarning]
    · simp
  | true =>
    rw [Incoming_proceeds pf ss s rs hostConf bconf hH hB (Or.inr hG) hM]
    refine List.forall_mem_append.mpr ⟨List.forall_mem_append.mpr
      ⟨List.forall_mem_append.mpr ⟨hk, ?_⟩, ?_⟩, ?_⟩
    · simp
    · cases hbc : ss.sessionPool.BuildletClient s.User with
      | error err => simp
      | ok bc =>
        have hb := bridge_plan9 pf ss s s.User bconf hostConf.SSHUsername bc 0 hG
        simpa [connectAndBridge, hG] using hb
    · simp

/-- The legacy handler on a plan9 builder, likewise. -/
theorem legacy_plan9 (pf : Platform) (ss : SSHServer) (s : ClientSession) (rb : Buildlet)
    (hostConf : HostConfig) (bconf : BuildConfig) (hp : s.isPty = true)
    (hk : ss.gomotePublicKey ≠ "")
    (hH : pf.Hosts rb.HostType = some hostConf) (hB : pf.Builders rb.BuilderType = some bconf)
    (hG : bconf.GOOS = "plan9") :
    ∀ e ∈ legacyIncomingSSHPostAuth pf ss s rb,
      e.isTunnel = false ∧
      (∀ a, e ≠ .write "instance %q host type %q does not have SSH configured\n" a) ∧
      (∀ argv env, e = .ptyStart argv env → argv.head? = some "/usr/local/bin/drawterm") := by
  by_cases hM : hostConf.IsHermetic = true ∨ (mutableAndInstance s.User).1 = true
  · rw [legacy_proceeds pf ss s rb hostConf bconf hp hk hH hB (Or.inr hG) hM]
    refine List.forall_mem_append.mpr ⟨List.forall_mem_append.mpr ⟨?_, ?_⟩, ?_⟩
    · simp
    · have hb := bridge_plan9 pf ss s (mutableAndInstance s.User).2 bconf hostConf.SSHUsername
        rb.Client 0 hG
      simpa [connectAndBridge, hG] using hb
    · simp
  · have h1 : hostConf.IsHermetic = false := by
      cases h : hostConf.IsHermetic with
      | false => rfl
      | true => exact absurd (Or.inl h) hM
    have h2 : (mutableAndInstance s.User).1 = false := by
      cases h : (mutableAndInstance s.User).1 with
      | false => rfl
      | true => exact absurd (Or.inr h) hM
    rw [legacy_not_hermetic pf ss s rb hostConf bconf hp hk hH hB (Or.inr hG) h1 h2]
    simp [hermeticWarning]

/-- C18. For a resolved session with known host and builder type. When the host type has
no SSH user and the builder's GOOS is not plan9, the handler writes the line `does not
have SSH configured`, runs its deferred cancel and returns, and `ConnectSSH` is not
called. When the builder's GOOS is plan9, that line is never written whatever the SSH user
is, `ConnectSSH` is never called, no listener is opened, and the only client process that
may be started is the direct-connect one, `/usr/local/bin/drawterm`. Both hold of the
session-based and of the legacy handler. -/
theorem ssh_configuration (pf : Platform) (ss : SSHServer) (s : ClientSession)
    (hostConf : HostConfig) (bconf : BuildConfig) :
    (hostConf.SSHUsername = "" → bconf.GOOS ≠ "plan9" →
      (∀ rs, pf.Hosts rs.HostType = some hostConf → pf.Builders rs.BuilderType = some bconf →
        IncomingSSHPostAuth pf ss s rs =
          keepAliveEffects ss s.User ++
            [.write "instance %q host type %q does not have SSH configured\n"
              [s.User, rs.HostType], .cancel] ∧
        noTunnel (IncomingSSHPostAuth pf ss s rs)) ∧
      (∀ rb, s.isPty = true → ss.gomotePublicKey ≠ "" →
        pf.Hosts rb.HostType = some hostConf → pf.Builders rb.BuilderType = some bconf →
        legacyIncomingSSHPostAuth pf ss s rb =
          [.renew,
            .write "instance %q host type %q does not have SSH configured\n"
              [(mutableAndInstance s.User).2, rb.HostType], .cancel] ∧
        noTunnel (legacyIncomingSSHPostAuth pf ss s rb))) ∧
    (bconf.GOOS = "plan9" →
      (∀ rs, pf.Hosts rs.HostType = some hostConf → pf.Builders rs.BuilderType = some bconf →
        ∀ e ∈ IncomingSSHPostAuth pf ss s rs,
          (∀ user key, e ≠ .connectSSH user key) ∧ e ≠ .listen ∧
          (∀ a, e ≠ .write "instance %q host type %q does not have SSH configured\n" a) ∧
          (∀ argv env, e = .ptyStart argv env →
            argv.head? = some "/usr/local/bin/drawterm")) ∧
      (∀ rb, s.isPty = true → ss.gomotePublicKey ≠ "" →
        pf.Hosts rb.HostType = some hostConf → pf.Builders rb.BuilderType = some bconf →
        ∀ e ∈ legacyIncomingSSHPostAuth pf ss s rb,
          (∀ user key, e ≠ .connectSSH user key) ∧ e ≠ .listen ∧
          (∀ a, e ≠ .write "instance %q host type %q does not have SSH configured\n" a) ∧
          (∀ argv env, e = .ptyStart argv env →
            argv.head? = some "/usr/local/bin/drawterm"))) := by
  refine ⟨?_, ?_⟩
  · intro hU hG
    constructor
    · intro rs hH hB
      rw [Incoming_no_ssh pf ss s rs hostConf bconf hH hB hU hG]
      refine ⟨rfl, ?_⟩
      unfold noTunnel
      simp [mem_keepAliveEffects]
    · intro rb hp hk hH hB
      rw [legacy_no_ssh pf ss s rb hostConf bconf hp hk hH hB hU hG]
      refine ⟨rfl, ?_⟩
      unfold noTunnel
      simp
  · intro hG
    constructor
    · intro rs hH hB e he
      exact plan9_effect_of_parts e (Incoming_plan9 pf ss s rs hostConf bconf hH hB hG e he)
    · intro rb hp hk hH hB e he
      exact plan9_effect_of_parts e
        (legacy_plan9 pf ss s rb hostConf bconf hp hk hH hB hG e he)

/-- Witness for C18: a plan9 session on a host without SSH user is bridged through
`drawterm`, with no `ConnectSSH` and no listener; a linux session on a host without SSH
user is refused. -/
theorem ssh_configuration_witness :
    (∀ e ∈ IncomingSSHPostAuth demoPlatform (demoServer [] [plan9Session] demoClient)
        ⟨"user-alice-plan9-386-0", "xterm", true⟩ plan9Session,
      (∀ user key, e ≠ .connectSSH user key) ∧ e ≠ .listen) ∧
    Effect.ptyStart ["/usr/local/bin/drawterm", "-a", "10.0.0.7", "-c", "10.0.0.7", "-u",
        "glenda", "-k", "user=glenda"] "TERM=xterm"
      ∈ IncomingSSHPostAuth demoPlatform (demoServer [] [plan9Session] demoClient)
        ⟨"user-alice-plan9-386-0", "xterm", true⟩ plan9Session :=
  ⟨fun e he =>
    ⟨((ssh_configuration demoPlatform (demoServer [] [plan9Session] demoClient)
        ⟨"user-alice-plan9-386-0", "xterm", true⟩ { SSHUsername := "", IsHermetic := true }
        { GOOS := "plan9", Env := [] }).2 rfl).1 plan9Session rfl rfl e he |>.1,
      ((ssh_configuration demoPlatform (demoServer [] [plan9Session] demoClient)
        ⟨"user-alice-plan9-386-0", "xterm", true⟩ { SSHUsername := "", IsHermetic := true }
        { GOOS := "plan9", Env := [] }).2 rfl).1 plan9Session rfl rfl e he |>.2.1⟩,
    by decide⟩

/-! ## The gateway: transport and resource failures -/

/-- Effects put before a run that ends with a failed start, none of them a start. -/
theorem endsWithFailedStart_append_left (inst : String) (err : GoError) (p t : List Effect)
    (hp : ∀ e ∈ p, ∀ a v, e ≠ .ptyStart a v) (h : endsWithFailedStart inst err t) :
    endsWithFailedStart inst err (p ++ t) := by
  obtain ⟨pre, argv, env, closers, ht, hc, hpre⟩ := h
  refine ⟨p ++ pre, argv, env, closers, ?_, hc, ?_⟩
  · rw [ht]; simp
  · intro e he
    rcases List.mem_append.mp he with h | h
    · exact hp e h
    · exact hpre e h

/-- Deferred closing calls put after a run that ends with a failed start. -/
theorem endsWithFailedStart_append_right (inst : String) (err : GoError) (t c : List Effect)
    (hc : ∀ e ∈ c, e = .closeListener ∨ e = .closeConn ∨ e = .cancel)
    (h : endsWithFailedStart inst err t) : endsWithFailedStart inst err (t ++ c) := by
  obtain ⟨pre, argv, env, closers, ht, hcl, hpre⟩ := h
  refine ⟨pre, argv, env, closers ++ c, ?_, ?_, hpre⟩
  · rw [ht]; simp
  · intro e he
    rcases List.mem_append.mp he with h | h
    · exact hcl e h
    · exact hc e h

/-- When the client process cannot be started, `startClient` logs the error and does
nothing else. -/
theorem startClient_failed (pf : Platform) (s : ClientSession) (inst : String)
    (argv : List String) (err : GoError) (hfail : ∀ argv, pf.PtyStart argv = .error err) :
    startClient pf s inst argv =
      [.ptyStart argv ("TERM=" ++ s.Term),
        .log "running ssh client to %s: %v" [inst, err.text]] := by
  simp [startClient, hfail]

/-- A failed start alone is a run that ends with a failed start. -/
theorem endsWithFailedStart_start (pf : Platform) (s : ClientSession) (inst : String)
    (argv : List String) (err : GoError) (hfail : ∀ argv, pf.PtyStart argv = .error err) :
    endsWithFailedStart inst err (startClient pf s inst argv) := by
  rw [startClient_failed pf s inst argv err hfail]
  exact ⟨[], argv, "TERM=" ++ s.Term, [], rfl, by simp, by simp⟩

/-- One effect put before a run that ends with a failed start. -/
theorem endsWithFailedStart_cons (inst : String) (err : GoError) (e0 : Effect)
    (t : List Effect) (h0 : ∀ a v, e0 ≠ .ptyStart a v) (h : endsWithFailedStart inst err t) :
    endsWithFailedStart inst err (e0 :: t) := by
  have := endsWithFailedStart_append_left inst err [e0] t
    (by intro e he; simp only [List.mem_singleton] at he; subst he; exact h0) h
  simpa using this

/-- When the client process cannot be started, a `bridge` that tries to start it ends
with the failed start. -/
theorem bridge_failed (pf : Platform) (ss : SSHServer) (s : ClientSession) (inst : String)
    (bconf : BuildConfig) (sshUser : String) (client : BuildletClient)
    (localProxyPort : Nat) (err : GoError) (hfail : ∀ argv, pf.PtyStart argv = .error err)
    (hstart : ∃ a v, Effect.ptyStart a v
      ∈ bridge pf ss s inst bconf sshUser client localProxyPort) :
    endsWithFailedStart inst err (bridge pf ss s inst bconf sshUser client localProxyPort) := by
  obtain ⟨a, v, hmem⟩ := hstart
  unfold bridge at hmem ⊢
  cases hw : client.WorkDir with
  | error e => simp [hw] at hmem
  | ok workDir =>
    simp only [hw] at hmem ⊢
    apply endsWithFailedStart_cons _ _ _ _ (by simp)
    apply endsWithFailedStart_append_left _ _ _ _ (by simp)
    by_cases hG : bconf.GOOS = "plan9"
    · simp only [hG, beq_self_eq_true, if_true] at hmem ⊢
      cases hs : pf.SplitHostPort client.IPPort with
      | error e => simp [hs] at hmem
      | ok r =>
        obtain ⟨ip, port⟩ := r
        simp only []
        apply endsWithFailedStart_cons _ _ _ _ (by simp)
        exact endsWithFailedStart_start pf s inst _ err hfail
    · have hG2 : (bconf.GOOS == "plan9") = false := by simpa using hG
      simp only [hG2, Bool.false_eq_true, if_false]
      exact endsWithFailedStart_start pf s inst _ err hfail

/-- When the client process cannot be started, a `connectAndBridge` that tries to start
it ends with the failed start. -/
theorem connectAndBridge_failed (pf : Platform) (ss : SSHServer) (s : ClientSession)
    (inst : String) (bconf : BuildConfig) (sshUser : String) (useLocalSSHProxy : Bool)
    (client : BuildletClient) (err : GoError)
    (hfail : ∀ argv, pf.PtyStart argv = .error err)
    (hstart : ∃ a v, Effect.ptyStart a v
      ∈ connectAndBridge pf ss s inst bconf sshUser useLocalSSHProxy client) :
    endsWithFailedStart inst err
      (connectAndBridge pf ss s inst bconf sshUser useLocalSSHProxy client) := by
  obtain ⟨a, v, hmem⟩ := hstart
  unfold connectAndBridge at hmem ⊢
  cases hu : useLocalSSHProxy with
  | false =>
    simp only [hu, Bool.false_eq_true, if_false] at hmem ⊢
    exact bridge_failed pf ss s inst bconf sshUser client 0 err hfail ⟨a, v, hmem⟩
  | true =>
    simp only [hu, if_true] at hmem ⊢
    cases hc : client.ConnectSSH sshUser ss.gomotePublicKey with
    | error e => simp [hc] at hmem
    | ok u =>
      simp only [hc] at hmem ⊢
      cases hl : pf.Listen with
      | error e => simp [hl] at hmem
      | ok port =>
        simp only [hl] at hmem ⊢
        have hb : ∃ a v, Effect.ptyStart a v
            ∈ bridge pf ss s inst bconf sshUser client port := by
          simp only [List.mem_append, List.mem_cons, List.mem_nil_iff, or_false,
            reduceCtorEq, false_or, or_false] at hmem
          exact ⟨a, v, hmem⟩
        apply endsWithFailedStart_append_left _ _ _ _ (by simp)
        apply endsWithFailedStart_append_right _ _ _ _ (by simp)
        apply endsWithFailedStart_append_left _ _ _ _ (by simp)
        exact bridge_failed pf ss s inst bconf sshUser client port err hfail hb


/-- C19, as stated, fails for the third failure. On the sample system where the client
process cannot be started, the text written to the caller is exactly the text written when
it starts, for the session-based and for the legacy handler: the failure is reported by a
log line only (the effects of the run from the twentieth on), after which the handler
runs its deferred calls and returns. -/
theorem pty_failure_counterexample :
    written (IncomingSSHPostAuth noPtyPlatform (demoServer [] [linuxSession] demoClient)
        ⟨"user-alice-linux-amd64-0", "xterm", true⟩ linuxSession)
      = written (IncomingSSHPostAuth demoPlatform (demoServer [] [linuxSession] demoClient)
        ⟨"user-alice-linux-amd64-0", "xterm", true⟩ linuxSession) ∧
    (IncomingSSHPostAuth noPtyPlatform (demoServer [] [linuxSession] demoClient)
        ⟨"user-alice-linux-amd64-0", "xterm", true⟩ linuxSession).drop 19
      = [.ptyStart ["ssh", "-p", "40000", "-o", "UserKnownHostsFile=/dev/null", "-o",
            "StrictHostKeyChecking=no", "-i", "/tmp/ssh-priv-key1", "root@localhost"]
            "TERM=xterm",
          .log "running ssh client to %s: %v"
            ["user-alice-linux-amd64-0", (GoError.errorf "fork/exec ssh: no such file" []).text],
          .closeListener, .closeConn, .cancel] ∧
    written (legacyIncomingSSHPostAuth noPtyPlatform
        (demoServer [("user-alice-darwin-arm64-0", darwinBuildlet)] [] demoClient)
        ⟨"mutable-user-alice-darwin-arm64-0", "xterm", true⟩ darwinBuildlet)
      = written (legacyIncomingSSHPostAuth demoPlatform
        (demoServer [("user-alice-darwin-arm64-0", darwinBuildlet)] [] demoClient)
        ⟨"mutable-user-alice-darwin-arm64-0", "xterm", true⟩ darwinBuildlet) := by
  refine ⟨by decide, by decide, by decide⟩


/-- The keep-alive call does not start the client. -/
theorem keepAliveEffects_no_start (ss : SSHServer) (inst : String) :
    ∀ e ∈ keepAliveEffects ss inst, ∀ a v, e ≠ .ptyStart a v := by
  intro e he a v h
  subst h
  simp [mem_keepAliveEffects] at he

/-- C19, amended. In `IncomingSSHPostAuth` and in `legacyIncomingSSHPostAuth`, once the
handler has reached the remote-shell connection: when `ConnectSSH` returns an error, the
last thing the handler does before its deferred calls is write `failed to connect to ssh`
with the instance and the error to the caller; when the local listener cannot be bound, it
is to write `local listen error` with the error to the caller; when the client process
cannot be started on a PTY, the handler reports the error in a log line only, and from the
start attempt on nothing is written to the caller. -/
theorem transport_failures (pf : Platform) (ss : SSHServer) (s : ClientSession)
    (hostConf : HostConfig) (bconf : BuildConfig) (err : GoError)
    (hS : hostConf.SSHUsername ≠ "" ∨ bconf.GOOS = "plan9") :
    (∀ rs bc, pf.Hosts rs.HostType = some hostConf → pf.Builders rs.BuilderType = some bconf →
      hostConf.IsHermetic = true → ss.sessionPool.BuildletClient s.User = .ok bc →
      (bconf.GOOS ≠ "plan9" →
        bc.ConnectSSH hostConf.SSHUsername ss.gomotePublicKey = .error err →
        ∃ pre, IncomingSSHPostAuth pf ss s rs =
          pre ++ [.write "failed to connect to ssh on %s: %v\n" [s.User, err.text], .cancel]) ∧
      (bconf.GOOS ≠ "plan9" →
        bc.ConnectSSH hostConf.SSHUsername ss.gomotePublicKey = .ok () →
        pf.Listen = .error err →
        ∃ pre, IncomingSSHPostAuth pf ss s rs =
          pre ++ [.write "local listen error: %v\n" [err.text], .closeConn, .cancel]) ∧
      ((∀ argv, pf.PtyStart argv = .error err) →
        (∃ a v, Effect.ptyStart a v ∈ IncomingSSHPostAuth pf ss s rs) →
        endsWithFailedStart s.User err (IncomingSSHPostAuth pf ss s rs))) ∧
    (∀ rb, s.isPty = true → ss.gomotePublicKey ≠ "" →
      pf.Hosts rb.HostType = some hostConf → pf.Builders rb.BuilderType = some bconf →
      (hostConf.IsHermetic = true ∨ (mutableAndInstance s.User).1 = true) →
      (bconf.GOOS ≠ "plan9" →
        rb.Client.ConnectSSH hostConf.SSHUsername ss.gomotePublicKey = .error err →
        ∃ pre, legacyIncomingSSHPostAuth pf ss s rb =
          pre ++ [.write "failed to connect to ssh on %s: %v\n"
            [(mutableAndInstance s.User).2, err.text], .cancel]) ∧
      (bconf.GOOS ≠ "plan9" →
        rb.Client.ConnectSSH hostConf.SSHUsername ss.gomotePublicKey = .ok () →
        pf.Listen = .error err →
        ∃ pre, legacyIncomingSSHPostAuth pf ss s rb =
          pre ++ [.write "local listen error: %v\n" [err.text], .closeConn, .cancel]) ∧
      ((∀ argv, pf.PtyStart argv = .error err) →
        (∃ a v, Effect.ptyStart a v ∈ legacyIncomingSSHPostAuth pf ss s rb) →
        endsWithFailedStart (mutableAndInstance s.User).2 err
          (legacyIncomingSSHPostAuth pf ss s rb))) := by
  constructor
  · intro rs bc hH hB hM hbc
    rw [Incoming_proceeds pf ss s rs hostConf bconf hH hB hS hM]
    simp only [hbc]
    refine ⟨?_, ?_, ?_⟩
    · intro hG hc
      refine ⟨keepAliveEffects ss s.User ++
        [.log "connecting to ssh to instance %q ..." [s.User],
          .write "# Welcome to the gomote ssh proxy.\n" [],
          .write "# Connecting to/starting remote ssh...\n" [],
          .write "#\n" [],
          .buildletClient s.User,
          .connectSSH hostConf.SSHUsername ss.gomotePublicKey,
          .log "buildlet(%q).ConnectSSH = %T, %v" [s.User, err.text]], ?_⟩
      simp [connectAndBridge, hG, hc]
    · intro hG hc hl
      refine ⟨keepAliveEffects ss s.User ++
        [.log "connecting to ssh to instance %q ..." [s.User],
          .write "# Welcome to the gomote ssh proxy.\n" [],
          .write "# Connecting to/starting remote ssh...\n" [],
          .write "#\n" [],
          .buildletClient s.User,
          .connectSSH hostConf.SSHUsername ss.gomotePublicKey,
          .log "buildlet(%q).ConnectSSH = %T, %v" [s.User, "<nil>"],
          .listen], ?_⟩
      simp [connectAndBridge, hG, hc, hl]
    · intro hfail hstart
      obtain ⟨a, v, hmem⟩ := hstart
      have hcab : ∃ a v, Effect.ptyStart a v ∈ connectAndBridge pf ss s s.User bconf
          hostConf.SSHUsername (bconf.GOOS != "plan9") bc := by
        simp only [List.mem_append, List.mem_cons, List.mem_nil_iff, or_false, reduceCtorEq,
          false_or, mem_keepAliveEffects, false_and, exists_false, and_false] at hmem
        exact ⟨a, v, hmem⟩
      apply endsWithFailedStart_append_right _ _ _ _ (by simp)
      apply endsWithFailedStart_append_left _ _ _ _ _
        (connectAndBridge_failed pf ss s s.User bconf hostConf.SSHUsername _ bc err hfail hcab)
      intro e he
      rcases List.mem_append.mp he with h | h
      · exact keepAliveEffects_no_start ss s.User e h
      · intro a v hv
        subst hv
        simp at h
  · intro rb hp hk hH hB hM
    rw [legacy_proceeds pf ss s rb hostConf bconf hp hk hH hB hS hM]
    refine ⟨?_, ?_, ?_⟩
    · intro hG hc
      refine ⟨[.renew,
          .log "connecting to ssh to instance %q ..." [(mutableAndInstance s.User).2],
          .write "# Welcome to the gomote ssh proxy, %s.\n" [UserFromGomoteInstanceName s.User],
          .write "# Connecting to/starting remote ssh...\n" [],
          .write "#\n" [],
          .connectSSH hostConf.SSHUsername ss.gomotePublicKey,
          .log "buildlet(%q).ConnectSSH = %T, %v" [(mutableAndInstance s.User).2, err.text]], ?_⟩
      simp [connectAndBridge, hG, hc]
    · intro hG hc hl
      refine ⟨[.renew,
          .log "connecting to ssh to instance %q ..." [(mutableAndInstance s.User).2],
          .write "# Welcome to the gomote ssh proxy, %s.\n" [UserFromGomoteInstanceName s.User],
          .write "# Connecting to/starting remote ssh...\n" [],
          .write "#\n" [],
          .connectSSH hostConf.SSHUsername ss.gomotePublicKey,
          .log "buildlet(%q).ConnectSSH = %T, %v" [(mutableAndInstance s.User).2, "<nil>"],
          .listen], ?_⟩
      simp [connectAndBridge, hG, hc, hl]
    · intro hfail hstart
      obtain ⟨a, v, hmem⟩ := hstart
      have hcab : ∃ a v, Effect.ptyStart a v ∈ connectAndBridge pf ss s
          (mutableAndInstance s.User).2 bconf hostConf.SSHUsername (bconf.GOOS != "plan9")
          rb.Client := by
        simp only [List.mem_append, List.mem_cons, List.mem_nil_iff, or_false, reduceCtorEq,
          false_or] at hmem
        exact ⟨a, v, hmem⟩
      apply endsWithFailedStart_append_right _ _ _ _ (by simp)
      apply endsWithFailedStart_append_left _ _ _ _ (by simp)
      exact connectAndBridge_failed pf ss s _ bconf hostConf.SSHUsername _ rb.Client err
        hfail hcab

/-- Witness for C19, amended: on the sample system without a free port, the run for the
session `user-alice-linux-amd64-0` ends with the line `local listen error`, the closing of
the connection and the cancel. -/
theorem transport_failures_witness :
    ∃ pre, IncomingSSHPostAuth noListenPlatform (demoServer [] [linuxSession] demoClient)
        ⟨"user-alice-linux-amd64-0", "xterm", true⟩ linuxSession =
      pre ++ [.write "local listen error: %v\n"
        [(GoError.errorf "listen tcp: address already in use" []).text], .closeConn, .cancel] :=
  ((transport_failures noListenPlatform (demoServer [] [linuxSession] demoClient)
    ⟨"user-alice-linux-amd64-0", "xterm", true⟩ { SSHUsername := "root", IsHermetic := true }
    { GOOS := "linux", Env := ["GO_BUILDER=linux-amd64"] }
    (.errorf "listen tcp: address already in use" []) (Or.inl (by decide))).1
    linuxSession demoClient rfl rfl rfl rfl).2.1 (by decide) rfl rfl

/-! ## The host key file -/

/-- A write that reports no error has put every byte of its argument into the file. -/
theorem Write_ok_length (fs : FileSystem) (b : List Nat) (h : (fs.Write b).2 = none) :
    (fs.Write b).1 = b.length := by
  unfold FileSystem.Write at h ⊢
  cases hw : (fs.write b).2 with
  | some e => simp [hw] at h
  | none =>
    simp only [hw] at h ⊢
    by_cases hn : min (fs.write b).1 b.length = b.length
    · simp [hn]
    · simp [hn] at h

/-- The run in which the temporary file cannot be created. -/
theorem WriteKey_no_file (fs : FileSystem) (key : List Nat) (e : GoError)
    (hT : fs.TempFile = .error e) :
    WriteSSHPrivateKeyToTempFile fs key = (("", some e), []) := by
  simp [WriteSSHPrivateKeyToTempFile, hT]

/-- The run in which the mode change fails. -/
theorem WriteKey_chmod_fails (fs : FileSystem) (key : List Nat) (name : String) (e : GoError)
    (hT : fs.TempFile = .ok name) (hC : fs.Chmod 0o600 = .error e) :
    WriteSSHPrivateKeyToTempFile fs key =
      (("", some e), [.create name 0o600, .chmod name 0o600 false]) := by
  simp [WriteSSHPrivateKeyToTempFile, hT, hC]

/-- The run in which the write fails. -/
theorem WriteKey_write_fails (fs : FileSystem) (key : List Nat) (name : String) (u : Unit)
    (e : GoError) (hT : fs.TempFile = .ok name) (hC : fs.Chmod 0o600 = .ok u)
    (hW : (fs.Write key).2 = some e) :
    WriteSSHPrivateKeyToTempFile fs key =
      (("", some e), [.create name 0o600, .chmod name 0o600 true,
        .write name (key.take (fs.Write key).1)]) := by
  simp [WriteSSHPrivateKeyToTempFile, hT, hC, hW]

/-- The run in which the file is created, its mode set and the key written. -/
theorem WriteKey_written (fs : FileSystem) (key : List Nat) (name : String) (u : Unit)
    (hT : fs.TempFile = .ok name) (hC : fs.Chmod 0o600 = .ok u)
    (hW : (fs.Write key).2 = none) :
    WriteSSHPrivateKeyToTempFile fs key =
      ((name, fs.Close), [.create name 0o600, .chmod name 0o600 true, .write name key,
        .close name]) := by
  have hlen := Write_ok_length fs key hW
  simp [WriteSSHPrivateKeyToTempFile, hT, hC, hW, hlen]

/-- Where a write can stand in a trace that starts with the creation, the mode change and
one write, and has no write after them. -/
theorem write_position (name : String) (b : List Nat) (tl pre post : List FileEffect)
    (path : String) (bytes : List Nat) (htl : ∀ p c, FileEffect.write p c ∉ tl)
    (h : [FileEffect.create name 0o600, FileEffect.chmod name 0o600 true,
        FileEffect.write name b] ++ tl = pre ++ FileEffect.write path bytes :: post) :
    pre = [FileEffect.create name 0o600, FileEffect.chmod name 0o600 true] ∧ path = name := by
  match pre, h with
  | [], h => simp at h
  | [_], h => simp at h
  | [a, b], h =>
    simp at h
    obtain ⟨h1, h2, h3, _⟩ := h
    subst h1 h2
    exact ⟨rfl, h3.1.symm⟩
  | a :: b :: c :: rest, h =>
    simp at h
    obtain ⟨_, _, _, h4⟩ := h
    have : FileEffect.write path bytes ∈ tl := by rw [h4]; simp
    exact absurd this (htl _ _)

/-- C21: in every run of `WriteSSHPrivateKeyToTempFile`, a write to the file comes after the
file's creation with mode 0600 and after a successful change of its mode to 0600, and is the
first write; when the mode change fails nothing is written; and when the returned error is
nil, the returned path is the file that was created and the bytes written to it are exactly
the key. -/
theorem WriteSSHPrivateKeyToTempFile_spec (fs : FileSystem) (key : List Nat) :
    (∀ pre post path bytes,
        (WriteSSHPrivateKeyToTempFile fs key).2 = pre ++ FileEffect.write path bytes :: post →
        FileEffect.create path 0o600 ∈ pre ∧ FileEffect.chmod path 0o600 true ∈ pre ∧
          ∀ p b, FileEffect.write p b ∉ pre) ∧
    ((∃ err, fs.Chmod 0o600 = .error err) →
        ∀ path bytes, FileEffect.write path bytes ∉ (WriteSSHPrivateKeyToTempFile fs key).2) ∧
    ((WriteSSHPrivateKeyToTempFile fs key).1.2 = none →
        fs.TempFile = .ok (WriteSSHPrivateKeyToTempFile fs key).1.1 ∧
        FileEffect.create (WriteSSHPrivateKeyToTempFile fs key).1.1 0o600 ∈
          (WriteSSHPrivateKeyToTempFile fs key).2 ∧
        contentOf (WriteSSHPrivateKeyToTempFile fs key).1.1
          (WriteSSHPrivateKeyToTempFile fs key).2 = key) := by
  cases hT : fs.TempFile with
  | error e =>
    rw [WriteKey_no_file fs key e hT]
    simp
  | ok name =>
    cases hC : fs.Chmod 0o600 with
    | error e =>
      rw [WriteKey_chmod_fails fs key name e hT hC]
      refine ⟨?_, ?_, ?_⟩
      · intro pre post path bytes h
        have hm : FileEffect.write path bytes ∈
            [FileEffect.create name 0o600, FileEffect.chmod name 0o600 false] := by
          simp only [] at h
          rw [h]; simp
        simp at hm
      · intro _ path bytes
        simp
      · intro h
        simp at h
    | ok u =>
      cases hW : (fs.Write key).2 with
      | some e =>
        rw [WriteKey_write_fails fs key name u e hT hC hW]
        refine ⟨?_, ?_, ?_⟩
        · intro pre post path bytes h
          obtain ⟨hp, hn⟩ := write_position name _ [] pre post path bytes (by simp)
            (by simpa using h)
          subst hp hn
          simp
        · intro ⟨err, he⟩
          simp at he
        · intro h
          simp at h
      | none =>
        rw [WriteKey_written fs key name u hT hC hW]
        refine ⟨?_, ?_, ?_⟩
        · intro pre post path bytes h
          obtain ⟨hp, hn⟩ := write_position name _ [FileEffect.close name] pre post path
            bytes (by simp) (by simpa using h)
          subst hp hn
          simp
        · intro ⟨err, he⟩
          simp at he
        · intro _
          simp [contentOf]

/-- C21, on a sample file system whose writes are complete: the statement for the key
`[1, 2, 3]`. -/
theorem WriteSSHPrivateKeyToTempFile_spec_witness :
    (WriteSSHPrivateKeyToTempFile (demoFS 10) [1, 2, 3]).1 = ("/tmp/ssh-priv-key1", none) ∧
    contentOf "/tmp/ssh-priv-key1" (WriteSSHPrivateKeyToTempFile (demoFS 10) [1, 2, 3]).2 =
      [1, 2, 3] :=
  ⟨by decide, ((WriteSSHPrivateKeyToTempFile_spec (demoFS 10) [1, 2, 3]).2.2 (by decide)).2.2⟩

/-! ## The constructor -/

/-- The key file is written without error exactly when the temporary file is created, its
mode is set, the write is complete and the file closes. -/
theorem WriteKey_ok_iff (fs : FileSystem) (key : List Nat) :
    (WriteSSHPrivateKeyToTempFile fs key).1.2 = none ↔
      ∃ name, fs.TempFile = .ok name ∧ fs.Chmod 0o600 = .ok () ∧
        (fs.Write key).2 = none ∧ fs.Close = none := by
  cases hT : fs.TempFile with
  | error e =>
    rw [WriteKey_no_file fs key e hT]
    simp
  | ok name =>
    cases hC : fs.Chmod 0o600 with
    | error e =>
      rw [WriteKey_chmod_fails fs key name e hT hC]
      simp
    | ok u =>
      cases hW : (fs.Write key).2 with
      | some e =>
        rw [WriteKey_write_fails fs key name u e hT hC hW]
        simp
      | none =>
        rw [WriteKey_written fs key name u hT hC hW]
        simp

/-- C22: `NewSSHServer` returns a server, with a nil error, exactly when the host key
parses, the authority key parses and the host key is written to a temporary file
successfully, that is, the file is created, its mode set, the key written in full and the
file closed. The server returned records the path of that file, and what was done to the
file system is then exactly: the file created with mode 0600, its mode set to 0600, the
bytes of the host key written to it, the file closed. When a key does not parse or the
writing fails the result is an error, with no server. When a key does not parse nothing is
done to the file system; when both parse, what is done to it is the one call that writes
the host key. -/
theorem NewSSHServer_spec (env : Environment) (addr : String) (hostPrivateKey : List Nat)
    (gomotePublicKey : String) (caPrivateKey : List Nat) (sp : SessionPool) (rbs : Buildlets) :
    ((∃ s, (NewSSHServer env addr hostPrivateKey gomotePublicKey caPrivateKey sp rbs).1 =
        .ok s) ↔
      ((∃ h, env.ParsePrivateKey hostPrivateKey = .ok h) ∧
        (∃ c, env.ParsePrivateKey caPrivateKey = .ok c) ∧
        ∃ name, env.fs.TempFile = .ok name ∧ env.fs.Chmod 0o600 = .ok () ∧
          (env.fs.Write hostPrivateKey).2 = none ∧ env.fs.Close = none)) ∧
    (∀ s, (NewSSHServer env addr hostPrivateKey gomotePublicKey caPrivateKey sp rbs).1 =
        .ok s →
      env.fs.TempFile = .ok s.1.privateHostKeyFile ∧
        (NewSSHServer env addr hostPrivateKey gomotePublicKey caPrivateKey sp rbs).2 =
          [.create s.1.privateHostKeyFile 0o600, .chmod s.1.privateHostKeyFile 0o600 true,
            .write s.1.privateHostKeyFile hostPrivateKey, .close s.1.privateHostKeyFile] ∧
        s.1.privateHostKeyFile = (WriteSSHPrivateKeyToTempFile env.fs hostPrivateKey).1.1 ∧
        s.1.gomotePublicKey = gomotePublicKey ∧ s.2.Addr = addr) ∧
    (((∃ e, env.ParsePrivateKey hostPrivateKey = .error e) ∨
        (∃ e, env.ParsePrivateKey caPrivateKey = .error e) ∨
        (∃ e, (WriteSSHPrivateKeyToTempFile env.fs hostPrivateKey).1.2 = some e) ∨
        (∃ e, env.fs.TempFile = .error e) ∨ (∃ e, env.fs.Chmod 0o600 = .error e) ∨
        (∃ e, (env.fs.Write hostPrivateKey).2 = some e) ∨ (∃ e, env.fs.Close = some e)) →
      ∃ err, (NewSSHServer env addr hostPrivateKey gomotePublicKey caPrivateKey sp rbs).1 =
        .error err) ∧
    (((∃ e, env.ParsePrivateKey hostPrivateKey = .error e) ∨
        (∃ e, env.ParsePrivateKey caPrivateKey = .error e)) →
      (NewSSHServer env addr hostPrivateKey gomotePublicKey caPrivateKey sp rbs).2 = []) ∧
    ((∃ h, env.ParsePrivateKey hostPrivateKey = .ok h) →
      (∃ c, env.ParsePrivateKey caPrivateKey = .ok c) →
      (NewSSHServer env addr hostPrivateKey gomotePublicKey caPrivateKey sp rbs).2 =
        (WriteSSHPrivateKeyToTempFile env.fs hostPrivateKey).2) := by
  have hiff := WriteKey_ok_iff env.fs hostPrivateKey
  cases hH : env.ParsePrivateKey hostPrivateKey with
  | error e => simp [NewSSHServer, hH]
  | ok hostSigner =>
    cases hA : env.ParsePrivateKey caPrivateKey with
    | error e => simp [NewSSHServer, hH, hA]
    | ok CASigner =>
      cases hW : (WriteSSHPrivateKeyToTempFile env.fs hostPrivateKey).1.2 with
      | some e =>
        have hno : ¬ ∃ name, env.fs.TempFile = .ok name ∧ env.fs.Chmod 0o600 = .ok () ∧
            (env.fs.Write hostPrivateKey).2 = none ∧ env.fs.Close = none := by
          intro h
          rw [← hiff, hW] at h
          cases h
        refine ⟨?_, ?_, ?_, ?_, ?_⟩
        · simp only [NewSSHServer, hH, hA, hW]
          constructor
          · rintro ⟨s, hs⟩
            cases hs
          · rintro ⟨_, _, h⟩
            exact absurd h hno
        · intro s hs
          simp [NewSSHServer, hH, hA, hW] at hs
        · intro _
          simp [NewSSHServer, hH, hA, hW]
        · simp
        · intro _ _
          simp [NewSSHServer, hH, hA, hW]
      | none =>
        obtain ⟨name, hT, hC, hWr, hCl⟩ := hiff.mp hW
        have hrun := WriteKey_written env.fs hostPrivateKey name () hT hC hWr
        have hres : NewSSHServer env addr hostPrivateKey gomotePublicKey caPrivateKey sp rbs =
            (.ok ({ gomotePublicKey := gomotePublicKey, privateHostKeyFile := name
                    remoteBuildlets := rbs, sessionPool := sp },
              { Addr := addr
                PublicKeyHandler := chainSSHPublicKeyHandlers
                  [handleSSHPublicKeyAuth env.GitHubOfGomoteUser env.http env.ParseAuthorizedKey
                    env.MarshalCertificate,
                   handleCertificateAuthFunc env.timeNow sp CASigner]
                HostSigners := [hostSigner]
                Handler := HandleIncomingSSHPostAuth env.pf
                  { gomotePublicKey := gomotePublicKey, privateHostKeyFile := name
                    remoteBuildlets := rbs, sessionPool := sp } }),
              [.create name 0o600, .chmod name 0o600 true, .write name hostPrivateKey,
                .close name]) := by
          simp only [NewSSHServer, hH, hA, hrun, hCl]
        rw [hres, hrun]
        refine ⟨?_, ?_, ?_, ?_, ?_⟩
        · constructor
          · intro _
            exact ⟨⟨_, rfl⟩, ⟨_, rfl⟩, name, hT, hC, hWr, hCl⟩
          · intro _
            exact ⟨_, rfl⟩
        · intro s hs
          simp only [Except.ok.injEq] at hs
          subst hs
          exact ⟨hT, rfl, rfl, rfl, rfl⟩
        · rintro (⟨e, he⟩ | ⟨e, he⟩ | ⟨e, he⟩ | ⟨e, he⟩ | ⟨e, he⟩ | ⟨e, he⟩ | ⟨e, he⟩)
          · cases he
          · cases he
          · rw [hrun] at hW; simp [hCl] at he
          · rw [hT] at he; cases he
          · rw [hC] at he; cases he
          · rw [hWr] at he; cases he
          · rw [hCl] at he; cases he
        · rintro (⟨e, he⟩ | ⟨e, he⟩) <;> cases he
        · intro _ _
          rfl

/-- C22, on the sample environment: with both keys parsing and a complete write the
constructor returns a server, and the file system has seen the temporary file created with
mode 0600, its mode set, the host key `[1, 2, 3]` written to it, and the file closed, under
the path the server records. -/
theorem NewSSHServer_spec_witness :
    ∃ s, (NewSSHServer (demoEnvironment 10) "localhost:2222" [1, 2, 3] "gomote-key" [5]
        (demoPool []) { M := fun _ => none }).1 = .ok s ∧
      (demoEnvironment 10).fs.TempFile = .ok s.1.privateHostKeyFile ∧
      (NewSSHServer (demoEnvironment 10) "localhost:2222" [1, 2, 3] "gomote-key" [5]
        (demoPool []) { M := fun _ => none }).2 =
        [.create s.1.privateHostKeyFile 0o600, .chmod s.1.privateHostKeyFile 0o600 true,
          .write s.1.privateHostKeyFile [1, 2, 3], .close s.1.privateHostKeyFile] := by
  obtain ⟨s, hs⟩ := (NewSSHServer_spec (demoEnvironment 10) "localhost:2222" [1, 2, 3]
    "gomote-key" [5] (demoPool []) { M := fun _ => none }).1.mpr
    ⟨⟨_, rfl⟩, ⟨_, rfl⟩, "/tmp/ssh-priv-key1", rfl, rfl, by decide, rfl⟩
  have h := (NewSSHServer_spec (demoEnvironment 10) "localhost:2222" [1, 2, 3]
    "gomote-key" [5] (demoPool []) { M := fun _ => none }).2.1 s hs
  exact ⟨s, hs, h.1, h.2.1⟩

/-! ## The session id across one connection -/

/-- The certificate strategy looks sessions up by the user-name as received. -/
theorem certAuth_lookup_id (timeNow : Time) (sp : SessionPool) (caKeySigner : Signer)
    (ctx : Context) (key : OfferedKey) (id : String)
    (h : Event.sessionLookup id ∈ (handleCertificateAuthFunc timeNow sp caKeySigner ctx key).2) :
    id = ctx.User := by
  unfold handleCertificateAuthFunc at h
  cases key with
  | plain k => simp at h
  | certificate cert =>
    simp only at h
    split at h
    · simp at h
    · split at h
      · simp at h
      · split at h
        · simpa using h
        · split at h <;> simpa using h

/-- C25 fails on the code. Every `KeepAlive` and `BuildletClient` call of
`IncomingSSHPostAuth`, and the `Session` call of the certificate strategy, is made with the
user-name as received, while `HandleIncomingSSHPostAuth` calls `Session` with the prefix
`mutable-` stripped. For the user-name `mutable-user-alice-linux-amd64-0`, whose session
`user-alice-linux-amd64-0` is in the registry on a hermetic host type, the entry point finds
the session under the stripped id, then `KeepAlive` and `BuildletClient` are called with the
full user-name and fail; and the certificate strategy, offered a certificate valid for the
session, looks the full user-name up and rejects. -/
theorem session_id_not_shared :
    (∀ (pf : Platform) (ss : SSHServer) (s : ClientSession) (rs : Session) (id : String),
      Effect.keepAlive id ∈ IncomingSSHPostAuth pf ss s rs ∨
        Effect.buildletClient id ∈ IncomingSSHPostAuth pf ss s rs → id = s.User) ∧
    (∀ (timeNow : Time) (sp : SessionPool) (caKeySigner : Signer) (ctx : Context)
      (key : OfferedKey) (id : String),
      Event.sessionLookup id ∈ (handleCertificateAuthFunc timeNow sp caKeySigner ctx key).2 →
        id = ctx.User) ∧
    mutableAndInstance "mutable-user-alice-linux-amd64-0" = (true, "user-alice-linux-amd64-0") ∧
    HandleIncomingSSHPostAuth demoPlatform (demoServer [] [linuxSession] demoClient)
        ⟨"mutable-user-alice-linux-amd64-0", "xterm", true⟩ =
      [.legacyLookup "user-alice-linux-amd64-0",
        .sessionLookup "user-alice-linux-amd64-0",
        .keepAlive "mutable-user-alice-linux-amd64-0",
        .log "ssh: KeepAlive on session=%s failed: %s"
          ["mutable-user-alice-linux-amd64-0",
            "session %q not found [mutable-user-alice-linux-amd64-0]"],
        .log "connecting to ssh to instance %q ..." ["mutable-user-alice-linux-amd64-0"],
        .write "# Welcome to the gomote ssh proxy.\n" [],
        .write "# Connecting to/starting remote ssh...\n" [],
        .write "#\n" [],
        .buildletClient "mutable-user-alice-linux-amd64-0",
        .write "failed to connect to ssh on %s: %v\n"
          ["mutable-user-alice-linux-amd64-0",
            "session %q not found [mutable-user-alice-linux-amd64-0]"],
        .cancel] ∧
    handleCertificateAuthFunc ⟨15000000000⟩ (demoRegistry [linuxSession] demoClient)
        (demoSigner [5]) ⟨"mutable-user-alice-linux-amd64-0"⟩
        (.certificate (demoCert [5] ["user-alice-linux-amd64-0@farmer.golang.org"] 10 20
          [5, 7, 1, 10, 20])) =
      (false,
        [.sessionLookup "mutable-user-alice-linux-amd64-0",
          .log "HandleCertificateAuth: unable to retrieve session=%s: %s"
            ["mutable-user-alice-linux-amd64-0",
              "session %q not found [mutable-user-alice-linux-amd64-0]"]]) ∧
    (handleCertificateAuthFunc ⟨15000000000⟩ (demoRegistry [linuxSession] demoClient)
        (demoSigner [5]) ⟨"user-alice-linux-amd64-0"⟩
        (.certificate (demoCert [5] ["user-alice-linux-amd64-0@farmer.golang.org"] 10 20
          [5, 7, 1, 10, 20]))).1 = true := by
  refine ⟨?_, ?_, by decide, by decide, by decide, by decide⟩
  · intro pf ss s rs id h
    rcases h with h | h
    · rcases IncomingSSHPostAuth_effects pf ss s rs _ h with h1 | h1 | h1 | h1 | h1
      · simp at h1
      · simp at h1
      · simpa using h1
      · simp at h1
      · simp at h1
    · rcases IncomingSSHPostAuth_effects pf ss s rs _ h with h1 | h1 | h1 | h1 | h1
      · simp at h1
      · simp at h1
      · simp at h1
      · simpa using h1
      · simp at h1
  · intro timeNow sp caKeySigner ctx key id h
    exact certAuth_lookup_id timeNow sp caKeySigner ctx key id h

end Remote

namespace Access

/-! ## The authentication function -/

/-- What `retrieveFn` returns: the first value of the header, when it has one that is not
empty. -/
theorem retrieveFn_ok_iff (fmd : MD) (mdKey v : String) :
    retrieveFn fmd mdKey = .ok v ↔ (fmd.Get mdKey).head? = some v ∧ v ≠ "" := by
  unfold retrieveFn
  cases h : fmd.Get mdKey with
  | nil => simp
  | cons a rest =>
    by_cases ha : a = ""
    · subst ha
      simp
      intro h1
      exact h1.symm
    · simp [ha]
      intro h1
      subst h1
      exact ha

/-- When `retrieveFn` fails: the header has no value, or its first value is empty. -/
theorem retrieveFn_error_iff (fmd : MD) (mdKey : String) :
    (∃ e, retrieveFn fmd mdKey = .error e) ↔
      ¬ ∃ v, (fmd.Get mdKey).head? = some v ∧ v ≠ "" := by
  constructor
  · rintro ⟨e, he⟩ ⟨v, hv⟩
    rw [(retrieveFn_ok_iff fmd mdKey v).mpr hv] at he
    cases he
  · intro h
    cases hr : retrieveFn fmd mdKey with
    | error e => exact ⟨e, rfl⟩
    | ok v => exact absurd ⟨v, (retrieveFn_ok_iff fmd mdKey v).mp hr⟩ h

/-- C24: the function built by `iapAuthFunc` returns a nil error exactly when the context
carries incoming metadata, the metadata has a first value for `X-Goog-IAP-JWT-Assertion`
that the validator accepts with the given audience, and the headers
`X-Goog-Authenticated-User-Email` and `X-Goog-Authenticated-User-Id` each have a non-empty
first value; then `IAPFromContext` on the returned context yields exactly those two values;
and a returned error has code `Internal` when the metadata is absent and `Unauthenticated`
otherwise, the context being returned as it came. -/
theorem iapAuthFunc_spec (audience : String) (validatorFn : validator) (ctx : Context) :
    ((iapAuthFunc audience validatorFn ctx).1.2 = none ↔
      ∃ md jwt email id, ctx.incoming = some md ∧
        (md.Get iapHeaderJWT).head? = some jwt ∧
        validatorFn ctx jwt audience = .ok () ∧
        ((md.Get iapHeaderEmail).head? = some email ∧ email ≠ "") ∧
        ((md.Get iapHeaderID).head? = some id ∧ id ≠ "")) ∧
    (∀ md email id, (iapAuthFunc audience validatorFn ctx).1.2 = none →
      ctx.incoming = some md → (md.Get iapHeaderEmail).head? = some email →
      (md.Get iapHeaderID).head? = some id →
      IAPFromContext (iapAuthFunc audience validatorFn ctx).1.1 =
        .ok { Email := email, ID := id }) ∧
    (∀ st, (iapAuthFunc audience validatorFn ctx).1.2 = some st →
      (iapAuthFunc audience validatorFn ctx).1.1 = ctx ∧
      (ctx.incoming = none → st.code = .Internal) ∧
      (ctx.incoming ≠ none → st.code = .Unauthenticated)) := by
  obtain ⟨incoming, value⟩ := ctx
  cases incoming with
  | none => simp [iapAuthFunc]
  | some md =>
    cases hJ : md.Get iapHeaderJWT with
    | nil => simp [iapAuthFunc, hJ]
    | cons jwt0 rest =>
      cases hV : validatorFn ⟨some md, value⟩ jwt0 audience with
      | error err => simp [iapAuthFunc, hJ, hV]
      | ok u =>
        cases hE : retrieveFn md iapHeaderEmail with
        | error e =>
          have hne := (retrieveFn_error_iff md iapHeaderEmail).mp ⟨e, hE⟩
          simp only [iapAuthFunc, hJ, hV, contextWithIAPMD, hE]
          refine ⟨⟨by simp, ?_⟩, by simp, by simp⟩
          rintro ⟨md2, jwt, email, id, h1, _, _, h4, _⟩
          simp only [Option.some.injEq] at h1
          subst h1
          exact (hne ⟨email, h4⟩).elim
        | ok email =>
          have hemail := (retrieveFn_ok_iff md iapHeaderEmail email).mp hE
          cases hI : retrieveFn md iapHeaderID with
          | error e =>
            have hne := (retrieveFn_error_iff md iapHeaderID).mp ⟨e, hI⟩
            simp only [iapAuthFunc, hJ, hV, contextWithIAPMD, hE, hI]
            refine ⟨⟨by simp, ?_⟩, by simp, by simp⟩
            rintro ⟨md2, jwt, email2, id, h1, _, _, _, h5⟩
            simp only [Option.some.injEq] at h1
            subst h1
            exact (hne ⟨id, h5⟩).elim
          | ok id =>
            have hid := (retrieveFn_ok_iff md iapHeaderID id).mp hI
            simp only [iapAuthFunc, hJ, hV, contextWithIAPMD, hE, hI]
            refine ⟨⟨fun _ => ⟨md, jwt0, email, id, rfl, by simp [hJ], ?_, hemail, hid⟩,
              fun _ => trivial⟩, ?_, by simp⟩
            · cases u
              exact hV
            · intro md2 email2 id2 _ h1 h2 h3
              simp only [Option.some.injEq] at h1
              subst h1
              rw [hemail.1] at h2
              rw [hid.1] at h3
              simp only [Option.some.injEq] at h2 h3
              subst h2 h3
              rfl

/-- C24, on the sample context carrying the three headers: the call succeeds and the
returned context yields the two header values. -/
theorem iapAuthFunc_spec_witness :
    IAPFromContext (iapAuthFunc "aud" demoValidator demoContext).1.1 =
      .ok { Email := "accounts.google.com:gopher@example.com",
            ID := "accounts.google.com:1234" } :=
  (iapAuthFunc_spec "aud" demoValidator demoContext).2.1 _ _ _ (by decide) rfl (by decide)
    (by decide)

end Access

namespace Task

/-! ## Decimal numerals -/

/-- The step of the digit loops of `strconv`. -/
theorem digitChar_value (d : Nat) (h : d < 10) :
    (Nat.digitChar d).toNat - '0'.toNat = d ∧ isDigit (Nat.digitChar d) = true := by
  interval_cases d <;> exact ⟨rfl, rfl⟩

/-- Reading back the digits `Nat.toDigitsCore` puts in front of `ds`. -/
theorem foldl_toDigitsCore (fuel : Nat) : ∀ (n : Nat) (ds : List Char), n < fuel →
    List.foldl (fun n ch => n * 10 + (ch.toNat - '0'.toNat)) 0 (Nat.toDigitsCore 10 fuel n ds) =
      List.foldl (fun n ch => n * 10 + (ch.toNat - '0'.toNat)) n ds := by
  induction fuel with
  | zero => intro n ds h; omega
  | succ fuel ih =>
    intro n ds h
    unfold Nat.toDigitsCore
    have hd := (digitChar_value (n % 10) (Nat.mod_lt _ (by decide))).1
    by_cases h0 : n / 10 = 0
    · simp only [h0, if_true, List.foldl_cons]
      rw [hd]
      have : n % 10 = n := Nat.mod_eq_of_lt (by omega)
      simp [this]
    · simp only [h0, if_false]
      rw [ih (n / 10) _ (by omega)]
      simp only [List.foldl_cons]
      rw [hd]
      have : n / 10 * 10 + n % 10 = n := by omega
      rw [this]

/-- Every character `Nat.toDigitsCore` puts in front of digits is a digit. -/
theorem all_toDigitsCore (fuel : Nat) : ∀ (n : Nat) (ds : List Char),
    (∀ c ∈ ds, isDigit c = true) → ∀ c ∈ Nat.toDigitsCore 10 fuel n ds, isDigit c = true := by
  induction fuel with
  | zero => intro n ds h; simpa [Nat.toDigitsCore] using h
  | succ fuel ih =>
    intro n ds h
    unfold Nat.toDigitsCore
    have hd := (digitChar_value (n % 10) (Nat.mod_lt _ (by decide))).2
    have hcons : ∀ c ∈ Nat.digitChar (n % 10) :: ds, isDigit c = true := by
      intro c hc
      rcases List.mem_cons.mp hc with rfl | hc
      · exact hd
      · exact h c hc
    by_cases h0 : n / 10 = 0
    · simpa only [h0, if_true] using hcons
    · simp only [h0, if_false]
      exact ih _ _ hcons

/-- The function `Nat.toDigitsCore` adds at least one character when it has fuel. -/
theorem toDigitsCore_ne_nil (fuel n : Nat) (ds : List Char) :
    Nat.toDigitsCore 10 (fuel + 1) n ds ≠ [] := by
  induction fuel generalizing n ds with
  | zero =>
    unfold Nat.toDigitsCore
    by_cases h0 : n / 10 = 0 <;> simp [h0, Nat.toDigitsCore]
  | succ fuel ih =>
    unfold Nat.toDigitsCore
    by_cases h0 : n / 10 = 0
    · simp [h0]
    · simp only [h0, if_false]
      exact ih _ _

/-- The decimal numeral of `n` reads back as `n`. -/
theorem digitsValue_repr (n : Nat) : digitsValue (Nat.repr n).data = n := by
  show List.foldl _ 0 (Nat.toDigitsCore 10 (n + 1) n []) = n
  rw [foldl_toDigitsCore (n + 1) n [] (by omega)]
  rfl

/-- The decimal numeral of `n` consists of digits. -/
theorem repr_digits (n : Nat) : ∀ c ∈ (Nat.repr n).data, isDigit c = true :=
  all_toDigitsCore (n + 1) n [] (by simp)

/-- The decimal numeral of `n` is not empty. -/
theorem repr_ne_nil (n : Nat) : (Nat.repr n).data ≠ [] :=
  toDigitsCore_ne_nil n n []

/-- Distinct numbers have distinct decimal numerals. -/
theorem repr_injective {m n : Nat} (h : Nat.repr m = Nat.repr n) : m = n := by
  rw [← digitsValue_repr m, ← digitsValue_repr n, h]

/-- The function `strconv.Atoi` reads the decimal numeral of a number below `2^63`. -/
theorem Atoi_repr (n : Nat) (h : n < 2 ^ 63) : Atoi (Nat.repr n) = .ok (n : Int) := by
  have hne := repr_ne_nil n
  have hall := repr_digits n
  obtain ⟨c, cs, hcs⟩ := List.exists_cons_of_ne_nil hne
  have hc : isDigit c = true := hall c (by rw [hcs]; simp)
  have hminus : c ≠ '-' := by rintro rfl; exact absurd hc (by decide)
  have hplus : c ≠ '+' := by rintro rfl; exact absurd hc (by decide)
  have hv := digitsValue_repr n
  have hall2 : (c :: cs).all isDigit = true := by
    rw [← hcs]; exact List.all_eq_true.mpr hall
  unfold Atoi
  simp only [hcs, List.head?_cons, Option.some.injEq, beq_iff_eq] at hv ⊢
  simp [hminus, hplus, hv, hall2, h]
  omega

/-! ## The last non-digit rune -/

/-- The byte length of a string read off its runes. -/
theorem utf8ByteSize_cons (c : Char) (cs : List Char) :
    String.utf8ByteSize ⟨c :: cs⟩ = String.utf8ByteSize ⟨cs⟩ + c.utf8Size := rfl

/-- The byte length of two runs of runes. -/
theorem utf8ByteSize_append (a b : List Char) :
    String.utf8ByteSize ⟨a ++ b⟩ = String.utf8ByteSize ⟨a⟩ + String.utf8ByteSize ⟨b⟩ := by
  induction a with
  | nil => show _ = String.utf8ByteSize ⟨[]⟩ + _; simp [String.utf8ByteSize, String.utf8ByteSize.go]
  | cons c a ih =>
    rw [List.cons_append, utf8ByteSize_cons, utf8ByteSize_cons, ih]
    omega

/-- A rune takes at least one byte. -/
theorem utf8Size_pos (c : Char) : 0 < c.utf8Size := Char.utf8Size_pos c

/-- An ASCII rune takes one byte. -/
theorem utf8Size_ascii (c : Char) (h : c.toNat < 128) : c.utf8Size = 1 := by
  unfold Char.utf8Size
  have : c.val ≤ UInt32.ofNatCore 127 (by decide) := by
    show c.val.toNat ≤ 127
    unfold Char.toNat at h
    omega
  simp only []
  rw [if_pos this]

/-- The test of `nextVersion` is the negation of the digit test. -/
theorem nonDigit_iff (r : Char) :
    (decide (r < '0') || decide (r > '9')) = !isDigit r := by
  unfold isDigit
  have h1 : r < '0' ↔ ¬ '0' ≤ r := by
    show r.val.toNat < '0'.val.toNat ↔ ¬ '0'.val.toNat ≤ r.val.toNat
    omega
  have h2 : r > '9' ↔ ¬ r ≤ '9' := by
    show '9'.val.toNat < r.val.toNat ↔ ¬ r.val.toNat ≤ '9'.val.toNat
    omega
  by_cases a : '0' ≤ r <;> by_cases b : r ≤ '9' <;> simp [h1, h2, a, b]

/-- A run of digits does not move the index of the last non-digit rune. -/
theorem lastIndexFrom_digits (ds : List Char) (hds : ∀ c ∈ ds, isDigit c = true) :
    ∀ (off : Nat) (found : Int),
      lastIndexFrom (fun r => decide (r < '0') || decide (r > '9')) ds off found = found := by
  induction ds with
  | nil => intro off found; rfl
  | cons c ds ih =>
    intro off found
    unfold lastIndexFrom
    have hc : isDigit c = true := hds c (by simp)
    rw [nonDigit_iff, hc]
    simp only [Bool.not_true, Bool.false_eq_true, if_false]
    exact ih (fun x hx => hds x (by simp [hx])) _ _

/-- The index of the last non-digit rune when a non-digit rune `c` is followed by digits
only: the byte length of what precedes `c`. -/
theorem lastIndexFrom_last (q : List Char) (c : Char) (ds : List Char)
    (hc : isDigit c = false) (hds : ∀ x ∈ ds, isDigit x = true) :
    ∀ (off : Nat) (found : Int),
      lastIndexFrom (fun r => decide (r < '0') || decide (r > '9')) (q ++ c :: ds) off found =
        (off + String.utf8ByteSize ⟨q⟩ : Nat) := by
  induction q with
  | nil =>
    intro off found
    simp only [List.nil_append]
    unfold lastIndexFrom
    rw [nonDigit_iff, hc]
    simp only [Bool.not_false, if_true]
    rw [lastIndexFrom_digits ds hds]
    rfl
  | cons a q ih =>
    intro off found
    rw [List.cons_append]
    unfold lastIndexFrom
    rw [ih, utf8ByteSize_cons]
    congr 1
    omega

/-- Splitting at the byte length of a run of runes gives that run and the rest. -/
theorem splitAtByte_append (a b : List Char) :
    splitAtByte (a ++ b) (String.utf8ByteSize ⟨a⟩) = some (a, b) := by
  induction a with
  | nil => show splitAtByte b 0 = _; cases b <;> rfl
  | cons c a ih =>
    rw [utf8ByteSize_cons, List.cons_append]
    have hp := utf8Size_pos c
    obtain ⟨k, hk⟩ : ∃ k, String.utf8ByteSize ⟨a⟩ + c.utf8Size = k + 1 :=
      ⟨String.utf8ByteSize ⟨a⟩ + c.utf8Size - 1, by omega⟩
    rw [hk]
    unfold splitAtByte
    have hle : c.utf8Size ≤ k + 1 := by omega
    have hsub : k + 1 - c.utf8Size = String.utf8ByteSize ⟨a⟩ := by omega
    simp only [hle, if_true]
    rw [hsub, ih]
    rfl

/-- A byte index one past the start of a rune of several bytes is not a rune boundary. -/
theorem splitAtByte_inside (q : List Char) (c : Char) (ds : List Char)
    (h : 1 < c.utf8Size) :
    splitAtByte (q ++ c :: ds) (String.utf8ByteSize ⟨q⟩ + 1) = none := by
  induction q with
  | nil =>
    show splitAtByte (c :: ds) (0 + 1) = none
    unfold splitAtByte
    have : ¬ c.utf8Size ≤ 0 + 1 := by omega
    simp [this]
  | cons a q ih =>
    rw [utf8ByteSize_cons, List.cons_append]
    unfold splitAtByte
    have hle : a.utf8Size ≤ String.utf8ByteSize ⟨q⟩ + a.utf8Size + 1 := by omega
    have hsub : String.utf8ByteSize ⟨q⟩ + a.utf8Size + 1 - a.utf8Size =
        String.utf8ByteSize ⟨q⟩ + 1 := by omega
    simp only [hle, if_true]
    rw [hsub, ih]
    rfl

/-- The function `LastIndexFunc` on a string of digits only. -/
theorem LastIndexFunc_digits (s : String) (h : ∀ c ∈ s.data, isDigit c = true) :
    LastIndexFunc s (fun r => decide (r < '0') || decide (r > '9')) = -1 :=
  lastIndexFrom_digits s.data h 0 (-1)

/-- What `nextVersion` does on a string whose last non-digit rune `c` takes one byte: it
reads the digits after `c`. -/
theorem nextVersion_one_byte (q : List Char) (c : Char) (ds : List Char)
    (hc : isDigit c = false) (hds : ∀ x ∈ ds, isDigit x = true) (h1 : c.utf8Size = 1) :
    nextVersion ⟨q ++ c :: ds⟩ =
      match Atoi ⟨ds⟩ with
      | .error err =>
        .error (.errorf "malformatted Go version %q (%v)" [⟨q ++ c :: ds⟩, err.text])
      | .ok n => .ok (⟨q ++ [c]⟩ ++ formatInt (wrapInt (n + 1))) := by
  unfold nextVersion LastIndexFunc
  simp only [lastIndexFrom_last q c ds hc hds 0 (-1)]
  have hne1 : ((0 + String.utf8ByteSize ⟨q⟩ : Nat) : Int) ≠ -1 := by omega
  have hlen : String.utf8ByteSize ⟨q ++ c :: ds⟩ =
      String.utf8ByteSize ⟨q⟩ + (String.utf8ByteSize ⟨ds⟩ + c.utf8Size) := by
    rw [utf8ByteSize_append, utf8ByteSize_cons]
  have hne2 : ((String.utf8ByteSize ⟨q ++ c :: ds⟩ : Nat) : Int) ≠
      ((0 + String.utf8ByteSize ⟨q⟩ : Nat) : Int) := by
    rw [hlen, h1]; omega
  have hidx : (((0 + String.utf8ByteSize ⟨q⟩ : Nat) : Int) + 1).toNat =
      String.utf8ByteSize ⟨q ++ [c]⟩ := by
    rw [utf8ByteSize_append, utf8ByteSize_cons, h1]
    show _ = String.utf8ByteSize ⟨q⟩ + (0 + 1)
    omega
  have hsplit : splitAtByte (q ++ c :: ds) (String.utf8ByteSize ⟨q ++ [c]⟩) =
      some (q ++ [c], ds) := by
    have := splitAtByte_append (q ++ [c]) ds
    simpa using this
  have hcond : ((((0 + String.utf8ByteSize ⟨q⟩ : Nat) : Int) == -1) ||
      (((String.utf8ByteSize ⟨q ++ c :: ds⟩ : Nat) : Int) ==
        ((0 + String.utf8ByteSize ⟨q⟩ : Nat) : Int))) = false := by
    rw [Bool.or_eq_false_iff]
    exact ⟨beq_false_of_ne hne1, beq_false_of_ne hne2⟩
  simp only [hcond, Bool.false_eq_true, if_false, hidx, hsplit]
  try rfl

/-- What `nextVersion` does on a string whose last non-digit rune takes several bytes: the
slice it reads starts inside the rune, and it returns an error. -/
theorem nextVersion_multi_byte (q : List Char) (c : Char) (ds : List Char)
    (hc : isDigit c = false) (hds : ∀ x ∈ ds, isDigit x = true) (h1 : 1 < c.utf8Size) :
    nextVersion ⟨q ++ c :: ds⟩ =
      .error (.errorf "malformatted Go version %q (%v)"
        [⟨q ++ c :: ds⟩, "strconv.Atoi: parsing: invalid syntax"]) := by
  unfold nextVersion LastIndexFunc
  simp only [lastIndexFrom_last q c ds hc hds 0 (-1)]
  have hne1 : ((0 + String.utf8ByteSize ⟨q⟩ : Nat) : Int) ≠ -1 := by omega
  have hlen : String.utf8ByteSize ⟨q ++ c :: ds⟩ =
      String.utf8ByteSize ⟨q⟩ + (String.utf8ByteSize ⟨ds⟩ + c.utf8Size) := by
    rw [utf8ByteSize_append, utf8ByteSize_cons]
  have hne2 : ((String.utf8ByteSize ⟨q ++ c :: ds⟩ : Nat) : Int) ≠
      ((0 + String.utf8ByteSize ⟨q⟩ : Nat) : Int) := by
    rw [hlen]; omega
  have hidx : (((0 + String.utf8ByteSize ⟨q⟩ : Nat) : Int) + 1).toNat =
      String.utf8ByteSize ⟨q⟩ + 1 := by omega
  have hcond : ((((0 + String.utf8ByteSize ⟨q⟩ : Nat) : Int) == -1) ||
      (((String.utf8ByteSize ⟨q ++ c :: ds⟩ : Nat) : Int) ==
        ((0 + String.utf8ByteSize ⟨q⟩ : Nat) : Int))) = false := by
    rw [Bool.or_eq_false_iff]
    exact ⟨beq_false_of_ne hne1, beq_false_of_ne hne2⟩
  simp only [hcond, Bool.false_eq_true, if_false, hidx, splitAtByte_inside q c ds h1]

/-- The function `nextVersion` on a string of digits only, the empty string included. -/
theorem nextVersion_digits (s : String) (h : ∀ c ∈ s.data, isDigit c = true) :
    nextVersion s = .error (.errorf "malformatted Go version %q" [s]) := by
  unfold nextVersion
  simp [LastIndexFunc_digits s h]

/-! ## The next version of a version string -/

/-- A string that ends in the rune `c`, followed by a decimal numeral, as runes. -/
theorem append_repr_data (p : String) (q : List Char) (c : Char) (hp : p.data = q ++ [c])
    (t : String) : p ++ t = ⟨q ++ c :: t.data⟩ := by
  apply String.ext
  simp [String.data_append, hp]

/-- The `int` operation `n + 1` within range. -/
theorem wrapInt_of_lt (x : Int) (h0 : -(2 ^ 63) ≤ x) (h1 : x < 2 ^ 63) : wrapInt x = x := by
  unfold wrapInt Remote.toInt64 Remote.toUint64
  have hm : ((x % 2 ^ 64).toNat : Int) = x % 2 ^ 64 :=
    Int.toNat_of_nonneg (Int.emod_nonneg _ (by norm_num))
  have hlt : x % 2 ^ 64 < 2 ^ 64 := Int.emod_lt_of_pos _ (by norm_num)
  have hmod : (x % 2 ^ 64).toNat % 2 ^ 64 = (x % 2 ^ 64).toNat := by
    apply Nat.mod_eq_of_lt
    omega
  rw [hmod]
  split <;> omega

/-- The function `nextVersion` on a string ending in an ASCII non-digit rune followed by
the decimal numeral of `n`, with `n + 1` in the range of `int`. -/
theorem nextVersion_append (p : String) (c : Char) (n : Nat)
    (hlast : p.data.getLast? = some c) (hc : isDigit c = false) (hascii : c.toNat < 128)
    (hn : n + 1 < 2 ^ 63) :
    nextVersion (p ++ Nat.repr n) = .ok (p ++ Nat.repr (n + 1)) := by
  obtain ⟨q, hq⟩ := List.getLast?_eq_some_iff.mp hlast
  rw [append_repr_data p q c hq (Nat.repr n),
    nextVersion_one_byte q c _ hc (repr_digits n) (utf8Size_ascii c hascii)]
  have hA : Atoi ⟨(Nat.repr n).data⟩ = .ok (n : Int) := Atoi_repr n (by omega)
  rw [hA]
  simp only []
  have hw : wrapInt ((n : Int) + 1) = ((n + 1 : Nat) : Int) := by
    rw [wrapInt_of_lt _ (by omega) (by omega)]
    rfl
  rw [hw]
  have hp : p = ⟨q ++ [c]⟩ := String.ext hq
  rw [← hp]
  rfl

/-- C28, as stated, fails on the code. The string `goé` is non-empty and ends in a
non-digit character, yet `nextVersion` of `goé1` is an error: the last non-digit rune takes
two bytes, and the slice read as a number starts at its second byte. The number
`9223372036854775807` is the greatest `int`: `nextVersion` of `go9223372036854775807` is
`go-9223372036854775808`, not `go9223372036854775808`; and for the number
`9223372036854775808` it is an error. -/
theorem nextVersion_counterexample :
    ("goé".data.getLast? = some 'é' ∧ isDigit 'é' = false) ∧
    (nextVersion ("goé" ++ Nat.repr 1)).toOption = none ∧
    ("go".data.getLast? = some 'o' ∧ isDigit 'o' = false) ∧
    nextVersion ("go" ++ Nat.repr 9223372036854775807) = .ok "go-9223372036854775808" ∧
    "go-9223372036854775808" ≠ "go" ++ Nat.repr (9223372036854775807 + 1) ∧
    (nextVersion ("go" ++ Nat.repr 9223372036854775808)).toOption = none := by
  refine ⟨⟨rfl, rfl⟩, rfl, ⟨rfl, rfl⟩, rfl, by decide, rfl⟩

/-- C28, amended. For every string `p` that is non-empty and ends in an ASCII non-digit
character and every natural number `n` with `n + 1` below `2^63`, written in decimal,
`nextVersion (p ++ n)` returns `p ++ (n + 1)` with no error, as for `go1.17.9` and
`go1.19beta1`; and `nextVersion` returns an error for every string that consists only of
digits, is empty, or ends in a non-digit character. -/
theorem nextVersion_spec :
    (∀ (p : String) (c : Char) (n : Nat), p.data.getLast? = some c → isDigit c = false →
      c.toNat < 128 → n + 1 < 2 ^ 63 →
      nextVersion (p ++ Nat.repr n) = .ok (p ++ Nat.repr (n + 1))) ∧
    nextVersion "go1.17.9" = .ok "go1.17.10" ∧
    nextVersion "go1.19beta1" = .ok "go1.19beta2" ∧
    (∀ s : String,
      ((∀ c ∈ s.data, isDigit c = true) ∨ s = "" ∨
        ∃ c, s.data.getLast? = some c ∧ isDigit c = false) →
      ∃ err, nextVersion s = .error err) := by
  refine ⟨nextVersion_append, rfl, rfl, ?_⟩
  intro s h
  rcases h with h | h | ⟨c, hlast, hc⟩
  · exact ⟨_, nextVersion_digits s h⟩
  · subst h
    exact ⟨_, nextVersion_digits "" (by simp)⟩
  · obtain ⟨q, hq⟩ := List.getLast?_eq_some_iff.mp hlast
    have hs : s = ⟨q ++ c :: []⟩ := String.ext hq
    by_cases h1 : c.utf8Size = 1
    · rw [hs, nextVersion_one_byte q c [] hc (by simp) h1]
      exact ⟨_, rfl⟩
    · have hpos := utf8Size_pos c
      rw [hs, nextVersion_multi_byte q c [] hc (by simp) (by omega)]
      exact ⟨_, rfl⟩

/-- C28, amended, at `p = go1.17.` and `n = 9`. -/
theorem nextVersion_spec_witness :
    nextVersion ("go1.17." ++ Nat.repr 9) = .ok ("go1.17." ++ Nat.repr (9 + 1)) :=
  nextVersion_spec.1 "go1.17." '.' 9 rfl rfl (by decide) (by decide)

/-! ## The search for the next version -/

/-- The verb `%d` on a number that is not negative. -/
theorem formatInt_natCast (m : Nat) : formatInt (m : Int) = Nat.repr m := rfl

/-- The downward search stops at the greatest `M`, at most 100, whose tag `go1.M` exists,
once it may run more than `100 - M` iterations. -/
theorem findCurrentMajor_found (tagSet : String → Bool) (M : Nat)
    (hin : tagSet ("go1." ++ Nat.repr M) = true)
    (hmax : ∀ N : Nat, M < N → N ≤ 100 → tagSet ("go1." ++ Nat.repr N) = false) :
    ∀ (fuel cur : Nat), M ≤ cur → cur ≤ 100 → cur - M < fuel →
      findCurrentMajor tagSet fuel (cur : Int) = some (M : Int) := by
  intro fuel
  induction fuel with
  | zero => intro cur _ _ h; omega
  | succ fuel ih =>
    intro cur h1 h2 h3
    unfold findCurrentMajor
    rw [formatInt_natCast]
    by_cases hc : cur = M
    · subst hc
      simp [hin]
    · have hlt : M < cur := by omega
      rw [hmax cur hlt h2]
      simp only [Bool.false_eq_true, if_false]
      have hw : wrapInt ((cur : Int) - 1) = ((cur - 1 : Nat) : Int) := by
        rw [wrapInt_of_lt _ (by omega) (by omega)]
        omega
      rw [hw]
      exact ih (cur - 1) (by omega) (by omega) (by omega)

/-- The downward search never stops when no tag `go1.N` exists. -/
theorem findCurrentMajor_none (tagSet : String → Bool)
    (h : ∀ N : Int, tagSet ("go1." ++ formatInt N) = false) :
    ∀ (fuel : Nat) (cur : Int), findCurrentMajor tagSet fuel cur = none := by
  intro fuel
  induction fuel with
  | zero => intro cur; rfl
  | succ fuel ih =>
    intro cur
    unfold findCurrentMajor
    rw [h cur]
    simp only [Bool.false_eq_true, if_false]
    exact ih _

/-- The upward search from `p ++ j` stops at `p ++ k`, the first unused version from `j`
on, once it may run more than `k - j` iterations. -/
theorem findUnused_found (tagSet : String → Bool) (p : String) (c : Char)
    (hlast : p.data.getLast? = some c) (hc : isDigit c = false) (hascii : c.toNat < 128)
    (k : Nat) (hkb : k + 1 < 2 ^ 63)
    (hused : ∀ j, 1 ≤ j → j < k → tagSet (p ++ Nat.repr j) = true)
    (hfree : tagSet (p ++ Nat.repr k) = false) :
    ∀ (fuel j : Nat), 1 ≤ j → j ≤ k → k - j < fuel →
      findUnused tagSet fuel (p ++ Nat.repr j) = some (.ok (p ++ Nat.repr k)) := by
  intro fuel
  induction fuel with
  | zero => intro j _ _ h; omega
  | succ fuel ih =>
    intro j h1 h2 h3
    unfold findUnused
    by_cases hj : j = k
    · subst hj
      simp [hfree]
    · have hlt : j < k := by omega
      rw [hused j h1 hlt, nextVersion_append p c j hlast hc hascii (by omega)]
      simp only [Bool.not_true, Bool.false_eq_true, if_false]
      exact ih (j + 1) (by omega) (by omega) (by omega)

/-- Appending distinct decimal numerals to a prefix gives distinct versions. -/
theorem append_repr_injective (p : String) {m n : Nat}
    (h : p ++ Nat.repr m = p ++ Nat.repr n) : m = n := by
  apply repr_injective
  have h2 := congrArg String.data h
  simp only [String.data_append] at h2
  exact String.ext (List.append_cancel_left h2)

/-- Some version `p ++ k`, with `k` from 1 to one more than the number of tags, is not a
tag; the least such `k` exists. -/
theorem exists_leastUnused (tags : List String) (p : String) :
    ∃ k, k ≤ tags.length + 1 ∧ leastUnused tags p k := by
  have hex : ∃ k, 1 ≤ k ∧ k ≤ tags.length + 1 ∧ p ++ Nat.repr k ∉ tags := by
    by_contra hno
    have hall : ∀ k, 1 ≤ k → k ≤ tags.length + 1 → p ++ Nat.repr k ∈ tags := by
      intro k h1 h2
      by_contra hk
      exact hno ⟨k, h1, h2, hk⟩
    have hnd : ((List.range (tags.length + 1)).map (fun j => p ++ Nat.repr (j + 1))).Nodup := by
      apply List.Nodup.map _ (List.nodup_range _)
      intro a b hab
      have := append_repr_injective p hab
      omega
    have hsub : (List.range (tags.length + 1)).map (fun j => p ++ Nat.repr (j + 1)) ⊆ tags := by
      intro v hv
      obtain ⟨j, hj, rfl⟩ := List.mem_map.mp hv
      have := List.mem_range.mp hj
      exact hall (j + 1) (by omega) (by omega)
    have hle := (hnd.subperm hsub).length_le
    simp at hle
  classical
  have hex2 : ∃ k, 1 ≤ k ∧ p ++ Nat.repr k ∉ tags := by
    obtain ⟨k, h1, _, h3⟩ := hex
    exact ⟨k, h1, h3⟩
  refine ⟨Nat.find hex2, ?_, (Nat.find_spec hex2).1, (Nat.find_spec hex2).2, ?_⟩
  · obtain ⟨k, h1, h2, h3⟩ := hex
    exact le_trans (Nat.find_min' hex2 ⟨h1, h3⟩) h2
  · intro j h1 h2
    by_contra hj
    exact Nat.find_min hex2 h2 ⟨h1, hj⟩

/-- The upward search of `GetNextVersion` from `p ++ 1`, for a prefix `p` that ends in an
ASCII non-digit character: with enough iterations it returns `p ++ k` for the least unused
`k`. -/
theorem findUnused_least (tags : List String) (hlen : tags.length + 2 < 2 ^ 63) (p : String)
    (c : Char) (hlast : p.data.getLast? = some c) (hc : isDigit c = false)
    (hascii : c.toNat < 128) (fuel : Nat) (hfuel : tags.length + 1 ≤ fuel) :
    ∃ k, leastUnused tags p k ∧
      findUnused (fun tag => tags.contains tag) fuel (p ++ Nat.repr 1) =
        some (.ok (p ++ Nat.repr k)) := by
  obtain ⟨k, hk, hl⟩ := exists_leastUnused tags p
  refine ⟨k, hl, ?_⟩
  obtain ⟨h1, hfree, hused⟩ := hl
  apply findUnused_found (fun tag => tags.contains tag) p c hlast hc hascii k (by omega)
  · intro j hj1 hj2
    simpa using hused j hj1 hj2
  · simpa using hfree
  · exact le_refl 1
  · exact h1
  · omega

/-- C26, as stated, fails on the code for `KindMajor`. The tag list holds `go1.100` and
`go1.101`; the greatest `N` of at most 100 with a tag `go1.N` is 100, and `GetNextVersion`
returns `go1.101`, which is an existing tag. -/
theorem GetNextVersion_counterexample :
    GetNextVersion (.ok ["go1.100", "go1.101"]) 200 .KindMajor = some (.ok "go1.101") ∧
    "go1.101" ∈ ["go1.100", "go1.101"] ∧
    "go1." ++ Nat.repr 100 ∈ ["go1.100", "go1.101"] ∧
    (∀ N : Nat, 100 < N → N ≤ 100 → "go1." ++ Nat.repr N ∉ ["go1.100", "go1.101"]) := by
  refine ⟨rfl, by decide, by decide, ?_⟩
  intro N h1 h2
  omega

/-- C26, amended. Let the tag list (a Go slice: fewer than `2^63 - 2` tags) contain some
tag `go1.N` with `N ≤ 100`, and let `M` be the greatest such `N`. Once its loops may run
at least as many iterations as there are tags plus 102, `GetNextVersion` returns: for
`KindCurrentMinor`, `go1.M.k`; for `KindPrevMinor`, `go1.(M-1).k`; for `KindBeta`,
`go1.(M+1)betak`; for `KindRC`, `go1.(M+1)rck`, where in each case `k` is the least integer
from 1 on for which that version is not in the tag list; and for `KindMajor`, `go1.(M+1)`.
For every kind other than `KindMajor` the returned version is not an existing tag, and for
`KindMajor` it is not one when `M < 100`. -/
theorem GetNextVersion_spec (tags : List String) (M : Nat) (hlen : tags.length + 2 < 2 ^ 63)
    (hM : M ≤ 100) (hin : "go1." ++ Nat.repr M ∈ tags)
    (hmax : ∀ N : Nat, M < N → N ≤ 100 → "go1." ++ Nat.repr N ∉ tags)
    (fuel : Nat) (hfuel : tags.length + 102 ≤ fuel) :
    (∃ k, leastUnused tags ("go1." ++ Nat.repr M ++ ".") k ∧
      GetNextVersion (.ok tags) fuel .KindCurrentMinor =
        some (.ok ("go1." ++ Nat.repr M ++ "." ++ Nat.repr k))) ∧
    (∃ k, leastUnused tags ("go1." ++ formatInt ((M : Int) - 1) ++ ".") k ∧
      GetNextVersion (.ok tags) fuel .KindPrevMinor =
        some (.ok ("go1." ++ formatInt ((M : Int) - 1) ++ "." ++ Nat.repr k))) ∧
    (∃ k, leastUnused tags ("go1." ++ Nat.repr (M + 1) ++ "beta") k ∧
      GetNextVersion (.ok tags) fuel .KindBeta =
        some (.ok ("go1." ++ Nat.repr (M + 1) ++ "beta" ++ Nat.repr k))) ∧
    (∃ k, leastUnused tags ("go1." ++ Nat.repr (M + 1) ++ "rc") k ∧
      GetNextVersion (.ok tags) fuel .KindRC =
        some (.ok ("go1." ++ Nat.repr (M + 1) ++ "rc" ++ Nat.repr k))) ∧
    GetNextVersion (.ok tags) fuel .KindMajor = some (.ok ("go1." ++ Nat.repr (M + 1))) ∧
    (∀ kind v, kind ≠ .KindMajor → GetNextVersion (.ok tags) fuel kind = some (.ok v) →
      v ∉ tags) ∧
    (M < 100 → "go1." ++ Nat.repr (M + 1) ∉ tags) := by
  have hfind : findCurrentMajor (fun tag => tags.contains tag) fuel 100 = some (M : Int) :=
    findCurrentMajor_found (fun tag => tags.contains tag) M (by simpa using hin)
      (fun N h1 h2 => by simpa using hmax N h1 h2) fuel 100 hM (le_refl _) (by omega)
  have hprev : wrapInt ((M : Int) - 1) = (M : Int) - 1 :=
    wrapInt_of_lt _ (by omega) (by omega)
  have hnext : wrapInt ((M : Int) + 1) = ((M + 1 : Nat) : Int) := by
    rw [wrapInt_of_lt _ (by omega) (by omega)]
    rfl
  have hone : Nat.repr 1 = "1" := rfl
  have hdot : ∀ x : String, (x ++ ".").data.getLast? = some '.' := by
    intro x; simp [String.data_append]
  have hbeta : ∀ x : String, (x ++ "beta").data.getLast? = some 'a' := by
    intro x
    have : (x ++ "beta").data = (x.data ++ ['b', 'e', 't']) ++ ['a'] := by
      simp [String.data_append]
    rw [this, List.getLast?_append]
    rfl
  have hrc : ∀ x : String, (x ++ "rc").data.getLast? = some 'c' := by
    intro x
    have : (x ++ "rc").data = (x.data ++ ['r']) ++ ['c'] := by
      simp [String.data_append]
    rw [this, List.getLast?_append]
    rfl
  have hcur := findUnused_least tags hlen ("go1." ++ Nat.repr M ++ ".") '.' (hdot _) rfl
    (by decide) fuel (by omega)
  have hprv := findUnused_least tags hlen ("go1." ++ formatInt ((M : Int) - 1) ++ ".") '.'
    (hdot _) rfl (by decide) fuel (by omega)
  have hbet := findUnused_least tags hlen ("go1." ++ Nat.repr (M + 1) ++ "beta") 'a'
    (hbeta _) rfl (by decide) fuel (by omega)
  have hrcs := findUnused_least tags hlen ("go1." ++ Nat.repr (M + 1) ++ "rc") 'c'
    (hrc _) rfl (by decide) fuel (by omega)
  have eCur : GetNextVersion (.ok tags) fuel .KindCurrentMinor =
      findUnused (fun tag => tags.contains tag) fuel
        ("go1." ++ Nat.repr M ++ "." ++ Nat.repr 1) := by
    simp only [GetNextVersion, hfind, formatInt_natCast, hone, String.append_assoc]
    try rfl
  have ePrev : GetNextVersion (.ok tags) fuel .KindPrevMinor =
      findUnused (fun tag => tags.contains tag) fuel
        ("go1." ++ formatInt ((M : Int) - 1) ++ "." ++ Nat.repr 1) := by
    simp only [GetNextVersion, hfind, hprev, hone, String.append_assoc]
    try rfl
  have eBeta : GetNextVersion (.ok tags) fuel .KindBeta =
      findUnused (fun tag => tags.contains tag) fuel
        ("go1." ++ Nat.repr (M + 1) ++ "beta" ++ Nat.repr 1) := by
    simp only [GetNextVersion, hfind, hnext, formatInt_natCast, hone, String.append_assoc]
    try rfl
  have eRC : GetNextVersion (.ok tags) fuel .KindRC =
      findUnused (fun tag => tags.contains tag) fuel
        ("go1." ++ Nat.repr (M + 1) ++ "rc" ++ Nat.repr 1) := by
    simp only [GetNextVersion, hfind, hnext, formatInt_natCast, hone, String.append_assoc]
    try rfl
  have eMajor : GetNextVersion (.ok tags) fuel .KindMajor =
      some (.ok ("go1." ++ Nat.repr (M + 1))) := by
    simp only [GetNextVersion, hfind, hnext, formatInt_natCast]
  have eOther : ∀ value, GetNextVersion (.ok tags) fuel (.other value) =
      some (.error (.errorf "unknown release kind %v" [formatInt value])) := by
    intro value
    simp only [GetNextVersion, hfind]
  obtain ⟨k1, hl1, hr1⟩ := hcur
  obtain ⟨k2, hl2, hr2⟩ := hprv
  obtain ⟨k3, hl3, hr3⟩ := hbet
  obtain ⟨k4, hl4, hr4⟩ := hrcs
  refine ⟨⟨k1, hl1, eCur.trans hr1⟩, ⟨k2, hl2, ePrev.trans hr2⟩, ⟨k3, hl3, eBeta.trans hr3⟩,
    ⟨k4, hl4, eRC.trans hr4⟩, eMajor, ?_, ?_⟩
  · intro kind v hk hv
    cases kind with
    | KindCurrentMinor =>
      rw [eCur.trans hr1] at hv
      cases hv
      exact hl1.2.1
    | KindPrevMinor =>
      rw [ePrev.trans hr2] at hv
      cases hv
      exact hl2.2.1
    | KindBeta =>
      rw [eBeta.trans hr3] at hv
      cases hv
      exact hl3.2.1
    | KindRC =>
      rw [eRC.trans hr4] at hv
      cases hv
      exact hl4.2.1
    | KindMajor => exact absurd rfl hk
    | other value =>
      rw [eOther value] at hv
      cases hv
  · intro hlt
    exact hmax (M + 1) (by omega) (by omega)

/-- C26, amended, on the tags of three major releases with two minor releases of the last
and a beta of the next: the next minor release of the current major version. -/
theorem GetNextVersion_spec_witness :
    ∃ k, leastUnused ["go1.1", "go1.2", "go1.3", "go1.3.1", "go1.3.2", "go1.4beta1"]
        ("go1." ++ Nat.repr 3 ++ ".") k ∧
      GetNextVersion (.ok ["go1.1", "go1.2", "go1.3", "go1.3.1", "go1.3.2", "go1.4beta1"])
        108 .KindCurrentMinor = some (.ok ("go1." ++ Nat.repr 3 ++ "." ++ Nat.repr k)) :=
  (GetNextVersion_spec ["go1.1", "go1.2", "go1.3", "go1.3.1", "go1.3.2", "go1.4beta1"] 3
    (by decide) (by decide) (by decide)
    (fun N h1 h2 => by interval_cases N <;> decide) 108 (by decide)).1

/-- C27 fails on the code. When the tag list holds no tag `go1.N`, for any integer `N`,
the downward search of `GetNextVersion` never stops: whatever the number of iterations its
loops may run and whatever the release kind, the call has not returned. -/
theorem GetNextVersion_no_major_tag (tags : List String)
    (h : ∀ N : Int, "go1." ++ formatInt N ∉ tags) (fuel : Nat) (kind : ReleaseKind) :
    GetNextVersion (.ok tags) fuel kind = none := by
  have hnone := findCurrentMajor_none (fun tag => tags.contains tag)
    (fun N => by simpa using h N) fuel 100
  simp only [GetNextVersion, hnone]

/-- C27 fails on the empty tag list: after a million iterations the call for a major
release has not returned. -/
theorem GetNextVersion_no_major_tag_witness :
    GetNextVersion (.ok []) 1000000 .KindMajor = none :=
  GetNextVersion_no_major_tag [] (fun _ h => by cases h) 1000000 .KindMajor

/-! ## The announcement template -/

/-- The function `strings.Index` finds an instance exactly when there is one. -/
theorem indexFrom_ne (substr : List Char) :
    ∀ (l : List Char) (off : Nat), indexFrom substr l off ≠ -1 ↔ substr <:+: l := by
  intro l
  induction l with
  | nil =>
    intro off
    unfold indexFrom
    cases substr with
    | nil => simp
    | cons a t => simp
  | cons c cs ih =>
    intro off
    unfold indexFrom
    by_cases hp : substr.isPrefixOf (c :: cs) = true
    · simp only [hp, if_true]
      have hpre : substr <+: c :: cs := List.isPrefixOf_iff_prefix.mp hp
      constructor
      · intro _; exact hpre.isInfix
      · intro _; omega
    · have hp2 : substr.isPrefixOf (c :: cs) = false := Bool.eq_false_iff.mpr hp
      simp only [hp2, Bool.false_eq_true, if_false]
      rw [ih, List.infix_cons_iff]
      constructor
      · intro h; exact Or.inr h
      · rintro (h | h)
        · exact absurd (List.isPrefixOf_iff_prefix.mpr h) hp
        · exact h

/-- The test `strings.Index(s, substr) != -1`. -/
theorem Index_ne_iff (s substr : String) :
    (Index s substr != -1) = true ↔ substr.data <:+: s.data := by
  unfold Index
  rw [bne_iff_ne]
  exact indexFrom_ne _ _ _

/-- C29: `announcementMail` picks its template by the first rule that matches: the version
contains `beta`; else it contains `rc`; else it has exactly one `.` (major); else it has
exactly two (minor); else the call returns an error. With the beta, rc or major template
picked and a non-empty `Security` list it returns an error that names the template, and no
mail; in every other case the mail is what the picked template renders. -/
theorem announcementMail_spec
    (render : String → ReleaseAnnouncement → Except Remote.GoError mailContent)
    (r : ReleaseAnnouncement) :
    ("beta".data <:+: r.Version.data →
      (r.Security = [] → announcementMail render r = render "announce-beta.md" r) ∧
      (r.Security ≠ [] → announcementMail render r =
        .error (.errorf
          ("email template %q doesn't support the Security field; " ++
            "this field can only be used in minor releases") ["announce-beta.md"]))) ∧
    (¬ "beta".data <:+: r.Version.data → "rc".data <:+: r.Version.data →
      (r.Security = [] → announcementMail render r = render "announce-rc.md" r) ∧
      (r.Security ≠ [] → announcementMail render r =
        .error (.errorf
          ("email template %q doesn't support the Security field; " ++
            "this field can only be used in minor releases") ["announce-rc.md"]))) ∧
    (¬ "beta".data <:+: r.Version.data → ¬ "rc".data <:+: r.Version.data →
      r.Version.data.count '.' = 1 →
      (r.Security = [] → announcementMail render r = render "announce-major.md" r) ∧
      (r.Security ≠ [] → announcementMail render r =
        .error (.errorf
          ("email template %q doesn't support the Security field; " ++
            "this field can only be used in minor releases") ["announce-major.md"]))) ∧
    (¬ "beta".data <:+: r.Version.data → ¬ "rc".data <:+: r.Version.data →
      r.Version.data.count '.' = 2 →
      announcementMail render r = render "announce-minor.md" r) ∧
    (¬ "beta".data <:+: r.Version.data → ¬ "rc".data <:+: r.Version.data →
      r.Version.data.count '.' ≠ 1 → r.Version.data.count '.' ≠ 2 →
      announcementMail render r = .error (.errorf "unknown version format: %q" [r.Version])) := by
  have hb := Index_ne_iff r.Version "beta"
  have hr := Index_ne_iff r.Version "rc"
  have hsec : r.Security = [] ∨ r.Security ≠ [] := em _
  have hlen : ∀ h : r.Security ≠ [], decide (r.Security.length > 0) = true := by
    intro h
    cases hs : r.Security with
    | nil => exact absurd hs h
    | cons a t => simp
  refine ⟨?_, ?_, ?_, ?_, ?_⟩
  · intro h1
    have e1 := hb.mpr h1
    refine ⟨fun hs => ?_, fun hs => ?_⟩
    · simp [announcementMail, e1, hs]
    · simp only [announcementMail, e1, if_true, hlen hs]
      rfl
  · intro h1 h2
    have e1 : (Index r.Version "beta" != -1) = false := by
      rw [← Bool.not_eq_true]; exact fun h => h1 (hb.mp h)
    have e2 := hr.mpr h2
    refine ⟨fun hs => ?_, fun hs => ?_⟩
    · simp [announcementMail, e1, e2, hs]
    · simp only [announcementMail, e1, e2, if_true, hlen hs]
      rfl
  · intro h1 h2 h3
    have e1 : (Index r.Version "beta" != -1) = false := by
      rw [← Bool.not_eq_true]; exact fun h => h1 (hb.mp h)
    have e2 : (Index r.Version "rc" != -1) = false := by
      rw [← Bool.not_eq_true]; exact fun h => h2 (hr.mp h)
    refine ⟨fun hs => ?_, fun hs => ?_⟩
    · simp [announcementMail, e1, e2, Count, h3, hs]
    · simp only [announcementMail, e1, e2, Count, h3, if_true, hlen hs]
      rfl
  · intro h1 h2 h3
    have e1 : (Index r.Version "beta" != -1) = false := by
      rw [← Bool.not_eq_true]; exact fun h => h1 (hb.mp h)
    have e2 : (Index r.Version "rc" != -1) = false := by
      rw [← Bool.not_eq_true]; exact fun h => h2 (hr.mp h)
    simp [announcementMail, e1, e2, Count, h3]
  · intro h1 h2 h3 h4
    have e1 : (Index r.Version "beta" != -1) = false := by
      rw [← Bool.not_eq_true]; exact fun h => h1 (hb.mp h)
    have e2 : (Index r.Version "rc" != -1) = false := by
      rw [← Bool.not_eq_true]; exact fun h => h2 (hr.mp h)
    simp [announcementMail, e1, e2, Count, h3, h4]

/-- C29, on a beta release announced with a security fix: an error, and no mail. -/
theorem announcementMail_spec_witness :
    announcementMail demoRender
        { Version := "go1.18beta1", SecondaryVersion := "", Security := ["CVE-1"], Names := [] } =
      .error (.errorf
        ("email template %q doesn't support the Security field; " ++
          "this field can only be used in minor releases") ["announce-beta.md"]) :=
  ((announcementMail_spec demoRender
    { Version := "go1.18beta1", SecondaryVersion := "", Security := ["CVE-1"], Names := [] }).1
    ⟨"go1.18".data, "1".data, rfl⟩).2 (by decide)

/-! ## The adjuster for cross-compiled targets -/

/-- One step of the scan inside a matched instance. -/
theorem replaceFrom_succ (old new : List Char) (skip : Nat) (c : Char) (cs : List Char) :
    replaceFrom old new (skip + 1) (c :: cs) = replaceFrom old new skip cs := rfl

/-- One step of the scan outside a matched instance. -/
theorem replaceFrom_zero (old new : List Char) (c : Char) (cs : List Char) :
    replaceFrom old new 0 (c :: cs) =
      if old.isPrefixOf (c :: cs) then new ++ replaceFrom old new (old.length - 1) cs
      else c :: replaceFrom old new 0 cs := rfl

/-- The scan of `ReplaceAll` passes over the rest of a matched instance. -/
theorem replaceFrom_skip (old new : List Char) (o t : List Char) :
    replaceFrom old new o.length (o ++ t) = replaceFrom old new 0 t := by
  induction o with
  | nil => rfl
  | cons a o ih =>
    show replaceFrom old new (o.length + 1) (a :: (o ++ t)) = _
    rw [replaceFrom_succ]
    exact ih

/-- The scan of `ReplaceAll` at an instance of `old`. -/
theorem replaceFrom_at_instance (a : Char) (o new t : List Char) :
    replaceFrom (a :: o) new 0 (a :: o ++ t) = new ++ replaceFrom (a :: o) new 0 t := by
  show replaceFrom (a :: o) new 0 (a :: (o ++ t)) = _
  rw [replaceFrom_zero]
  have hp : (a :: o).isPrefixOf (a :: (o ++ t)) = true :=
    List.isPrefixOf_iff_prefix.mpr ⟨t, rfl⟩
  simp only [hp, if_true, List.length_cons, Nat.add_sub_cancel]
  rw [replaceFrom_skip]

/-- The scan of `ReplaceAll` leaves a text without an instance of `old` as it is. -/
theorem replaceFrom_unchanged (old new : List Char) :
    ∀ t : List Char, ¬ old <:+: t → replaceFrom old new 0 t = t := by
  intro t
  induction t with
  | nil => intro _; rfl
  | cons c cs ih =>
    intro h
    rw [replaceFrom_zero]
    have hp : old.isPrefixOf (c :: cs) = false := by
      apply Bool.eq_false_iff.mpr
      intro hp
      exact h (List.isPrefixOf_iff_prefix.mp hp).isInfix
    simp only [hp, Bool.false_eq_true, if_false]
    rw [ih (fun hi => h (List.infix_cons hi))]

/-- The function `strings.HasPrefix` on a string that starts with the prefix. -/
theorem hasPrefix_of_append (pre rest : String) : HasPrefix (pre ++ rest) pre = true := by
  unfold HasPrefix
  exact List.isPrefixOf_iff_prefix.mpr ⟨rest.data, by simp [String.data_append]⟩

/-- Two prefixes of one string that start with different runes. -/
theorem HasPrefix_first (s : String) (a b : Char) (p q : List Char) (hab : a ≠ b)
    (h : HasPrefix s ⟨a :: p⟩ = true) : HasPrefix s ⟨b :: q⟩ = false := by
  unfold HasPrefix at h ⊢
  apply Bool.eq_false_iff.mpr
  intro h2
  obtain ⟨t1, h1⟩ := List.isPrefixOf_iff_prefix.mp h
  obtain ⟨t2, h2⟩ := List.isPrefixOf_iff_prefix.mp h2
  rw [← h1] at h2
  simp at h2
  exact hab h2.1.symm

/-- The name `bin/<osarch>/<f>` after `ReplaceAll`, when `f` holds no `bin/<osarch>`. -/
theorem ReplaceAll_bin (osarch f : String)
    (hf : ¬ ("bin/" ++ osarch).data <:+: f.data) :
    ReplaceAll ("bin/" ++ osarch ++ "/" ++ f) ("bin/" ++ osarch) "bin" = "bin/" ++ f := by
  have hold : ("bin/" ++ osarch).data = 'b' :: (['i', 'n', '/'] ++ osarch.data) := by
    simp [String.data_append]
  have hname : ("bin/" ++ osarch ++ "/" ++ f).data =
      'b' :: (['i', 'n', '/'] ++ osarch.data) ++ ('/' :: f.data) := by
    simp [String.data_append]
  have hno : ¬ ('b' :: (['i', 'n', '/'] ++ osarch.data)) <:+: ('/' :: f.data) := by
    rw [List.infix_cons_iff]
    rintro (h | h)
    · obtain ⟨t, ht⟩ := h
      simp at ht
    · rw [← hold] at h
      exact hf h
  unfold ReplaceAll
  apply String.ext
  rw [hold, hname]
  simp only [List.isEmpty_cons, Bool.false_eq_true, if_false]
  rw [replaceFrom_at_instance, replaceFrom_unchanged _ _ _ hno]
  simp [String.data_append]

/-- C30, as stated, fails on the code. For the target `linux-arm64-crosscompile` the header
named `bin/linux_arm64/bin/linux_arm64/go`, which is `bin/<osarch>/<f>` with
`f = bin/linux_arm64/go`, is mapped to `bin/bin/go`, not to `bin/<f>`: every instance of
`bin/<osarch>` is replaced. And the header named `bin/linux_arm64x/go`, which starts with
`bin/` and is not of the form `bin/<osarch>/<f>`, is not dropped: it is renamed
`binx/go`. -/
theorem fixupCrossCompile_counterexample :
    HasSuffix armTarget.Builder "-crosscompile" = true ∧
    "bin/linux_arm64/bin/linux_arm64/go" =
      "bin/" ++ (armTarget.GOOS ++ "_" ++ armTarget.GOARCH) ++ "/" ++ "bin/linux_arm64/go" ∧
    fixupCrossCompile armTarget (demoHeader "bin/linux_arm64/bin/linux_arm64/go") =
      some (demoHeader "bin/bin/go") ∧
    demoHeader "bin/bin/go" ≠ demoHeader ("bin/" ++ "bin/linux_arm64/go") ∧
    HasPrefix "bin/linux_arm64x/go" "bin/" = true ∧
    HasPrefix "bin/linux_arm64x/go"
      ("bin/" ++ (armTarget.GOOS ++ "_" ++ armTarget.GOARCH) ++ "/") = false ∧
    fixupCrossCompile armTarget (demoHeader "bin/linux_arm64x/go") =
      some (demoHeader "binx/go") := by
  refine ⟨by decide, by decide, by decide, by decide, by decide, by decide, by decide⟩

/-- C30, amended. For every target whose builder name ends in `-crosscompile`, with
`osarch = GOOS ++ "_" ++ GOARCH`, the adjuster returned by `fixupCrossCompile` maps a header
named `bin/<osarch>/<f>`, where `f` does not contain `bin/<osarch>`, to the same header
named `bin/<f>`; drops every header whose name starts with `bin/` but not with
`bin/<osarch>`; drops every header whose name starts with `pkg/linux_amd64` or
`pkg/tool/linux_amd64`; and returns every header whose name starts with none of `bin/`,
`pkg/linux_amd64` and `pkg/tool/linux_amd64` unchanged. For every other target it is the
identity on headers. -/
theorem fixupCrossCompile_spec (target : Target) :
    (HasSuffix target.Builder "-crosscompile" = true →
      (∀ (h : Header) (f : String),
        h.Name = "bin/" ++ (target.GOOS ++ "_" ++ target.GOARCH) ++ "/" ++ f →
        ¬ ("bin/" ++ (target.GOOS ++ "_" ++ target.GOARCH)).data <:+: f.data →
        fixupCrossCompile target h = some { h with Name := "bin/" ++ f }) ∧
      (∀ h : Header, HasPrefix h.Name "bin/" = true →
        HasPrefix h.Name ("bin/" ++ (target.GOOS ++ "_" ++ target.GOARCH)) = false →
        fixupCrossCompile target h = none) ∧
      (∀ h : Header, HasPrefix h.Name "pkg/linux_amd64" = true ∨
          HasPrefix h.Name "pkg/tool/linux_amd64" = true →
        fixupCrossCompile target h = none) ∧
      (∀ h : Header, HasPrefix h.Name "bin/" = false →
        HasPrefix h.Name "pkg/linux_amd64" = false →
        HasPrefix h.Name "pkg/tool/linux_amd64" = false →
        fixupCrossCompile target h = some h)) ∧
    (HasSuffix target.Builder "-crosscompile" = false →
      ∀ h : Header, fixupCrossCompile target h = some h) := by
  constructor
  · intro hs
    have hfix : ∀ h : Header, fixupCrossCompile target h =
        if HasPrefix h.Name "bin/" then
          if HasPrefix h.Name ("bin/" ++ (target.GOOS ++ "_" ++ target.GOARCH)) then
            dropHostFiles
              (Header.mk (ReplaceAll h.Name ("bin/" ++ (target.GOOS ++ "_" ++ target.GOARCH)) "bin")
                h.Mode h.Size h.Typeflag)
          else none
        else dropHostFiles h := by
      intro h
      simp only [fixupCrossCompile, hs, Bool.not_true, Bool.false_eq_true, if_false]
    refine ⟨?_, ?_, ?_, ?_⟩
    · intro h f hname hf
      have h1 : HasPrefix h.Name "bin/" = true := by
        rw [hname, String.append_assoc, String.append_assoc]
        exact hasPrefix_of_append _ _
      have h2 : HasPrefix h.Name ("bin/" ++ (target.GOOS ++ "_" ++ target.GOARCH)) = true := by
        rw [hname, String.append_assoc]
        exact hasPrefix_of_append _ _
      have h3 : HasPrefix ("bin/" ++ f) "pkg/linux_amd64" = false :=
        HasPrefix_first _ 'b' 'p' _ _ (by decide) (hasPrefix_of_append "bin/" f)
      have h4 : HasPrefix ("bin/" ++ f) "pkg/tool/linux_amd64" = false :=
        HasPrefix_first _ 'b' 'p' _ _ (by decide) (hasPrefix_of_append "bin/" f)
      rw [hfix, h1, h2]
      simp only [if_true]
      rw [hname, ReplaceAll_bin _ f hf]
      simp [dropHostFiles, h3, h4]
    · intro h h1 h2
      rw [hfix, h1, h2]
      simp
    · intro h hp
      have h1 : HasPrefix h.Name "bin/" = false := by
        rcases hp with hp | hp
        · exact HasPrefix_first _ 'p' 'b' _ _ (by decide) hp
        · exact HasPrefix_first _ 'p' 'b' _ _ (by decide) hp
      rw [hfix, h1]
      rcases hp with hp | hp <;> simp [dropHostFiles, hp]
    · intro h h1 h2 h3
      rw [hfix, h1]
      simp [dropHostFiles, h2, h3]
  · intro hs h
    simp [fixupCrossCompile, hs]

/-- C30, amended, on the target `linux-arm64-crosscompile` and the header named
`bin/linux_arm64/go`. -/
theorem fixupCrossCompile_spec_witness :
    fixupCrossCompile armTarget (demoHeader "bin/linux_arm64/go") =
      some { demoHeader "bin/linux_arm64/go" with Name := "bin/" ++ "go" } :=
  ((fixupCrossCompile_spec armTarget).1 (by decide)).1 (demoHeader "bin/linux_arm64/go") "go"
    (by decide) (by decide)

end Task
